import Mathlib

/-!
# V3DLib: register allocation, liveness sets, the v3d lowering and the GCD kernel

A shallow embedding of `Lib/Liveness/LiveSet.cpp`, `Lib/v3d/SourceTranslate.cpp`,
`Lib/v3d/instr/Snippets.cpp`, `Examples/GCD.cpp` and the parts of `Lib/Target/Syntax.h` they
use, followed by the properties proved about them.

Conventions of the embedding:
* `int` values that may be negative are `Int`, in particular register ids (`typedef int RegId`,
  with the sentinel `-1`); sizes, loop counters and instruction indices are `Nat`.
* A function that can stop on an `assert`, on a fatal `error(..., true)` or on an access outside a
  vector returns `Except Failure _`; the `Failure` says which of these happened.
* Loops over a container are `List.foldlM` over its elements in iteration order.
-/

namespace V3DLib

/-! ## Registers (`Target/Reg.h` is used through these fields) -/

/-- Register tags.  `REG_A`/`REG_B` are the two register files (before allocation a `REG_A`
register is a variable), `NONE` marks a not yet allocated entry and `TMP_A` is the temporary
tag used while renaming. -/
inductive RegTag where
  | REG_A
  | REG_B
  | ACC
  | SPECIAL
  | NONE
  | TMP_A
  | TMP_B
  deriving DecidableEq, Repr

/-- A register: tag, id and the uniform-pointer mark read by `add_uniform_pointer_offset`. -/
structure Reg where
  tag : RegTag
  regId : Int
  isUniformPtr : Bool
  deriving DecidableEq, Repr

/-! ## Target instructions (`Target/Syntax.h`) -/

/-- Kinds of immediate (`enum ImmTag`). -/
inductive ImmTag where
  | IMM_INT32
  | IMM_FLOAT32
  | IMM_MASK
  deriving DecidableEq, Repr

/-- An immediate; the union of `intVal` and `floatVal` is kept as the 32-bit pattern. -/
structure Imm where
  tag : ImmTag
  intVal : Int
  deriving DecidableEq, Repr

/-- Kinds of small immediate (`enum SmallImmTag`). -/
inductive SmallImmTag where
  | SMALL_IMM
  | ROT_ACC
  | ROT_IMM
  deriving DecidableEq, Repr

/-- A small immediate (`struct SmallImm`). -/
structure SmallImm where
  tag : SmallImmTag
  val : Int
  deriving DecidableEq, Repr

/-- An operand: a register or a small immediate (`struct RegOrImm`, tag `REG` or `IMM`). -/
inductive RegOrImm where
  | REG (reg : Reg)
  | IMM (smallImm : SmallImm)
  deriving DecidableEq, Repr

/-- Branch target (`struct BranchTarget`). -/
structure BranchTarget where
  relative : Bool
  useRegOffset : Bool
  regOffset : Int
  immOffset : Int
  deriving DecidableEq, Repr

/-- Labels: `typedef int Label`. -/
abbrev Label := Int

/-- Condition flags (`instr/Conditions.h`): zero set/clear, negative set/clear. -/
inductive Flag where
  | ZS
  | ZC
  | NS
  | NC
  deriving DecidableEq, Repr

/-- Which flag an instruction sets (`SetCond`); `Z` is what `pushz()` selects. -/
inductive SetCond where
  | NO_COND
  | Z
  | N
  | C
  deriving DecidableEq, Repr

/-- Condition of an assignment (`AssignCond`). -/
inductive AssignCond where
  | NEVER
  | ALWAYS
  | FLAG (flag : Flag)
  deriving DecidableEq, Repr

/-- Tag of a branch condition (`BranchCond::tag`). -/
inductive BranchCondTag where
  | COND_ALL
  | COND_ANY
  | COND_ALWAYS
  | COND_NEVER
  deriving DecidableEq, Repr

/-- Branch condition (`BranchCond`): tag and flag, the two fields `Instr::allzc` writes. -/
structure BranchCond where
  tag : BranchCondTag
  flag : Flag
  deriving DecidableEq, Repr

/-- ALU opcodes (`instr/ALUOp.h`). -/
inductive ALUOp where
  | NOP
  | A_FADD
  | A_FSUB
  | A_FMIN
  | A_FMAX
  | A_FMINABS
  | A_FMAXABS
  | A_FtoI
  | A_ItoF
  | A_ADD
  | A_SUB
  | A_SHR
  | A_ASR
  | A_ROR
  | A_SHL
  | A_MIN
  | A_MAX
  | A_BAND
  | A_BOR
  | A_BXOR
  | A_BNOT
  | A_CLZ
  | M_FMUL
  | M_MUL24
  | M_ROTATE
  | A_TIDX
  | A_EIDX
  | A_FFLOOR
  deriving DecidableEq, Repr

/-- QPU instructions (`struct Instr`): one constructor per `InstrTag`, carrying the members of
the union that belong to the tag. -/
inductive Instr where
  | LI (m_setCond : SetCond) (cond : AssignCond) (dest : Reg) (imm : Imm)
  | ALU (m_setCond : SetCond) (cond : AssignCond) (dest : Reg) (srcA : RegOrImm) (op : ALUOp)
      (srcB : RegOrImm)
  | BR (cond : BranchCond) (target : BranchTarget)
  | END
  | BRL (cond : BranchCond) (label : Label)
  | LAB (m_label : Label)
  | NO_OP
  | DMA_LOAD_WAIT
  | DMA_STORE_WAIT
  | SINC (semaId : Int)
  | SDEC (semaId : Int)
  | IRQ
  | PRS (text : String)
  | PRI (reg : Reg)
  | PRF (reg : Reg)
  | VPM_STALL
  | RECV (dest : Reg)
  | TMU0_TO_ACC4
  | INIT_BEGIN
  | INIT_END
  | TMUWT
  deriving DecidableEq, Repr

/-! ## Outcomes -/

/-- Ways in which the embedded functions stop without a result. -/
inductive Failure where
  /-- An `assert(...)` of the source does not hold. -/
  | assertion
  /-- An element access outside a `std::vector` or outside the instruction list. -/
  | out_of_range
  /-- The fatal error of `LiveSets::choose_register`:
  "register allocation failed, insufficient capacity". -/
  | insufficient_capacity
  /-- The fatal error of v3d `regAlloc`: "register allocation failed for target instruction
  `i`: `mnemonic`", with the number `i` that is printed and the instruction whose mnemonic is
  printed. -/
  | regalloc_failed (i : Nat) (instr : Instr)
  /-- A call of `fatal(msg)`, with the message. -/
  | fatal (msg : String)
  deriving DecidableEq, Repr

/-! ## `LiveSet` and `LiveSets` (`Liveness/LiveSet.cpp`) -/

/-- A `LiveSet` is a `std::set<RegId>`: its elements, kept in ascending order without
repetition, which is also the order in which `for (auto j : set)` visits them. -/
structure LiveSet where
  elems : List Int
  deriving DecidableEq, Repr

/-- `std::set::insert`. -/
def LiveSet.insert (s : LiveSet) (id : Int) : LiveSet :=
  if id ∈ s.elems then s else ⟨List.orderedInsert (· ≤ ·) id s.elems⟩

/-- `LiveSet::member`: `find(rhs) != end()`. -/
def LiveSet.member (s : LiveSet) (rhs : Int) : Bool :=
  decide (rhs ∈ s.elems)

/-- `std::set::clear`. -/
def LiveSet.clear (_s : LiveSet) : LiveSet := ⟨[]⟩

/-- The use and def sets of one instruction (`UseDef`; each is a `Set<RegId>`, a sequence
indexed from `0` to `size() - 1`).  The member `def` is written `def_`. -/
structure UseDef where
  use : List Int
  def_ : List Int
  deriving DecidableEq, Repr

/-- The result of the liveness analysis as `LiveSets::init` and `regAlloc` read it:
`live.size()` and, for instruction `i`, the set that `live.computeLiveOut(i, liveOut)` leaves in
`liveOut`. -/
structure Liveness where
  size : Nat
  computeLiveOut : Nat → LiveSet

/-- `LiveSets`: `m_size` sets, one per variable. -/
structure LiveSets where
  m_size : Nat
  m_sets : List LiveSet
  deriving DecidableEq, Repr

/-- Constructor `LiveSets::LiveSets(int size)`: asserts `size > 0`, then `size` empty sets. -/
def LiveSets.create (size : Nat) : Except Failure LiveSets :=
  if 0 < size then .ok ⟨size, List.replicate size ⟨[]⟩⟩ else .error .assertion

/-- `LiveSets::operator[]`: asserts `index >= 0 && index < m_size`. -/
def LiveSets.at (s : LiveSets) (index : Int) : Except Failure LiveSet :=
  if 0 ≤ index ∧ index < s.m_size then .ok (s.m_sets.getD index.toNat ⟨[]⟩)
  else .error .assertion

/-- The statement `(*this)[index].insert(id)`. -/
def LiveSets.insertAt (s : LiveSets) (index : Int) (id : Int) : Except Failure LiveSets :=
  if 0 ≤ index ∧ index < s.m_size then
    .ok { s with m_sets := s.m_sets.modify (fun set => set.insert id) index.toNat }
  else .error .assertion

/-- Body of the loop `for (auto rx : liveOut)` of `LiveSets::init`. -/
def LiveSets.init_rx (liveOut : LiveSet) (defs : List Int) (s : LiveSets) (rx : Int) :
    Except Failure LiveSets := do
  let s ← liveOut.elems.foldlM
    (fun s ry => if rx ≠ ry then s.insertAt rx ry else pure s) s
  defs.foldlM
    (fun s rd =>
      if rd ≠ rx then do
        let s ← s.insertAt rx rd
        s.insertAt rd rx
      else pure s) s

/-- Body of the loop over the instructions of `LiveSets::init`, for an instruction with the
given live-out and def sets. -/
def LiveSets.init_instr (liveOut : LiveSet) (defs : List Int) (s : LiveSets) :
    Except Failure LiveSets :=
  liveOut.elems.foldlM (LiveSets.init_rx liveOut defs) s

/-- The loop of `LiveSets::init` from instruction index `i` on. -/
def LiveSets.init_from (useDef : Instr → UseDef) (live : Liveness) :
    Nat → List Instr → LiveSets → Except Failure LiveSets
  | _, [], s => .ok s
  | i, instr :: rest, s => do
    let s ← LiveSets.init_instr (live.computeLiveOut i) (useDef instr).def_ s
    LiveSets.init_from useDef live (i + 1) rest s

/-- `LiveSets::init`.  `useDef` is what `useDefSet.set_used(instrs[i])` computes for an
instruction. -/
def LiveSets.init (s : LiveSets) (useDef : Instr → UseDef) (instrs : List Instr)
    (live : Liveness) : Except Failure LiveSets :=
  LiveSets.init_from useDef live 0 instrs s

/-- Read `v[i]` of a `std::vector`; an index outside the vector has no defined result. -/
def vecGet {α : Type} (v : List α) (i : Int) : Except Failure α :=
  if 0 ≤ i then
    match v[i.toNat]? with
    | some a => .ok a
    | none => .error .out_of_range
  else .error .out_of_range

/-- Write `v[i] = a` of a `std::vector`; an index outside the vector has no defined result. -/
def vecSet {α : Type} (v : List α) (i : Int) (a : α) : Except Failure (List α) :=
  if 0 ≤ i ∧ i.toNat < v.length then .ok (v.set i.toNat a) else .error .out_of_range

/-- `LiveSets::possible_registers`; `NUM_REGS` is `Platform::size_regfile()`. -/
def LiveSets.possible_registers (s : LiveSets) (NUM_REGS : Nat) (index : Int)
    (alloc : List Reg) (reg_tag : RegTag) : Except Failure (List Bool) := do
  if ¬ (reg_tag = .REG_A ∨ reg_tag = .REG_B) then throw Failure.assertion
  let possible := List.replicate NUM_REGS true
  let set ← s.at index
  set.elems.foldlM
    (fun possible j => do
      let neighbour ← vecGet alloc j
      if neighbour.tag = reg_tag then vecSet possible neighbour.regId false
      else pure possible) possible

/-- The loop `for (j = ...; j < possible.size(); j++) if (possible[j]) { chosenA = j; break; }`
of `choose_register`, started at index `j` on the rest of the vector with `chosenA = -1`. -/
def LiveSets.choose_register_scan : List Bool → Nat → Int
  | [], _ => -1
  | b :: rest, j => if b then (j : Int) else LiveSets.choose_register_scan rest (j + 1)

/-- `LiveSets::choose_register`. -/
def LiveSets.choose_register (possible : List Bool) (check_limit : Bool) :
    Except Failure Int :=
  if possible.isEmpty then .error .assertion
  else
    let chosenA := LiveSets.choose_register_scan possible 0
    if check_limit && decide (chosenA < 0) then .error .insufficient_capacity
    else .ok chosenA

/-! ## Renaming (`Target/Subst`) and use/def extraction (`Target/Liveness`) -/

/-- Modelled from the spec: the variable a register slot holds, for `useDef` (not among the
sources).  Spec, section 4.3: "`use(i)`, `def(i)` extracted by inspecting the
operand/destination slots of instruction i. Immediates and special registers do not
contribute."  On v3d the variables are the registers tagged `REG_A`. -/
def regVar (r : Reg) : List Int :=
  if r.tag = .REG_A then [r.regId] else []

/-- Modelled from the spec: the variable an operand slot holds (none for an immediate). -/
def operandVar : RegOrImm → List Int
  | .REG r => regVar r
  | .IMM _ => []

/-- Modelled from the spec: `useDef(instr, &useDefSet)` of `Target/Liveness` (not among the
sources): the def set holds the variable of the destination slot, the use set the variables of
the operand slots, each once. -/
def useDef : Instr → UseDef
  | .LI _ _ dest _ => ⟨[], regVar dest⟩
  | .ALU _ _ dest srcA _ srcB =>
      ⟨operandVar srcA ++ (operandVar srcB).filter (fun r => decide (r ∉ operandVar srcA)),
       regVar dest⟩
  | .RECV dest => ⟨[], regVar dest⟩
  | .PRI r => ⟨regVar r, []⟩
  | .PRF r => ⟨regVar r, []⟩
  | _ => ⟨[], []⟩

/-- Modelled from the spec: one register slot under a renaming of register `(vt, v)` to
`(wt, w)`; other registers are left alone. -/
def renameReg (vt : RegTag) (v : Int) (wt : RegTag) (w : Int) (r : Reg) : Reg :=
  if r.tag = vt ∧ r.regId = v then { r with tag := wt, regId := w } else r

/-- Modelled from the spec: one operand slot under a renaming. -/
def renameOperand (vt : RegTag) (v : Int) (wt : RegTag) (w : Int) : RegOrImm → RegOrImm
  | .REG r => .REG (renameReg vt v wt w r)
  | .IMM i => .IMM i

/-- Modelled from the spec: `renameDest(instr, vt, v, wt, w)` of `Target/Subst` (not among the
sources): the destination slot of the instruction, when it is register `(vt, v)`, becomes
`(wt, w)`.  Spec, section 4.4: "every occurrence of a VReg (in destination or operand slots) is
substituted with the allocated physical register". -/
def renameDest (instr : Instr) (vt : RegTag) (v : Int) (wt : RegTag) (w : Int) : Instr :=
  match instr with
  | .LI sc c dest imm => .LI sc c (renameReg vt v wt w dest) imm
  | .ALU sc c dest a op b => .ALU sc c (renameReg vt v wt w dest) a op b
  | .RECV dest => .RECV (renameReg vt v wt w dest)
  | i => i

/-- Modelled from the spec: `renameUses(instr, vt, v, wt, w)` of `Target/Subst` (not among the
sources): every operand slot of the instruction that is register `(vt, v)` becomes `(wt, w)`. -/
def renameUses (instr : Instr) (vt : RegTag) (v : Int) (wt : RegTag) (w : Int) : Instr :=
  match instr with
  | .ALU sc c dest a op b =>
      .ALU sc c dest (renameOperand vt v wt w a) op (renameOperand vt v wt w b)
  | .PRI r => .PRI (renameReg vt v wt w r)
  | .PRF r => .PRF (renameReg vt v wt w r)
  | i => i

/-- Modelled from the spec: one register slot under `substRegTag`. -/
def substTag (vt wt : RegTag) (r : Reg) : Reg :=
  if r.tag = vt then { r with tag := wt } else r

/-- Modelled from the spec: one operand slot under `substRegTag`. -/
def substTagOperand (vt wt : RegTag) : RegOrImm → RegOrImm
  | .REG r => .REG (substTag vt wt r)
  | .IMM i => .IMM i

/-- Modelled from the spec: `substRegTag(instr, vt, wt)` of `Target/Subst` (not among the
sources): every register slot of the instruction tagged `vt` gets tag `wt`.  Spec, section 4.4:
"The register class tag is updated". -/
def substRegTag (instr : Instr) (vt wt : RegTag) : Instr :=
  match instr with
  | .LI sc c dest imm => .LI sc c (substTag vt wt dest) imm
  | .ALU sc c dest a op b =>
      .ALU sc c (substTag vt wt dest) (substTagOperand vt wt a) op (substTagOperand vt wt b)
  | .RECV dest => .RECV (substTag vt wt dest)
  | .PRI r => .PRI (substTag vt wt r)
  | .PRF r => .PRF (substTag vt wt r)
  | i => i

/-! ## v3d `SourceTranslate::regAlloc` (`v3d/SourceTranslate.cpp`) -/

/-- The entries of `alloc` after `std::vector<Reg> alloc(numVars)` and the loop setting every
tag to `NONE`. -/
def regAlloc_init (numVars : Nat) : List Reg :=
  List.replicate numVars ⟨.NONE, 0, false⟩

/-- Body of the loop "Allocate registers to the variables" of `regAlloc`, for variable `i`.
The diagnostic reads `(*instrs)[i]`. -/
def regAlloc_var (liveWith : LiveSets) (NUM_REGS : Nat) (instrs : List Instr)
    (alloc : List Reg) (i : Nat) : Except Failure (List Reg) := do
  let possible ← liveWith.possible_registers NUM_REGS (i : Int) alloc .REG_A
  let alloc := alloc.modify (fun r => { r with tag := .REG_A }) i
  let regId ← LiveSets.choose_register possible false
  if regId < 0 then
    match instrs[i]? with
    | some instr => throw (Failure.regalloc_failed i instr)
    | none => throw Failure.out_of_range
  else
    pure (alloc.modify (fun r => { r with regId := regId }) i)

/-- The allocation loop of `regAlloc` run for the variables `0 .. k-1`. -/
def regAlloc_loop (liveWith : LiveSets) (NUM_REGS numVars : Nat) (instrs : List Instr)
    (k : Nat) : Except Failure (List Reg) :=
  (List.range k).foldlM (regAlloc_var liveWith NUM_REGS instrs) (regAlloc_init numVars)

/-- Steps 0 to 2 of `regAlloc`: the size assertion and the sets `liveWith`.  `live` is the
liveness of `instrs` (`live.compute(*instrs)`), `numVars` is `getFreshVarCount()`. -/
def regAlloc_liveWith (ud : Instr → UseDef) (numVars : Nat) (live : Liveness)
    (instrs : List Instr) : Except Failure LiveSets := do
  if instrs.length ≠ live.size then throw Failure.assertion
  let liveWith ← LiveSets.create numVars
  liveWith.init ud instrs live

/-- Steps 0 to 3 of `regAlloc`: the vector `alloc` after the allocation loop. -/
def regAlloc_alloc (ud : Instr → UseDef) (NUM_REGS numVars : Nat) (live : Liveness)
    (instrs : List Instr) : Except Failure (List Reg) := do
  let liveWith ← regAlloc_liveWith ud numVars live instrs
  regAlloc_loop liveWith NUM_REGS numVars instrs numVars

/-- Body of the loop of step 4 of `regAlloc`: apply the allocation to one instruction. -/
def regAlloc_apply (ud : Instr → UseDef) (alloc : List Reg) (instr : Instr) :
    Except Failure Instr := do
  let useDefSet := ud instr
  let instr ← useDefSet.def_.foldlM
    (fun instr r => do
      let a ← vecGet alloc r
      pure (renameDest instr .REG_A r .TMP_A a.regId)) instr
  let instr ← useDefSet.use.foldlM
    (fun instr r => do
      let a ← vecGet alloc r
      pure (renameUses instr .REG_A r .TMP_A a.regId)) instr
  pure (substRegTag instr .TMP_A .REG_A)

/-- `SourceTranslate::regAlloc`: the instruction list it leaves in `*instrs`. -/
def regAlloc (ud : Instr → UseDef) (NUM_REGS numVars : Nat) (live : Liveness)
    (instrs : List Instr) : Except Failure (List Instr) := do
  let alloc ← regAlloc_alloc ud NUM_REGS numVars live instrs
  instrs.mapM (regAlloc_apply ud alloc)

/-! ## Predicates and example data used in the statements -/

/-- `v` is a member of the set of variable `u`: `(*this)[u].member(v)`, false when `u` is not
an index of a set. -/
def LiveSets.interferes (s : LiveSets) (u v : Int) : Bool :=
  match s.at u with
  | .ok set => set.member v
  | .error _ => false

/-- The vector of sets has `m_size` entries. -/
def LiveSets.WF (s : LiveSets) : Prop := s.m_sets.length = s.m_size

/-- State `s'` is state `s` with exactly the memberships `R` added. -/
def LiveSets.Adds (s s' : LiveSets) (R : Int → Int → Prop) : Prop :=
  s'.WF ∧ s'.m_size = s.m_size ∧
    ∀ u v, s'.interferes u v = true ↔ (s.interferes u v = true ∨ R u v)

/-- Instruction with live-out set `liveOut` and def set `defs` connects `u` to `v`: the two are
distinct and either both are live-out, or one is live-out and the other is defined. -/
def connects (liveOut : LiveSet) (defs : List Int) (u v : Int) : Prop :=
  u ≠ v ∧ ((u ∈ liveOut.elems ∧ v ∈ liveOut.elems) ∨ (u ∈ liveOut.elems ∧ v ∈ defs) ∨
    (u ∈ defs ∧ v ∈ liveOut.elems))

/-- Register `c` is the lowest register of `[0, N)` that no neighbour of variable `i` with a
smaller index holds in `alloc`. -/
def LowestFree (liveWith : LiveSets) (N : Nat) (alloc : List Reg) (i : Nat) (c : Int) : Prop :=
  0 ≤ c ∧ c < N ∧
  (∀ j r, liveWith.interferes i j = true → j < (i : Int) → vecGet alloc j = .ok r →
    r.regId ≠ c) ∧
  (∀ c', 0 ≤ c' → c' < c → ∃ j r, liveWith.interferes i j = true ∧ j < (i : Int) ∧
    vecGet alloc j = .ok r ∧ r.regId = c')

/-- State of `alloc` after the allocation loop has handled the variables below `k`. -/
def AllocInv (liveWith : LiveSets) (N numVars k : Nat) (alloc : List Reg) : Prop :=
  alloc.length = numVars ∧
  (∀ i, i < numVars → k ≤ i → alloc[i]? = some ⟨.NONE, 0, false⟩) ∧
  (∀ i, i < k → ∃ r, alloc[i]? = some r ∧ r.tag = .REG_A ∧
    LowestFree liveWith N alloc i r.regId)

/-- The diagnostic of `regAlloc` for variable `k`: the fatal error when `(*instrs)[k]` exists,
an access outside the instruction list otherwise. -/
def regAlloc_failure (instrs : List Instr) (k : Nat) : Failure :=
  match instrs[k]? with
  | some instr => .regalloc_failed k instr
  | none => .out_of_range

/-- A register of file A without the uniform-pointer mark (`rf(index)`). -/
def regA (index : Int) : Reg := ⟨.REG_A, index, false⟩

/-- Example list: a loop `L0: acc0 = v0 + v1; v2 = 7; goto L0`. -/
def exampleLoop : List Instr :=
  [.LAB 0,
   .ALU .NO_COND .ALWAYS ⟨.ACC, 0, false⟩ (.REG (regA 0)) .A_ADD (.REG (regA 1)),
   .LI .NO_COND .ALWAYS (regA 2) ⟨.IMM_INT32, 7⟩,
   .BRL ⟨.COND_ALWAYS, .ZS⟩ 0]

/-- Liveness of `exampleLoop`: `v0` and `v1` are live-out everywhere. -/
def exampleLive : Liveness := ⟨4, fun _ => ⟨[0, 1]⟩⟩

/-- The sets `LiveSets::init` builds for `exampleLoop`. -/
def exampleLiveWith : LiveSets := ⟨3, [⟨[1, 2]⟩, ⟨[0, 2]⟩, ⟨[0, 1]⟩]⟩

/-- The vector `alloc` that `regAlloc` computes for `exampleLoop`. -/
def exampleAlloc : List Reg := [regA 0, regA 1, regA 2]

/-- All ids of the list are indices of a set: they lie in `[0, n)`. -/
def idsBelow (n : Nat) (l : List Int) : Prop := ∀ x ∈ l, 0 ≤ x ∧ x < (n : Int)

/-- A loop that reads the 33 variables `v0 .. v32` and defines none:
`L0: acc0 = v0 + v1; ...; acc0 = v30 + v31; acc0 = v32 + v32; goto L0` (19 instructions). -/
def loop33 : List Instr :=
  [.LAB 0] ++
  List.map (fun k : Nat =>
    Instr.ALU .NO_COND .ALWAYS ⟨.ACC, 0, false⟩ (.REG (regA (2 * (k : Int)))) .A_ADD
      (.REG (regA (2 * (k : Int) + 1)))) (List.range 16) ++
  [.ALU .NO_COND .ALWAYS ⟨.ACC, 0, false⟩ (.REG (regA 32)) .A_ADD (.REG (regA 32)),
   .BRL ⟨.COND_ALWAYS, .ZS⟩ 0]

/-- The loop `loop33` with 15 no-ops before the branch (34 instructions); the instruction at
index 32 is a no-op, variable `v32` is read at index 17. -/
def loop33_padded : List Instr :=
  [.LAB 0] ++
  List.map (fun k : Nat =>
    Instr.ALU .NO_COND .ALWAYS ⟨.ACC, 0, false⟩ (.REG (regA (2 * (k : Int)))) .A_ADD
      (.REG (regA (2 * (k : Int) + 1)))) (List.range 16) ++
  [.ALU .NO_COND .ALWAYS ⟨.ACC, 0, false⟩ (.REG (regA 32)) .A_ADD (.REG (regA 32))] ++
  List.replicate 15 .NO_OP ++
  [.BRL ⟨.COND_ALWAYS, .ZS⟩ 0]

/-- Liveness of a loop of `n` instructions in which the variables `v0 .. v32` are read and
never defined: all of them are live-out at every instruction. -/
def live33 (n : Nat) : Liveness := ⟨n, fun _ => ⟨List.map (fun k : Nat => (k : Int)) (List.range 33)⟩⟩

/-- The register of an operand slot, if it holds one. -/
def operandRegs : RegOrImm → List Reg
  | .REG r => [r]
  | .IMM _ => []

/-- The destination and operand register slots of an instruction. -/
def regSlots : Instr → List Reg
  | .LI _ _ dest _ => [dest]
  | .ALU _ _ dest a _ b => dest :: (operandRegs a ++ operandRegs b)
  | .RECV dest => [dest]
  | .PRI r => [r]
  | .PRF r => [r]
  | _ => []

/-- Apply `f` to the destination slot of an instruction. -/
def mapDest (f : Reg → Reg) : Instr → Instr
  | .LI sc c dest imm => .LI sc c (f dest) imm
  | .ALU sc c dest a op b => .ALU sc c (f dest) a op b
  | .RECV dest => .RECV (f dest)
  | i => i

/-- Apply `f` to the register of an operand slot. -/
def mapOperand (f : Reg → Reg) : RegOrImm → RegOrImm
  | .REG r => .REG (f r)
  | .IMM i => .IMM i

/-- Apply `f` to the operand slots of an instruction. -/
def mapUses (f : Reg → Reg) : Instr → Instr
  | .ALU sc c dest a op b => .ALU sc c dest (mapOperand f a) op (mapOperand f b)
  | .PRI r => .PRI (f r)
  | .PRF r => .PRF (f r)
  | i => i

/-- The substitution of the spec's rewrite step, as one simultaneous substitution: `f` is
applied once to every destination and operand slot of the instruction (spec, section 4.4:
"every occurrence of a VReg (in destination or operand slots) is substituted with the allocated
physical register"). -/
def substituteRegs (f : Reg → Reg) : Instr → Instr
  | .LI sc c dest imm => .LI sc c (f dest) imm
  | .ALU sc c dest a op b => .ALU sc c (f dest) (mapOperand f a) op (mapOperand f b)
  | .RECV dest => .RECV (f dest)
  | .PRI r => .PRI (f r)
  | .PRF r => .PRF (f r)
  | i => i

/-- The allocated register of a slot: a variable `r` of file A becomes register
`alloc[r].regId` of file A, a register of any other tag stays what it is. -/
def allocReg (alloc : List Reg) (r : Reg) : Reg :=
  if r.tag = .REG_A then
    match vecGet alloc r.regId with
    | .ok a => { r with regId := a.regId }
    | .error _ => r
  else r

/-- A slot after the renamings of the variables in `l`: a variable of `l` carries the
temporary tag and its allocated register. -/
def tmpReg (alloc : List Reg) (l : List Int) (d : Reg) : Reg :=
  if d.tag = .REG_A ∧ d.regId ∈ l then
    match vecGet alloc d.regId with
    | .ok a => { d with tag := .TMP_A, regId := a.regId }
    | .error _ => d
  else d

/-- Example list `v0 = 1; v1 = v0 + v0; v2 = v1 + v1; acc0 = v1 + v2`. -/
def exampleChain : List Instr :=
  [.LI .NO_COND .ALWAYS (regA 0) ⟨.IMM_INT32, 1⟩,
   .ALU .NO_COND .ALWAYS (regA 1) (.REG (regA 0)) .A_ADD (.REG (regA 0)),
   .ALU .NO_COND .ALWAYS (regA 2) (.REG (regA 1)) .A_ADD (.REG (regA 1)),
   .ALU .NO_COND .ALWAYS ⟨.ACC, 0, false⟩ (.REG (regA 1)) .A_ADD (.REG (regA 2))]

/-- Liveness of `exampleChain`: live-out sets `{v0}`, `{v1}`, `{v1, v2}`, `{}`. -/
def exampleChainLive : Liveness :=
  ⟨4, fun i => match i with
    | 0 => ⟨[0]⟩
    | 1 => ⟨[1]⟩
    | 2 => ⟨[1, 2]⟩
    | _ => ⟨[]⟩⟩

/-- The vector `alloc` of `exampleChain`: only `v1` and `v2` interfere. -/
def exampleChainAlloc : List Reg := [regA 0, regA 0, regA 1]

/-- The list `regAlloc` leaves for `exampleChain`:
`r0 = 1; r0 = r0 + r0; r1 = r0 + r0; acc0 = r0 + r1`. -/
def exampleChainOut : List Instr :=
  [.LI .NO_COND .ALWAYS (regA 0) ⟨.IMM_INT32, 1⟩,
   .ALU .NO_COND .ALWAYS (regA 0) (.REG (regA 0)) .A_ADD (.REG (regA 0)),
   .ALU .NO_COND .ALWAYS (regA 1) (.REG (regA 0)) .A_ADD (.REG (regA 0)),
   .ALU .NO_COND .ALWAYS ⟨.ACC, 0, false⟩ (.REG (regA 0)) .A_ADD (.REG (regA 1))]

/-! ## The v3d init block (`add_init` of `v3d/SourceTranslate.cpp`) -/

/-- Modelled from the spec: accumulator `ACC0` (`extern Reg const ACC0`; the definitions of the
register constants are not among the sources). -/
def ACC0 : Reg := ⟨.ACC, 0, false⟩

/-- Modelled from the spec: accumulator `ACC1`. -/
def ACC1 : Reg := ⟨.ACC, 1, false⟩

/-- Modelled from the spec: the special register `ELEM_ID` (element number of a lane). -/
def ELEM_ID : Reg := ⟨.SPECIAL, 1, false⟩

/-- Modelled from the spec: the special register `QPU_ID`; on v3d it reads the thread index
(spec, section 4.5: the prologue "reads the thread index"). -/
def QPU_ID : Reg := ⟨.SPECIAL, 2, false⟩

/-- Modelled from the spec: `rf(uint8_t index)`, entry `index` of the register file
(declared in `Target/Syntax.h`, body not among the sources). -/
def rf (index : Nat) : Reg := ⟨.REG_A, (index : Int), false⟩

/-- Modelled from the spec: a small-immediate operand with value `n`. -/
def smallImm (n : Int) : RegOrImm := .IMM ⟨.SMALL_IMM, n⟩

/-- Modelled from the spec: the instruction an ALU builder of `Target::instr` returns
(declared in `Target/Syntax.h`, bodies not among the sources): unconditional, no flags set. -/
def genInstr (op : ALUOp) (dst : Reg) (srcA srcB : RegOrImm) : Instr :=
  .ALU .NO_COND .ALWAYS dst srcA op srcB

/-- Modelled from the spec: `mov(Reg dst, int n)`, the `or` of the immediate with itself. -/
def mov_imm (dst : Reg) (n : Int) : Instr := genInstr .A_BOR dst (smallImm n) (smallImm n)

/-- Modelled from the spec: `mov(Reg dst, Reg src)`, the `or` of the register with itself. -/
def mov (dst src : Reg) : Instr := genInstr .A_BOR dst (.REG src) (.REG src)

/-- Modelled from the spec: `sub(Reg dst, Reg srcA, int n)`. -/
def sub (dst srcA : Reg) (n : Int) : Instr := genInstr .A_SUB dst (.REG srcA) (smallImm n)

/-- Modelled from the spec: `shr(Reg dst, Reg srcA, int n)`, the zero-filling shift (spec,
section 4.5: "unsigned-shift-right is zero-filling"). -/
def shr (dst srcA : Reg) (n : Int) : Instr := genInstr .A_SHR dst (.REG srcA) (smallImm n)

/-- Modelled from the spec: `shl(Reg dst, Reg srcA, int val)`. -/
def shl (dst srcA : Reg) (val : Int) : Instr := genInstr .A_SHL dst (.REG srcA) (smallImm val)

/-- Modelled from the spec: `band(Reg dst, Reg srcA, int n)`. -/
def band (dst srcA : Reg) (n : Int) : Instr := genInstr .A_BAND dst (.REG srcA) (smallImm n)

/-- Modelled from the spec: `add(Reg dst, Reg srcA, Reg srcB)`. -/
def add (dst srcA srcB : Reg) : Instr := genInstr .A_ADD dst (.REG srcA) (.REG srcB)

/-- Modelled from the spec: `branch(Label label)`, an unconditional branch to a label. -/
def branch (label : Label) : Instr := .BRL ⟨.COND_ALWAYS, .ZS⟩ label

/-- Modelled from the spec: `Instr::pushz()` (declared in `Target/Syntax.h`, body not among
the sources): the instruction sets the zero flag from its result. -/
def Instr.pushz : Instr → Instr
  | .LI _ c dest imm => .LI .Z c dest imm
  | .ALU _ c dest a op b => .ALU .Z c dest a op b
  | i => i

/-- `Instr::allzc()` (`Target/Syntax.h`): asserts the tag is `BRL`, then sets the condition to
"all lanes, zero flag clear". -/
def Instr.allzc : Instr → Except Failure Instr
  | .BRL _ label => .ok (.BRL ⟨.COND_ALL, .ZC⟩ label)
  | _ => .error .assertion

/-- `label(Label in_label)` of `v3d/SourceTranslate.cpp`: an instruction with tag `LAB`. -/
def label (in_label : Label) : Instr := .LAB in_label

/-- The instructions `add_init` puts into `ret` before it appends the uniform-pointer adds:
the two `ret << ...` statements up to `shl(ACC0, ACC1, 2)`.  `RSV_QPU_ID` and `RSV_NUM_QPUS`
are the indices of the two reserved variables (`Source/Var.h`, not among the sources),
`endifLabel` is the result of `freshLabel()`. -/
def add_init_head (RSV_QPU_ID RSV_NUM_QPUS : Nat) (endifLabel : Label) :
    Except Failure (List Instr) := do
  let br ← (branch endifLabel).allzc
  pure
    [mov_imm (rf RSV_QPU_ID) 0,
     (sub ACC0 (rf RSV_NUM_QPUS) 8).pushz,
     br,
     mov ACC0 QPU_ID,
     shr ACC0 ACC0 2,
     band (rf RSV_QPU_ID) ACC0 15,
     label endifLabel,
     shl ACC1 (rf RSV_QPU_ID) 4,
     mov ACC0 ELEM_ID,
     add ACC1 ACC1 ACC0,
     shl ACC0 ACC1 2]

/-! ## Execution of target instructions on one QPU -/

/-- A vector register: one 32-bit word per lane, 16 lanes. -/
abbrev Vec := Fin 16 → Nat

/-- The same word in every lane. -/
def broadcast (x : Nat) : Vec := fun _ => x

/-- Modelled from the spec: the state of a QPU as far as the init block touches it: register
file, accumulators, the zero flag of every lane, and the index of the next instruction. -/
structure QPU where
  rfA : Int → Vec
  acc : Int → Vec
  zflag : Fin 16 → Bool
  pc : Nat

/-- Modelled from the spec: what the special registers read: the thread index (the same in
every lane) and the element index of every lane. -/
structure Env where
  tidx : Nat
  eidx : Vec

/-- Modelled from the spec: read a register. -/
def readReg (env : Env) (s : QPU) (r : Reg) : Option Vec :=
  match r.tag with
  | .REG_A => some (s.rfA r.regId)
  | .ACC => some (s.acc r.regId)
  | .SPECIAL =>
    if r.regId = QPU_ID.regId then some (broadcast env.tidx)
    else if r.regId = ELEM_ID.regId then some env.eidx
    else none
  | _ => none

/-- Modelled from the spec: read an operand; a small immediate is its 32-bit two's-complement
word in every lane. -/
def readOperand (env : Env) (s : QPU) : RegOrImm → Option Vec
  | .REG r => readReg env s r
  | .IMM ⟨.SMALL_IMM, v⟩ => some (broadcast (v % 2 ^ 32).toNat)
  | .IMM _ => none

/-- Modelled from the spec: the integer ALU operations the init block uses, on 32-bit words
(spec, section 4.5: "Integer operations are 32-bit two's-complement; unsigned-shift-right is
zero-filling").  Shifts use the low five bits of the second operand. -/
def aluFun : ALUOp → Option (Nat → Nat → Nat)
  | .A_ADD => some (fun a b => (a + b) % 2 ^ 32)
  | .A_SUB => some (fun a b => (a + (2 ^ 32 - b % 2 ^ 32)) % 2 ^ 32)
  | .A_SHL => some (fun a b => (a <<< (b % 32)) % 2 ^ 32)
  | .A_SHR => some (fun a b => (a % 2 ^ 32) >>> (b % 32))
  | .A_BAND => some (fun a b => a &&& b)
  | .A_BOR => some (fun a b => a ||| b)
  | _ => none

/-- Modelled from the spec: write a vector to a register of file A or to an accumulator. -/
def writeReg (s : QPU) (r : Reg) (v : Vec) : Option QPU :=
  match r.tag with
  | .REG_A => some { s with rfA := fun i => if i = r.regId then v else s.rfA i }
  | .ACC => some { s with acc := fun i => if i = r.regId then v else s.acc i }
  | _ => none

/-- Modelled from the spec: whether a branch with condition `cond` is taken, from the zero
flags of the 16 lanes. -/
def branchTaken (cond : BranchCond) (zflag : Fin 16 → Bool) : Option Bool :=
  match cond.tag, cond.flag with
  | .COND_ALWAYS, _ => some true
  | .COND_NEVER, _ => some false
  | .COND_ALL, .ZC => some (decide (∀ l : Fin 16, zflag l = false))
  | .COND_ALL, .ZS => some (decide (∀ l : Fin 16, zflag l = true))
  | .COND_ANY, .ZC => some (decide (∃ l : Fin 16, zflag l = false))
  | .COND_ANY, .ZS => some (decide (∃ l : Fin 16, zflag l = true))
  | _, _ => none

/-- Index of the definition of a label in the list. -/
def labelIndex (code : List Instr) (l : Label) : Option Nat :=
  let i := code.indexOf (Instr.LAB l)
  if i < code.length then some i else none

/-- Modelled from the spec: one instruction of the target language executed on the QPU: an
unconditional ALU operation (setting the zero flags when asked to), a branch to a label, a
label or a no-op.  Other instructions are outside this model. -/
def step (env : Env) (code : List Instr) (s : QPU) : Option QPU :=
  match code[s.pc]? with
  | some (.ALU sc .ALWAYS dest a op b) => do
    let f ← aluFun op
    let va ← readOperand env s a
    let vb ← readOperand env s b
    let res : Vec := fun l => f (va l) (vb l)
    let s ← writeReg s dest res
    match sc with
    | .NO_COND => some { s with pc := s.pc + 1 }
    | .Z => some { s with zflag := fun l => decide (res l = 0), pc := s.pc + 1 }
    | _ => none
  | some (.BRL cond l) => do
    let taken ← branchTaken cond s.zflag
    if taken then do
      let target ← labelIndex code l
      some { s with pc := target }
    else some { s with pc := s.pc + 1 }
  | some (.LAB _) => some { s with pc := s.pc + 1 }
  | some .NO_OP => some { s with pc := s.pc + 1 }
  | _ => none

/-- Run the list from state `s` until the index of the next instruction leaves the list, for
at most `fuel` instructions; `none` when an instruction is outside the model or the fuel does
not suffice. -/
def run (env : Env) (code : List Instr) : Nat → QPU → Option QPU
  | 0, s => if code.length ≤ s.pc then some s else none
  | fuel + 1, s =>
    if code.length ≤ s.pc then some s
    else (step env code s).bind (run env code fuel)

/-- The instructions of `add_init_head` as a list. -/
def add_init_list (q k : Nat) (endifLabel : Label) : List Instr :=
  [mov_imm (rf q) 0,
   (sub ACC0 (rf k) 8).pushz,
   .BRL ⟨.COND_ALL, .ZC⟩ endifLabel,
   mov ACC0 QPU_ID,
   shr ACC0 ACC0 2,
   band (rf q) ACC0 15,
   label endifLabel,
   shl ACC1 (rf q) 4,
   mov ACC0 ELEM_ID,
   add ACC1 ACC1 ACC0,
   shl ACC0 ACC1 2]

/-- Example state for the init block: 8 QPUs in `rf(1)`, everything else zero. -/
def exampleQPU : QPU := ⟨fun _ => broadcast 8, fun _ => broadcast 0, fun _ => false, 0⟩

/-- Example reads of the special registers: thread index `0x1234`, element index = lane. -/
def exampleEnv : Env := ⟨0x1234, fun l => l.val⟩

/-- The register id allocated to variable `x` (`alloc[x].regId`); `x` itself when `alloc` has
no entry for it. -/
def allocId (alloc : List Reg) (x : Int) : Int :=
  match vecGet alloc x with
  | .ok a => a.regId
  | .error _ => x

/-! ## Liveness analysis (`Target/Liveness`) -/

/-- `LiveSet::add(LiveSet const &rhs)`: insert every element of `rhs`. -/
def LiveSet.add (s rhs : LiveSet) : LiveSet :=
  rhs.elems.foldl LiveSet.insert s

/-- `LiveSet::add(Set<RegId> const &set)`: insert `set[0]`, ..., `set[size-1]`. -/
def LiveSet.addSet (s : LiveSet) (set : List Int) : LiveSet :=
  set.foldl LiveSet.insert s

/-- `LiveSet::add_not_used(set, use)` for a `set` that is not the receiver: clear, then insert
the elements of `set` that are not members of `use.def`. -/
def LiveSet.add_not_used (s set : LiveSet) (use : UseDef) : LiveSet :=
  set.elems.foldl (fun acc j => if j ∈ use.def_ then acc else acc.insert j) s.clear

/-- Modelled from the spec: the control-flow graph `regAlloc` receives, the successor indices
of every instruction (spec, section 3: "mapping from instruction index to the set of successor
indices"). -/
abbrev CFG := List (List Nat)

/-- Modelled from the spec: `Liveness::computeLiveOut` (not among the sources) on the live-in
sets `m_set`: "`live_out(i) = ∪ live_in(s)` for s ∈ successors(i)". -/
def liveOutOf (cfg : CFG) (m_set : List LiveSet) (i : Nat) : LiveSet :=
  (cfg.getD i []).foldl (fun out s => out.add (m_set.getD s ⟨[]⟩)) ⟨[]⟩

/-- Modelled from the spec: the live-in set of an instruction from its live-out set:
"`live_in(i) = use(i) ∪ (live_out(i) \ def(i))`", built with `add_not_used` and `add`. -/
def liveInOf (liveOut : LiveSet) (ud : UseDef) : LiveSet :=
  (LiveSet.add_not_used ⟨[]⟩ liveOut ud).addSet ud.use

/-- Modelled from the spec: the work of one sweep of the liveness analysis at instruction `i`:
the live-in set is recomputed from the current sets and inserted into set `i`; the flag records
whether an element was new. -/
def liveStep (cfg : CFG) (instrs : List Instr) (st : List LiveSet × Bool) (i : Nat) :
    List LiveSet × Bool :=
  match instrs[i]? with
  | none => st
  | some instr =>
    let liveIn := liveInOf (liveOutOf cfg st.1 i) (useDef instr)
    let old := st.1.getD i ⟨[]⟩
    (st.1.set i (old.add liveIn), st.2 || liveIn.elems.any (fun j => !old.member j))

/-- Modelled from the spec: one full sweep, from the last instruction to the first (spec,
section 4.3: "Standard iterative backward dataflow"). -/
def liveSweep (cfg : CFG) (instrs : List Instr) (m_set : List LiveSet) : List LiveSet × Bool :=
  (List.range instrs.length).reverse.foldl (liveStep cfg instrs) (m_set, false)

/-- Modelled from the spec: the outer fixed-point loop, which "terminates when no set changes
in a full sweep"; `none` when `fuel` sweeps do not reach that point. -/
def liveLoop (cfg : CFG) (instrs : List Instr) : Nat → List LiveSet → Option (List LiveSet)
  | 0, _ => none
  | fuel + 1, m_set =>
    let r := liveSweep cfg instrs m_set
    if r.2 then liveLoop cfg instrs fuel r.1 else some r.1

/-- Modelled from the spec: the liveness object `regAlloc` works with, for live-in sets
`m_set`. -/
def livenessOf (cfg : CFG) (m_set : List LiveSet) : Liveness :=
  ⟨m_set.length, liveOutOf cfg m_set⟩

/-- Modelled from the spec: `Liveness live(*cfg); live.compute(*instrs)`, starting from empty
live-in sets, with at most `fuel` sweeps. -/
def Liveness.compute (cfg : CFG) (instrs : List Instr) (fuel : Nat) : Option Liveness :=
  (liveLoop cfg instrs fuel (List.replicate instrs.length ⟨[]⟩)).map (livenessOf cfg)

/-- Set `B` holds exactly the images under `σ` of the elements of `A`. -/
def ImgSet (σ : Int → Int) (A B : LiveSet) : Prop :=
  ∀ y, y ∈ B.elems ↔ ∃ x ∈ A.elems, σ x = y

/-- The sets `m'` are, index by index, the images under `σ` of the sets `m`. -/
def ImgSets (σ : Int → Int) (m m' : List LiveSet) : Prop :=
  m'.length = m.length ∧ ∀ i, ImgSet σ (m.getD i ⟨[]⟩) (m'.getD i ⟨[]⟩)

/-- Every set of `m` is contained in the set of `mf` with the same index. -/
def SubSets (m mf : List LiveSet) : Prop :=
  ∀ i x, x ∈ (m.getD i ⟨[]⟩).elems → x ∈ (mf.getD i ⟨[]⟩).elems

/-- The list `instrs'` is `instrs` with the variables renamed by `σ`: same length, use and def
sets are the images, and `σ` separates a variable live-out at an instruction (in the final
sets `mf`) from a different variable defined there. -/
def Renamed (σ : Int → Int) (cfg : CFG) (instrs instrs' : List Instr) (mf : List LiveSet) :
    Prop :=
  instrs'.length = instrs.length ∧
  (∀ (i : Nat) (instr : Instr), instrs[i]? = some instr → ∃ instr', instrs'[i]? = some instr' ∧
    (∀ y, y ∈ (useDef instr').use ↔ ∃ x ∈ (useDef instr).use, σ x = y) ∧
    (∀ y, y ∈ (useDef instr').def_ ↔ ∃ x ∈ (useDef instr).def_, σ x = y)) ∧
  (∀ (i : Nat) (instr : Instr), instrs[i]? = some instr →
    ∀ a ∈ (liveOutOf cfg mf i).elems, ∀ b ∈ (useDef instr).def_, a ≠ b → σ a ≠ σ b)

/-- Every element of a live-in set is in the use set of some instruction. -/
def UsedIds (instrs : List Instr) (m : List LiveSet) : Prop :=
  ∀ i x, x ∈ (m.getD i ⟨[]⟩).elems → ∃ instr ∈ instrs, x ∈ (useDef instr).use

/-- The control-flow graph of `exampleChain`: straight-line code. -/
def exampleChainCFG : CFG := [[1], [2], [3], []]

/-- The live-in sets of `exampleChain`: `{}`, `{v0}`, `{v1}`, `{v1, v2}`. -/
def exampleChainLiveIn : List LiveSet := [⟨[]⟩, ⟨[0]⟩, ⟨[1]⟩, ⟨[1, 2]⟩]

/-- The invariant of a `std::set<RegId>`: ascending order without repetition. -/
def LiveSet.WF (s : LiveSet) : Prop := s.elems.Sorted (· < ·)

/-! ## The v3d program tail (`v3d/instr/Snippets.cpp`) -/

/-- Modelled from the spec: a place a v3d instruction reads or writes: one of the accumulators
`r0` .. `r5` or an entry of the register file. -/
inductive v3d.instr.Location where
  | acc (n : Nat)
  | rf (index : Nat)
  deriving DecidableEq, Repr

/-- Modelled from the spec: an operand of a v3d instruction: a location or a small immediate
("two operands each a register or small-immediate", section 3). -/
inductive v3d.instr.Src where
  | loc (l : v3d.instr.Location)
  | imm (n : Int)
  deriving DecidableEq, Repr

/-- Modelled from the spec: the operations of the v3d instructions that the snippets build,
each with its destination and operands. -/
inductive v3d.instr.Alu where
  | nop
  | tidx (dst : v3d.instr.Location)
  | eidx (dst : v3d.instr.Location)
  | mov (dst : v3d.instr.Location) (src : v3d.instr.Src)
  | bor (dst : v3d.instr.Location) (a b : v3d.instr.Src)
  | shl (dst : v3d.instr.Location) (a b : v3d.instr.Src)
  | shr (dst : v3d.instr.Location) (a b : v3d.instr.Src)
  | band (dst : v3d.instr.Location) (a b : v3d.instr.Src)
  | add (dst : v3d.instr.Location) (a b : v3d.instr.Src)
  deriving DecidableEq, Repr

/-- Modelled from the spec: a v3d machine instruction (`v3d::instr::Instr`, class not among
the sources) as far as the snippets set it: the operation, the thread-switch signal bit
`sig.thrsw` ("thread-switch (`thrsw`) signals", section 4.5) and the header text of the mixin
`InstructionComment`.  The comments that `comment(...)` attaches are left out. -/
structure v3d.instr.Instr where
  sig_thrsw : Bool
  m_header : String
  alu : v3d.instr.Alu
  deriving DecidableEq, Repr

/-- Modelled from the spec: `nop()`, the instruction without operation, signal and header. -/
def v3d.instr.nop : v3d.instr.Instr := ⟨false, "", .nop⟩

/-- Modelled from the spec: `Instr::thrsw()`, which raises the thread-switch signal. -/
def v3d.instr.Instr.thrsw (i : v3d.instr.Instr) : v3d.instr.Instr := { i with sig_thrsw := true }

/-- Modelled from the spec: `Instr::header(msg)`, which sets the header text. -/
def v3d.instr.Instr.header (i : v3d.instr.Instr) (msg : String) : v3d.instr.Instr :=
  { i with m_header := msg }

/-- `end_program()`: the eight instructions appended to `ret`, in the order of the `<<` chain. -/
def v3d.instr.end_program : List v3d.instr.Instr :=
  [v3d.instr.nop.thrsw.header "Program tail",
   v3d.instr.nop.thrsw,
   v3d.instr.nop,
   v3d.instr.nop,
   v3d.instr.nop.thrsw,
   v3d.instr.nop,
   v3d.instr.nop,
   v3d.instr.nop]

/-- The positions of a sequence that carry the thread-switch signal, in ascending order. -/
def v3d.instr.thrswPositions (l : List v3d.instr.Instr) : List Nat :=
  (List.range l.length).filter (fun i => (l.getD i v3d.instr.nop).sig_thrsw)

/-! ## The v3d lowering callbacks (`v3d/SourceTranslate.cpp`) -/

/-- Modelled from the spec: the tags of a source variable (`Source/Var.h` is not among the
sources): an ordinary variable, a uniform, and the pre-bound special values of section 3
("TMU addresses, VPM setup, element-index, QPU-id").  `deref_var_var` tests for `ELEM_NUM`. -/
inductive VarTag where
  | STANDARD
  | UNIFORM
  | QPU_NUM
  | ELEM_NUM
  | VPM_READ
  | VPM_WRITE
  | TMU0_ADDR
  deriving DecidableEq, Repr

/-- Modelled from the spec: a source variable, its tag and its id. -/
structure Var where
  tag : VarTag
  id : Int
  deriving DecidableEq, Repr

/-- Modelled from the spec: a source expression node (section 3: "variable reference, integer
literal, float literal, binary/unary operator application, array-element dereference"); an
operator is kept as its number, a float literal as its bit pattern. -/
inductive Expr where
  | INT_LIT (intLit : Int)
  | FLOAT_LIT (floatLit : Int)
  | VAR (var : Var)
  | APPLY (lhs : Expr) (op : Nat) (rhs : Expr)
  | DEREF (deref_ptr : Expr)
  deriving DecidableEq, Repr

/-- Modelled from the spec: `Expr::tag() == Expr::VAR`. -/
def Expr.isVar : Expr → Bool
  | .VAR _ => true
  | _ => false

/-- Modelled from the spec: `Expr::var()`, the variable of a variable reference; asking any
other node for its variable is an assertion failure. -/
def Expr.var : Expr → Except Failure Var
  | .VAR v => .ok v
  | _ => .error .assertion

/-- Modelled from the spec: `Expr::deref_ptr()`, the pointer expression of a dereference;
asking any other node for it is an assertion failure. -/
def Expr.deref_ptr : Expr → Except Failure Expr
  | .DEREF p => .ok p
  | _ => .error .assertion

/-- Modelled from the spec: the tags of a source statement (section 3: "assignment,
conditional-assignment-under-mask (`Where`), if/then/else, while-loop, for-loop, store-request
(pointer write), load-request, platform intrinsic"); an intrinsic carries its number. -/
inductive StmtTag where
  | ASSIGN
  | WHERE
  | IF
  | WHILE
  | FOR
  | STORE_REQUEST
  | LOAD_REQUEST
  | INTRINSIC (code : Nat)
  deriving DecidableEq, Repr

/-- Modelled from the spec: a source statement as far as v3d `stmt` reads it: the tag and the
two expressions of a store request. -/
structure Stmt where
  tag : StmtTag
  storeReq_data : Expr
  storeReq_addr : Expr
  deriving DecidableEq, Repr

/-- Modelled from the spec: accumulator `ACC4`, which receives what the TMU loads. -/
def ACC4 : Reg := ⟨.ACC, 4, false⟩

/-- Modelled from the spec: the special register `TMU0_S`, the address of a TMU load
(`extern Reg const` in `Target/Syntax.h`; the id only has to differ from those of the other
special registers). -/
def TMU0_S : Reg := ⟨.SPECIAL, 3, false⟩

/-- Modelled from the spec: the special register `TMUD`, the data of a TMU store. -/
def TMUD : Reg := ⟨.SPECIAL, 4, false⟩

/-- Modelled from the spec: the special register `TMUA`, the address of a TMU store. -/
def TMUA : Reg := ⟨.SPECIAL, 5, false⟩

/-- Modelled from the spec: `tmuwt()`, the instruction with tag `TMUWT` ("TMU wait"). -/
def tmuwt : Instr := .TMUWT

/-- Modelled from the spec: `Instr::nop()`, the instruction with tag `NO_OP`. -/
def Instr.nop : Instr := .NO_OP

/-- What `SourceTranslate.cpp` calls from files that are not among the sources:
`srcReg` and `dstReg` (the register of a variable read, resp. written), `putInVar` (appends to
the sequence the instructions that evaluate an expression and returns the expression that
holds the result) and `DMA::is_dma_tag`. -/
structure Externals where
  srcReg : Var → Reg
  dstReg : Var → Reg
  putInVar : List Instr → Expr → List Instr × Expr
  is_dma_tag : StmtTag → Bool

/-- `storeRequest(seq, data, addr)`: the sequence afterwards and whether the call returned.
Unless both expressions are variables they are first put into variables, `addr` before `data`;
then `mov(TMUD, srcData)`, `mov(TMUA, srcAddr)` and `tmuwt()` are appended.  (The comment
"Store request" set on the first of them is not part of an embedded instruction.) -/
def storeRequest (x : Externals) (seq : List Instr) (data addr : Expr) :
    List Instr × Except Failure Unit :=
  let r :=
    if !addr.isVar || !data.isVar then
      let ra := x.putInVar seq addr
      let rd := x.putInVar ra.1 data
      (rd.1, rd.2, ra.2)
    else (seq, data, addr)
  match r.2.2.var with
  | .error e => (r.1, .error e)
  | .ok va =>
    match r.2.1.var with
    | .error e => (r.1, .error e)
    | .ok vd => (r.1 ++ [mov TMUD (x.srcReg vd)] ++ [mov TMUA (x.srcReg va), tmuwt], .ok ())

/-- `SourceTranslate::deref_var_var(lhs, rhs)`.  In the source the register of `lhs` is named
`srcData` and that of `rhs` is named `srcAddr`; `==` of registers is equality of the fields. -/
def SourceTranslate.deref_var_var (x : Externals) (lhs rhs : Var) : Except Failure (List Instr) :=
  let srcData := x.srcReg lhs
  let srcAddr := x.srcReg rhs
  if rhs.tag = .ELEM_NUM then
    if srcAddr = ELEM_ID then
      .ok ([mov ACC0 ELEM_ID, mov TMUD ACC0] ++ [mov TMUA srcData, tmuwt])
    else .error .assertion
  else .ok ([mov TMUD srcAddr] ++ [mov TMUA srcData, tmuwt])

/-- `SourceTranslate::varassign_deref_var(seq, v, e)`; `seq` is a pointer, `none` is the null
pointer.  Nothing is appended before the call has passed its assertions. -/
def SourceTranslate.varassign_deref_var (x : Externals) (seq : Option (List Instr)) (v : Var)
    (e : Expr) : Except Failure (List Instr) :=
  match seq with
  | none => .error .assertion
  | some l => do
    let ldtmu_r4 : Instr := .TMU0_TO_ACC4
    let p ← e.deref_ptr
    let w ← p.var
    let src := x.srcReg w
    pure (l ++ [mov TMU0_S src, Instr.nop, Instr.nop, ldtmu_r4, mov (x.dstReg v) ACC4])

/-- `SourceTranslate::stmt(seq, s)`: the sequence afterwards, and the value returned or the
failure raised. -/
def SourceTranslate.stmt (x : Externals) (seq : List Instr) (s : Stmt) :
    List Instr × Except Failure Bool :=
  if x.is_dma_tag s.tag then
    (seq, .error (.fatal "VPM and DMA reads and writes can not be used for v3d"))
  else
    match s.tag with
    | .STORE_REQUEST =>
      match storeRequest x seq s.storeReq_data s.storeReq_addr with
      | (seq', .ok _) => (seq', .ok true)
      | (seq', .error e) => (seq', .error e)
    | _ => (seq, .ok false)

/-- Example of the externals: a variable `v` is read and written in register-file entry
`v.id`, the element number is read from `ELEM_ID`, an expression that is put into a variable
lands in variable 0 without instructions, and the intrinsics are the DMA statements. -/
def exampleExternals : Externals where
  srcReg := fun v => if v.tag = .ELEM_NUM then ELEM_ID else ⟨.REG_A, v.id, false⟩
  dstReg := fun v => ⟨.REG_A, v.id, false⟩
  putInVar := fun seq _ => (seq, .VAR ⟨.STANDARD, 0⟩)
  is_dma_tag := fun t => match t with
    | .INTRINSIC _ => true
    | _ => false

/-! ## The uniform-pointer adds of the init block (`v3d/SourceTranslate.cpp`) -/

/-- Modelled from the spec: `Instr::isUniformLoad()` (declared in `Target/Syntax.h`, body not
among the sources): an ALU instruction whose first operand reads the uniform stream, the
special register with id 0 ("Uniform: a per-kernel scalar value streamed to each QPU"). -/
def Instr.isUniformLoad : Instr → Bool
  | .ALU _ _ _ (.REG reg) _ _ => decide (reg.tag = .SPECIAL ∧ reg.regId = 0)
  | _ => false

/-- The test `instr.ALU.srcA.tag == REG && instr.ALU.srcA.reg.isUniformPtr` of
`add_uniform_pointer_offset`.  The members of `ALU` are read from ALU instructions only. -/
def isUniformPtrSource : Instr → Bool
  | .ALU _ _ _ (.REG reg) _ _ => reg.isUniformPtr
  | _ => false

/-- The loop of `add_uniform_pointer_offset` from position `index` on, over the instructions
`code[index], code[index + 1], ...`: it stops at the first instruction that is not a uniform
load ("Assumption: uniform loads always at top") and appends
`add(rf((uint8_t) index), rf((uint8_t) index), ACC0)` for a load from a uniform pointer.
`isUniformLoad` is `Instr::isUniformLoad`. -/
def add_uniform_pointer_offset_from (isUniformLoad : Instr → Bool) :
    Nat → List Instr → List Instr
  | _, [] => []
  | index, instr :: rest =>
    if !isUniformLoad instr then []
    else
      (if isUniformPtrSource instr then [add (rf (index % 256)) (rf (index % 256)) ACC0]
        else []) ++ add_uniform_pointer_offset_from isUniformLoad (index + 1) rest

/-- `add_uniform_pointer_offset(code)`. -/
def add_uniform_pointer_offset (isUniformLoad : Instr → Bool) (code : List Instr) :
    List Instr :=
  add_uniform_pointer_offset_from isUniformLoad 0 code

/-- The block `ret` that `add_init(code)` inserts after the `INIT_BEGIN` marker: the eleven
instructions of `add_init_head` followed by `add_uniform_pointer_offset(code)`. -/
def add_init_ret (isUniformLoad : Instr → Bool) (RSV_QPU_ID RSV_NUM_QPUS : Nat)
    (endifLabel : Label) (code : List Instr) : Except Failure (List Instr) := do
  let head ← add_init_head RSV_QPU_ID RSV_NUM_QPUS endifLabel
  pure (head ++ add_uniform_pointer_offset isUniformLoad code)

/-- A load of a uniform pointer into register-file entry `index`. -/
def loadUniformPtr (index : Nat) : Instr :=
  mov (rf index) ⟨.SPECIAL, 0, true⟩

/-- A load of a uniform that is not a pointer into register-file entry `index`. -/
def loadUniform (index : Nat) : Instr :=
  mov (rf index) ⟨.SPECIAL, 0, false⟩

/-! ## The GCD kernel (`Examples/GCD.cpp`) -/

/-- A vector of the source language: one signed 32-bit integer per lane, 16 lanes. -/
abbrev IntVec := Fin 16 → Int

/-- The signed 32-bit value of an integer: the result of `Int` arithmetic in a lane. -/
def wrap32 (x : Int) : Int := (x + 2147483648) % 4294967296 - 2147483648

/-- Modelled from the spec: `all(b)` (declared in `Source/Cond.h`): the condition that holds
when the Boolean expression holds in every one of the 16 lanes. -/
def all (b : Fin 16 → Bool) : Bool := decide (∀ i : Fin 16, b i = true)

/-- Modelled from the spec: `any(b)` (declared in `Source/Cond.h`): the condition that holds
when the Boolean expression holds in at least one lane. -/
def any (b : Fin 16 → Bool) : Bool := decide (∃ i : Fin 16, b i = true)

/-- Modelled from the spec: `Where (c) x = e; End`, the assignment under a mask (section 4.2:
"a 16-lane mask from the Boolean expression, enabling per-lane predicated writes"): a lane of
`x` takes the value of `e` where `c` holds and keeps its value elsewhere. -/
def Where (c : Fin 16 → Bool) (x e : IntVec) : IntVec :=
  fun i => if c i then e i else x i

/-- The loop `top: if cond then (body; goto top)` with a counter of the passes: the state at
the exit and the number of passes made, or `none` when `fuel` tests do not reach the exit. -/
def whileLoop {σ : Type} (cond : σ → Bool) (body : σ → σ) : Nat → σ → Nat → Option (σ × Nat)
  | 0, _, _ => none
  | fuel + 1, s, n => if cond s then whileLoop cond body fuel (body s) (n + 1) else some (s, n)

/-- Modelled from the spec: `While (cond) body End`.  With `testFirst` the condition is tested
before every pass, the first one included; without it the loop is the lowering the spec gives,
"`L_top: body; if cond goto L_top`", which starts with a pass.  The result is the state at the
exit and the number of passes. -/
def While {σ : Type} (testFirst : Bool) (cond : σ → Bool) (body : σ → σ) (fuel : Nat) (s : σ) :
    Option (σ × Nat) :=
  if testFirst then whileLoop cond body fuel s 0 else whileLoop cond body fuel (body s) 1

/-- The variables of the kernel `gcd`. -/
structure GcdVars where
  a : IntVec
  b : IntVec

/-- The loop condition of `gcd`: `all(a != b)`. -/
def gcd_cond (s : GcdVars) : Bool := all (fun i => decide (s.a i ≠ s.b i))

/-- The loop body of `gcd`: `Where (a > b) a = a-b; End` and then, with the new `a`,
`Where (a < b) b = b-a; End`. -/
def gcd_body (s : GcdVars) : GcdVars :=
  let a := Where (fun i => decide (s.a i > s.b i)) s.a (fun i => wrap32 (s.a i - s.b i))
  let b := Where (fun i => decide (a i < s.b i)) s.b (fun i => wrap32 (s.b i - a i))
  ⟨a, b⟩

/-- The kernel `gcd(p, q, r)` on the vectors stored at `p` and `q`: `a = *p`, `b = *q`, the
loop, `*r = a`.  The result is the vector stored at `r`. -/
def gcd (testFirst : Bool) (fuel : Nat) (p q : IntVec) : Option IntVec :=
  (While testFirst gcd_cond gcd_body fuel ⟨p, q⟩).map (fun r => r.1.a)

/-- Every lane of both variables lies in `[1, 199]`. -/
def GcdVars.InRange (s : GcdVars) : Prop :=
  ∀ i : Fin 16, 1 ≤ s.a i ∧ s.a i ≤ 199 ∧ 1 ≤ s.b i ∧ s.b i ≤ 199

/-- Input in the range of `main`, where lane 0 holds equal values and lane 1 holds 199. -/
def gcdInputP : IntVec := fun i => if i = 1 then 199 else 100

/-- Input in the range of `main`: 100 in every lane. -/
def gcdInputQ : IntVec := fun _ => 100

/-- One instruction `v0 = v0 + v1` at which `v0` and `v1` are live-out: `v0` is defined and
live-out at the same instruction. -/
def exampleSelf : List Instr :=
  [.ALU .NO_COND .ALWAYS (regA 0) (.REG (regA 0)) .A_ADD (.REG (regA 1))]

/-- Liveness of `exampleSelf`. -/
def exampleSelfLive : Liveness := ⟨1, fun _ => ⟨[0, 1]⟩⟩

/-- The number of interfering neighbours of variable `i`: the size of the set `liveWith[i]`. -/
def LiveSets.degree (s : LiveSets) (i : Nat) : Nat :=
  (s.m_sets.getD i ⟨[]⟩).elems.dedup.length

/-- The number of interfering neighbours of variable `i` with an index below `i`. -/
def LiveSets.lowerDegree (s : LiveSets) (i : Nat) : Nat :=
  ((s.m_sets.getD i ⟨[]⟩).elems.filter (fun j => decide (j < (i : Int)))).dedup.length

/-! ## The mailbox interface (`vc4/Mailbox.cpp`) -/

/-- The call `ioctl(file_desc, IOCTL_MBOX_PROPERTY, buf)` of the mailbox driver: from the file
descriptor and the words of the buffer to the value returned and the words of the buffer after
the call. -/
abbrev Ioctl := Int → List Nat → Int × List Nat

/-- `mbox_property(file_desc, buf)`: the value `ioctl` returns, with the buffer after the call.
(The message printed for a negative value is not part of the result.) -/
def mbox_property (ioctl : Ioctl) (file_desc : Int) (buf : List Nat) : Int × List Nat :=
  ioctl file_desc buf

/-- What a function of the mailbox interface does: the words `p[0 .. i-1]` it hands to
`mbox_property` and the `unsigned` it returns. -/
structure MboxCall where
  request : List Nat
  result : Nat
  deriving DecidableEq, Repr

/-- The statement `p[0] = i * sizeof(*p)` for the `i` words written to `p`. -/
def mbox_size (p : List Nat) : List Nat := p.set 0 (p.length * 4)

/-- `get_version(file_desc)`. -/
def get_version (ioctl : Ioctl) (file_desc : Int) : MboxCall :=
  let p := mbox_size [0, 0x00000000, 0x10002, 4, 0, 0, 0x00000000]
  let r := mbox_property ioctl file_desc p
  ⟨p, r.2.getD 5 0⟩

/-- `mem_alloc(file_desc, size, align, flags)`. -/
def mem_alloc (ioctl : Ioctl) (file_desc : Int) (size align flags : Nat) : MboxCall :=
  let p := mbox_size [0, 0x00000000, 0x3000c, 12, 12, size, align, flags, 0x00000000]
  let r := mbox_property ioctl file_desc p
  ⟨p, r.2.getD 5 0⟩

/-- `mem_free(file_desc, handle)`; `(uint32_t) -1` is `0xFFFFFFFF`. -/
def mem_free (ioctl : Ioctl) (file_desc : Int) (handle : Nat) : MboxCall :=
  let p := mbox_size [0, 0x00000000, 0x3000f, 4, 4, handle, 0x00000000]
  let r := mbox_property ioctl file_desc p
  ⟨p, if r.1 < 0 then 0xFFFFFFFF else r.2.getD 5 0⟩

/-- `mem_lock(file_desc, handle)`. -/
def mem_lock (ioctl : Ioctl) (file_desc : Int) (handle : Nat) : MboxCall :=
  let p := mbox_size [0, 0x00000000, 0x3000d, 4, 4, handle, 0x00000000]
  let r := mbox_property ioctl file_desc p
  ⟨p, r.2.getD 5 0⟩

/-- `mem_unlock(file_desc, handle)`, documented as "@return ioctl return code on success, -1 on
iotctl error"; `(uint32_t) -1` is `0xFFFFFFFF`. -/
def mem_unlock (ioctl : Ioctl) (file_desc : Int) (handle : Nat) : MboxCall :=
  let p := mbox_size [0, 0x00000000, 0x3000e, 4, 4, handle, 0x00000000]
  let r := mbox_property ioctl file_desc p
  ⟨p, if r.1 < 0 then 0xFFFFFFFF else r.2.getD 5 0⟩

/-- `execute_code(file_desc, code, r0, r1, r2, r3, r4, r5)`. -/
def execute_code (ioctl : Ioctl) (file_desc : Int) (code r0 r1 r2 r3 r4 r5 : Nat) : MboxCall :=
  let p := mbox_size
    [0, 0x00000000, 0x30010, 28, 28, code, r0, r1, r2, r3, r4, r5, 0x00000000]
  let r := mbox_property ioctl file_desc p
  ⟨p, r.2.getD 5 0⟩

/-- `qpu_enable(file_desc, enable)`. -/
def qpu_enable (ioctl : Ioctl) (file_desc : Int) (enable : Nat) : MboxCall :=
  let p := mbox_size [0, 0x00000000, 0x30012, 4, 4, enable, 0x00000000]
  let r := mbox_property ioctl file_desc p
  ⟨p, r.2.getD 5 0⟩

/-- `execute_qpu(file_desc, num_qpus, control, noflush, timeout)`. -/
def execute_qpu (ioctl : Ioctl) (file_desc : Int) (num_qpus control noflush timeout : Nat) :
    MboxCall :=
  let p := mbox_size
    [0, 0x00000000, 0x30011, 16, 16, num_qpus, control, noflush, timeout, 0x00000000]
  let r := mbox_property ioctl file_desc p
  ⟨p, r.2.getD 5 0⟩

/-- The framing of a property message with one tag: the message has the two words of the
header, the three words of the tag header (tag id, size of the value buffer, size of the data)
and the end tag, so at least six words; word 0 is the size of the whole message in bytes, 4
times the number of its words; word 1 is 0 (process request); word 3 is 4 times the number of
value words, which are the words between the tag header and the end tag; and the last word is
the end tag 0. -/
def Framed (p : List Nat) : Prop :=
  6 ≤ p.length ∧ p[0]? = some (4 * p.length) ∧ p[1]? = some 0 ∧
    p[3]? = some (4 * (p.length - 6)) ∧ p.getLast? = some 0

/-- An `ioctl` that succeeds with value 0 and leaves the buffer as it is: the request was
delivered and the response word `p[5]` still holds the handle passed in ("On failure, this
would return the passed in handle"). -/
def ioctlUnchanged : Ioctl := fun _ buf => (0, buf)

/-- An `ioctl` that succeeds with value 0 and writes the status 0 into the response word
`p[5]`. -/
def ioctlStatusZero : Ioctl := fun _ buf => (0, buf.set 5 0)

/-! ## `add_init` (`v3d/SourceTranslate.cpp`) -/

/-- Instruction tags: `enum InstrTag` of `Target/Syntax.h`. -/
inductive InstrTag where
  | LI
  | ALU
  | BR
  | END
  | BRL
  | LAB
  | NO_OP
  | DMA_LOAD_WAIT
  | DMA_STORE_WAIT
  | SINC
  | SDEC
  | IRQ
  | PRS
  | PRI
  | PRF
  | VPM_STALL
  | RECV
  | TMU0_TO_ACC4
  | INIT_BEGIN
  | INIT_END
  | TMUWT
  deriving DecidableEq, Repr

/-- The member `tag` of an instruction. -/
def Instr.tag : Instr → InstrTag
  | .LI _ _ _ _ => .LI
  | .ALU _ _ _ _ _ _ => .ALU
  | .BR _ _ => .BR
  | .END => .END
  | .BRL _ _ => .BRL
  | .LAB _ => .LAB
  | .NO_OP => .NO_OP
  | .DMA_LOAD_WAIT => .DMA_LOAD_WAIT
  | .DMA_STORE_WAIT => .DMA_STORE_WAIT
  | .SINC _ => .SINC
  | .SDEC _ => .SDEC
  | .IRQ => .IRQ
  | .PRS _ => .PRS
  | .PRI _ => .PRI
  | .PRF _ => .PRF
  | .VPM_STALL => .VPM_STALL
  | .RECV _ => .RECV
  | .TMU0_TO_ACC4 => .TMU0_TO_ACC4
  | .INIT_BEGIN => .INIT_BEGIN
  | .INIT_END => .INIT_END
  | .TMUWT => .TMUWT

/-- The indices, from `i` on, of the instructions of the list that carry tag `tagi`. -/
def tag_indices (tagi : InstrTag) : List Instr → Nat → List Nat
  | [], _ => []
  | instr :: rest, i =>
    if instr.tag = tagi then i :: tag_indices tagi rest (i + 1)
    else tag_indices tagi rest (i + 1)

/-- Modelled from the spec: `Instr::List::tag_index(tagi, ensure_one = true)` (declared in
`Target/Syntax.h`, body not among the sources): the index of the instruction that carries the
tag, `-1` when there is none; with `ensure_one`, a second instruction with the tag is an
assertion failure (the markers are "inserted by the frontend", one of each). -/
def tag_index (code : List Instr) (tagi : InstrTag) (ensure_one : Bool) : Except Failure Int :=
  match tag_indices tagi code 0 with
  | [] => .ok (-1)
  | [i] => .ok (i : Int)
  | i :: _ => if ensure_one then .error .assertion else .ok (i : Int)

/-- Modelled from the spec: `Seq::insert(index, items)` (`Support/Seq.h`, not among the
sources): the items are put before position `index`, and "insertion shifts trailing indices";
a position outside `[0, size]` is an assertion failure. -/
def Seq.insert {α : Type} (l : List α) (index : Int) (items : List α) :
    Except Failure (List α) :=
  if 0 ≤ index ∧ index ≤ (l.length : Int) then
    .ok (l.take index.toNat ++ items ++ l.drop index.toNat)
  else .error .assertion

/-- `add_init(code)`: the list it leaves in `code`.  `isUniformLoad` is
`Instr::isUniformLoad`, `RSV_QPU_ID` and `RSV_NUM_QPUS` are the indices of the reserved
variables and `endifLabel` is the label `freshLabel()` returns. -/
def add_init (isUniformLoad : Instr → Bool) (RSV_QPU_ID RSV_NUM_QPUS : Nat)
    (endifLabel : Label) (code : List Instr) : Except Failure (List Instr) := do
  let insert_index ← tag_index code .INIT_BEGIN true
  if insert_index < 0 then throw Failure.assertion
  let ret ← add_init_ret isUniformLoad RSV_QPU_ID RSV_NUM_QPUS endifLabel code
  Seq.insert code (insert_index + 1) ret

/-- The code has exactly one `INIT_BEGIN` marker, at index `k`. -/
def OneInitBegin (code : List Instr) (k : Nat) : Prop :=
  code[k]? = some .INIT_BEGIN ∧ ∀ i : Nat, code[i]? = some .INIT_BEGIN → i = k

/-- Code with the marker of the init block at index 3, followed by the end marker and the
body. -/
def exampleInitCode : List Instr :=
  [loadUniform 0, loadUniform 1, loadUniformPtr 2, .INIT_BEGIN, .INIT_END,
   .BRL ⟨.COND_ALWAYS, .ZS⟩ 0, .LAB 0, .END]

/-- The label a branch-to-label refers to. -/
def Instr.branchLabel : Instr → Option Label
  | .BRL _ l => some l
  | _ => none

/-- The label a label definition defines. -/
def Instr.definedLabel : Instr → Option Label
  | .LAB l => some l
  | _ => none

/-- The labels the branches of the list refer to, in order. -/
def labelRefs (code : List Instr) : List Label := code.filterMap Instr.branchLabel

/-- The labels the list defines, in order. -/
def labelDefs (code : List Instr) : List Label := code.filterMap Instr.definedLabel

/-- Every label referenced by a branch-to-label is defined exactly once in the list. -/
def LabelsWellFormed (code : List Instr) : Prop :=
  ∀ l ∈ labelRefs code, (labelDefs code).count l = 1

/-! ## The v3d snippets for the QPU number, offset and stride (`v3d/instr/Snippets.cpp`) -/

/-- Modelled from the spec: accumulator `r0`. -/
def v3d.instr.r0 : v3d.instr.Location := .acc 0

/-- Modelled from the spec: accumulator `r1`. -/
def v3d.instr.r1 : v3d.instr.Location := .acc 1

/-- Modelled from the spec: `rf(uint8_t index)`, entry `index` of the register file. -/
def v3d.instr.rf (index : Nat) : v3d.instr.Location := .rf index

/-- Modelled from the spec: `tidx(dst)`, which reads the thread index into `dst`. -/
def v3d.instr.tidx (dst : v3d.instr.Location) : v3d.instr.Instr := ⟨false, "", .tidx dst⟩

/-- Modelled from the spec: `eidx(dst)`, which reads the element index into `dst`. -/
def v3d.instr.eidx (dst : v3d.instr.Location) : v3d.instr.Instr := ⟨false, "", .eidx dst⟩

/-- Modelled from the spec: `mov(dst, n)` with a small immediate. -/
def v3d.instr.mov (dst : v3d.instr.Location) (n : Int) : v3d.instr.Instr :=
  ⟨false, "", .mov dst (.imm n)⟩

/-- Modelled from the spec: `shl(dst, a, n)` with a small immediate as shift. -/
def v3d.instr.shl (dst a : v3d.instr.Location) (n : Int) : v3d.instr.Instr :=
  ⟨false, "", .shl dst (.loc a) (.imm n)⟩

/-- Modelled from the spec: `shr(dst, a, n)` with a small immediate as shift. -/
def v3d.instr.shr (dst a : v3d.instr.Location) (n : Int) : v3d.instr.Instr :=
  ⟨false, "", .shr dst (.loc a) (.imm n)⟩

/-- Modelled from the spec: `band(dst, a, n)` with a small immediate. -/
def v3d.instr.band (dst a : v3d.instr.Location) (n : Int) : v3d.instr.Instr :=
  ⟨false, "", .band dst (.loc a) (.imm n)⟩

/-- Modelled from the spec: `add(dst, a, b)`. -/
def v3d.instr.add (dst a b : v3d.instr.Location) : v3d.instr.Instr :=
  ⟨false, "", .add dst (.loc a) (.loc b)⟩

/-- `set_qpu_num(num_qpus, reg_qpu_num)`. -/
def v3d.instr.set_qpu_num (num_qpus reg_qpu_num : Nat) :
    Except Failure (List v3d.instr.Instr) :=
  if num_qpus = 1 then
    .ok [v3d.instr.mov (v3d.instr.rf reg_qpu_num) 0]
  else if num_qpus = 8 then
    .ok [(v3d.instr.tidx v3d.instr.r0).header "Set number of QPUs to 8",
      v3d.instr.shr v3d.instr.r0 v3d.instr.r0 2,
      v3d.instr.band (v3d.instr.rf reg_qpu_num) v3d.instr.r0 15]
  else .error .assertion

/-- `calc_offset(num_qpus, reg_qpu_num)`. -/
def v3d.instr.calc_offset (num_qpus reg_qpu_num : Nat) :
    Except Failure (List v3d.instr.Instr) := do
  let ret ← v3d.instr.set_qpu_num num_qpus reg_qpu_num
  pure (ret ++
    [v3d.instr.shl v3d.instr.r0 (v3d.instr.rf reg_qpu_num) 4,
     v3d.instr.eidx v3d.instr.r1,
     v3d.instr.add v3d.instr.r0 v3d.instr.r0 v3d.instr.r1,
     v3d.instr.shl v3d.instr.r0 v3d.instr.r0 2])

/-- `get_shift(num_qpus)`. -/
def v3d.instr.get_shift (num_qpus : Nat) : Except Failure Nat :=
  if num_qpus = 1 then .ok 0
  else if num_qpus = 8 then .ok 3
  else .error .assertion

/-- `calc_stride(num_qpus, reg_stride)`. -/
def v3d.instr.calc_stride (num_qpus reg_stride : Nat) :
    Except Failure (List v3d.instr.Instr) := do
  let num_qpus_shift ← v3d.instr.get_shift num_qpus
  pure
    [(v3d.instr.mov (v3d.instr.rf reg_stride) 1).header "stride = 4 * 16 * num_qpus",
     v3d.instr.shl (v3d.instr.rf reg_stride) (v3d.instr.rf reg_stride)
       ((6 + num_qpus_shift : Nat) : Int)]

/-- Modelled from the spec: the registers of a v3d QPU: the register file and the
accumulators, 16 lanes of 32-bit words each. -/
structure v3d.instr.Regs where
  rf : Nat → Vec
  acc : Nat → Vec

/-- Modelled from the spec: read a location. -/
def v3d.instr.Regs.read (s : v3d.instr.Regs) : v3d.instr.Location → Vec
  | .acc n => s.acc n
  | .rf index => s.rf index

/-- Modelled from the spec: write a location. -/
def v3d.instr.Regs.write (s : v3d.instr.Regs) (l : v3d.instr.Location) (v : Vec) :
    v3d.instr.Regs :=
  match l with
  | .acc n => { s with acc := fun i => if i = n then v else s.acc i }
  | .rf index => { s with rf := fun i => if i = index then v else s.rf i }

/-- Modelled from the spec: read an operand; a small immediate is its 32-bit two's-complement
word in every lane. -/
def v3d.instr.Regs.src (s : v3d.instr.Regs) : v3d.instr.Src → Vec
  | .loc l => s.read l
  | .imm n => broadcast (n % 2 ^ 32).toNat

/-- Modelled from the spec: one v3d instruction executed on the registers (section 4.5:
"Integer operations are 32-bit two's-complement; unsigned-shift-right is zero-filling"); the
shifts use the low five bits of the second operand.  `env` gives the thread index and the
element index of every lane. -/
def v3d.instr.exec (env : Env) (s : v3d.instr.Regs) (i : v3d.instr.Instr) : v3d.instr.Regs :=
  match i.alu with
  | .nop => s
  | .tidx dst => s.write dst (broadcast env.tidx)
  | .eidx dst => s.write dst env.eidx
  | .mov dst a => s.write dst (s.src a)
  | .bor dst a b => s.write dst (fun l => s.src a l ||| s.src b l)
  | .shl dst a b => s.write dst (fun l => (s.src a l <<< (s.src b l % 32)) % 2 ^ 32)
  | .shr dst a b => s.write dst (fun l => (s.src a l % 2 ^ 32) >>> (s.src b l % 32))
  | .band dst a b => s.write dst (fun l => s.src a l &&& s.src b l)
  | .add dst a b => s.write dst (fun l => (s.src a l + s.src b l) % 2 ^ 32)

/-- Execute a sequence of v3d instructions without branches, in order. -/
def v3d.instr.run (env : Env) (s : v3d.instr.Regs) (code : List v3d.instr.Instr) :
    v3d.instr.Regs :=
  code.foldl (v3d.instr.exec env) s

/-- Example registers: zero everywhere. -/
def v3d.instr.exampleRegs : v3d.instr.Regs := ⟨fun _ => broadcast 0, fun _ => broadcast 0⟩

theorem choose_register_scan_cases (l : List Bool) (j0 : Nat) :
    (LiveSets.choose_register_scan l j0 = -1 ∧ ∀ b ∈ l, b = false) ∨
    (∃ k, k < l.length ∧ LiveSets.choose_register_scan l j0 = ((j0 + k : Nat) : Int) ∧
      l[k]? = some true ∧ ∀ m, m < k → l[m]? = some false) := by
  induction l generalizing j0 with
  | nil => left; simp [LiveSets.choose_register_scan]
  | cons b rest ih =>
    cases b with
    | true =>
      right
      refine ⟨0, by simp, by simp [LiveSets.choose_register_scan], by simp, ?_⟩
      intro m hm; omega
    | false =>
      rcases ih (j0 + 1) with ⟨h1, h2⟩ | ⟨k, hk, h1, h2, h3⟩
      · left
        refine ⟨by simpa [LiveSets.choose_register_scan] using h1, ?_⟩
        intro b hb
        rcases List.mem_cons.mp hb with rfl | hb
        · rfl
        · exact h2 b hb
      · right
        refine ⟨k + 1, by simpa using hk, ?_, by simpa using h2, ?_⟩
        · simp only [LiveSets.choose_register_scan, Bool.false_eq_true, if_false, h1]
          congr 1
          omega
        · intro m hm
          cases m with
          | zero => simp
          | succ m => simpa using h3 m (by omega)

theorem except_bind_ok {ε α β : Type} {x : Except ε α} {f : α → Except ε β} {b : β} :
    (x >>= f) = .ok b ↔ ∃ a, x = .ok a ∧ f a = .ok b := by
  cases x with
  | error e => simp [bind, Except.bind]
  | ok a => simp [bind, Except.bind]

theorem LiveSet.mem_insert (s : LiveSet) (id x : Int) :
    x ∈ (s.insert id).elems ↔ x = id ∨ x ∈ s.elems := by
  unfold LiveSet.insert
  split
  · constructor
    · intro h; exact Or.inr h
    · rintro (rfl | h)
      · assumption
      · exact h
  · simp [List.mem_orderedInsert]

theorem LiveSets.interferes_iff (s : LiveSets) (u v : Int) :
    s.interferes u v = true ↔
      0 ≤ u ∧ u < s.m_size ∧ v ∈ (s.m_sets.getD u.toNat ⟨[]⟩).elems := by
  unfold LiveSets.interferes LiveSets.at
  by_cases h : 0 ≤ u ∧ u < (s.m_size : Int)
  · simp [h, LiveSet.member]
  · simp only [h, if_false]
    constructor
    · intro h'; cases h'
    · rintro ⟨h1, h2, _⟩; exact absurd ⟨h1, h2⟩ h

theorem LiveSets.insertAt_ok (s s' : LiveSets) (i id : Int) (hwf : s.WF)
    (h : s.insertAt i id = .ok s') :
    s'.WF ∧ s'.m_size = s.m_size ∧ (0 ≤ i ∧ i < s.m_size) ∧
      ∀ u v, s'.interferes u v = true ↔ (s.interferes u v = true ∨ (u = i ∧ v = id)) := by
  unfold LiveSets.insertAt at h
  by_cases hr : 0 ≤ i ∧ i < (s.m_size : Int)
  · simp only [hr, and_self, if_true, Except.ok.injEq] at h
    subst h
    refine ⟨by simpa [LiveSets.WF] using hwf, rfl, hr, ?_⟩
    intro u v
    simp only [LiveSets.interferes_iff, List.getD_eq_getElem?_getD, List.getElem?_modify]
    have hlen : i.toNat < s.m_sets.length := by
      have := hr.2; unfold LiveSets.WF at hwf; omega
    by_cases hu : u = i
    · subst hu
      simp only [if_true, hr, true_and]
      rw [List.getElem?_eq_getElem hlen]
      simp [LiveSet.mem_insert]
      tauto
    · constructor
      · rintro ⟨h1, h2, h3⟩
        left
        refine ⟨h1, h2, ?_⟩
        have hne : i.toNat ≠ u.toNat := by omega
        unfold LiveSets.WF at hwf
        have hul : u.toNat < s.m_sets.length := by omega
        rw [List.getElem?_eq_getElem hul] at h3 ⊢
        simpa [hne] using h3
      · rintro (⟨h1, h2, h3⟩ | ⟨h1, _⟩)
        · refine ⟨h1, h2, ?_⟩
          have hne : i.toNat ≠ u.toNat := by omega
          unfold LiveSets.WF at hwf
          have hul : u.toNat < s.m_sets.length := by omega
          rw [List.getElem?_eq_getElem hul] at h3 ⊢
          simpa [hne] using h3
        · exact absurd h1 hu
  · simp [hr] at h

theorem LiveSets.adds_foldlM {α : Type} (f : LiveSets → α → Except Failure LiveSets)
    (E : α → Int → Int → Prop)
    (hf : ∀ s x s', s.WF → f s x = .ok s' → LiveSets.Adds s s' (E x))
    (l : List α) (s s' : LiveSets) (hwf : s.WF) (h : l.foldlM f s = .ok s') :
    LiveSets.Adds s s' (fun u v => ∃ x ∈ l, E x u v) := by
  induction l generalizing s with
  | nil =>
    simp only [List.foldlM_nil, pure, Except.pure, Except.ok.injEq] at h
    subst h
    exact ⟨hwf, rfl, by simp⟩
  | cons a rest ih =>
    rw [List.foldlM_cons, except_bind_ok] at h
    obtain ⟨s1, h1, h2⟩ := h
    obtain ⟨w1, m1, e1⟩ := hf s a s1 hwf h1
    obtain ⟨w2, m2, e2⟩ := ih s1 w1 h2
    refine ⟨w2, by rw [m2, m1], ?_⟩
    intro u v
    rw [e2, e1]
    simp only [List.mem_cons, exists_eq_or_imp]
    tauto

theorem LiveSets.init_rx_adds (liveOut : LiveSet) (defs : List Int) (s s' : LiveSets)
    (rx : Int) (hwf : s.WF) (h : LiveSets.init_rx liveOut defs s rx = .ok s') :
    LiveSets.Adds s s' (fun u v => u ≠ v ∧
      ((u = rx ∧ v ∈ liveOut.elems) ∨ (u = rx ∧ v ∈ defs) ∨ (u ∈ defs ∧ v = rx))) := by
  unfold LiveSets.init_rx at h
  rw [except_bind_ok] at h
  obtain ⟨s1, h1, h2⟩ := h
  have a1 := LiveSets.adds_foldlM _ (fun ry u v => rx ≠ ry ∧ u = rx ∧ v = ry) ?_ _ _ _ hwf h1
  have a2 := LiveSets.adds_foldlM _
    (fun rd u v => rd ≠ rx ∧ ((u = rx ∧ v = rd) ∨ (u = rd ∧ v = rx))) ?_ _ _ _ a1.1 h2
  · obtain ⟨_, m1, e1⟩ := a1
    obtain ⟨w2, m2, e2⟩ := a2
    refine ⟨w2, by rw [m2, m1], ?_⟩
    intro u v
    rw [e2, e1]
    constructor
    · rintro ((h | ⟨ry, hry, hne, rfl, rfl⟩) | ⟨rd, hrd, hne, (⟨rfl, rfl⟩ | ⟨rfl, rfl⟩)⟩)
      · exact Or.inl h
      · exact Or.inr ⟨hne, Or.inl ⟨rfl, hry⟩⟩
      · exact Or.inr ⟨fun e => hne e.symm, Or.inr (Or.inl ⟨rfl, hrd⟩)⟩
      · exact Or.inr ⟨hne, Or.inr (Or.inr ⟨hrd, rfl⟩)⟩
    · rintro (h | ⟨hne, (⟨rfl, hv⟩ | ⟨rfl, hv⟩ | ⟨hu, rfl⟩)⟩)
      · exact Or.inl (Or.inl h)
      · exact Or.inl (Or.inr ⟨v, hv, hne, rfl, rfl⟩)
      · exact Or.inr ⟨v, hv, fun e => hne e.symm, Or.inl ⟨rfl, rfl⟩⟩
      · exact Or.inr ⟨u, hu, hne, Or.inr ⟨rfl, rfl⟩⟩
  · intro t rd t' hw ht
    by_cases hne : rd ≠ rx
    · simp only [hne, ne_eq, not_false_eq_true, if_true] at ht
      rw [except_bind_ok] at ht
      obtain ⟨t1, ht1, ht2⟩ := ht
      obtain ⟨w1, m1, _, e1⟩ := LiveSets.insertAt_ok _ _ _ _ hw ht1
      obtain ⟨w2, m2, _, e2⟩ := LiveSets.insertAt_ok _ _ _ _ w1 ht2
      refine ⟨w2, by rw [m2, m1], ?_⟩
      intro u v
      rw [e2, e1]
      simp only [hne, ne_eq, not_false_eq_true, true_and]
      tauto
    · simp only [hne, if_false, pure, Except.pure, Except.ok.injEq] at ht
      subst ht
      exact ⟨hw, rfl, by simp [hne]⟩
  · intro t ry t' hw ht
    by_cases hne : rx ≠ ry
    · simp only [hne, ne_eq, not_false_eq_true, if_true] at ht
      obtain ⟨w1, m1, _, e1⟩ := LiveSets.insertAt_ok _ _ _ _ hw ht
      refine ⟨w1, m1, ?_⟩
      intro u v
      rw [e1]
      simp only [hne, ne_eq, not_false_eq_true, true_and]
    · simp only [hne, if_false, pure, Except.pure, Except.ok.injEq] at ht
      subst ht
      exact ⟨hw, rfl, by simp [hne]⟩

theorem LiveSets.init_instr_adds (liveOut : LiveSet) (defs : List Int) (s s' : LiveSets)
    (hwf : s.WF) (h : LiveSets.init_instr liveOut defs s = .ok s') :
    LiveSets.Adds s s' (connects liveOut defs) := by
  unfold LiveSets.init_instr at h
  obtain ⟨w, m, e⟩ := LiveSets.adds_foldlM _ _
    (fun t rx t' hw ht => LiveSets.init_rx_adds liveOut defs t t' rx hw ht) _ _ _ hwf h
  refine ⟨w, m, ?_⟩
  intro u v
  rw [e]
  unfold connects
  constructor
  · rintro (h | ⟨rx, hrx, hne, (⟨rfl, hv⟩ | ⟨rfl, hv⟩ | ⟨hu, rfl⟩)⟩)
    · exact Or.inl h
    · exact Or.inr ⟨hne, Or.inl ⟨hrx, hv⟩⟩
    · exact Or.inr ⟨hne, Or.inr (Or.inl ⟨hrx, hv⟩)⟩
    · exact Or.inr ⟨hne, Or.inr (Or.inr ⟨hu, hrx⟩)⟩
  · rintro (h | ⟨hne, (⟨hu, hv⟩ | ⟨hu, hv⟩ | ⟨hu, hv⟩)⟩)
    · exact Or.inl h
    · exact Or.inr ⟨u, hu, hne, Or.inl ⟨rfl, hv⟩⟩
    · exact Or.inr ⟨u, hu, hne, Or.inr (Or.inl ⟨rfl, hv⟩)⟩
    · exact Or.inr ⟨v, hv, hne, Or.inr (Or.inr ⟨hu, rfl⟩)⟩

theorem LiveSets.init_from_adds (ud : Instr → UseDef) (live : Liveness) (instrs : List Instr)
    (i0 : Nat) (s s' : LiveSets) (hwf : s.WF)
    (h : LiveSets.init_from ud live i0 instrs s = .ok s') :
    LiveSets.Adds s s' (fun u v => ∃ i instr, instrs[i]? = some instr ∧
      connects (live.computeLiveOut (i0 + i)) (ud instr).def_ u v) := by
  induction instrs generalizing i0 s with
  | nil =>
    simp only [LiveSets.init_from, Except.ok.injEq] at h
    subst h
    exact ⟨hwf, rfl, by simp⟩
  | cons a rest ih =>
    simp only [LiveSets.init_from] at h
    rw [except_bind_ok] at h
    obtain ⟨s1, h1, h2⟩ := h
    obtain ⟨w1, m1, e1⟩ := LiveSets.init_instr_adds _ _ _ _ hwf h1
    obtain ⟨w2, m2, e2⟩ := ih (i0 + 1) s1 w1 h2
    refine ⟨w2, by rw [m2, m1], ?_⟩
    intro u v
    rw [e2, e1]
    constructor
    · rintro ((h | h) | ⟨i, instr, hi, hc⟩)
      · exact Or.inl h
      · exact Or.inr ⟨0, a, by simp, by simpa using h⟩
      · refine Or.inr ⟨i + 1, instr, by simpa using hi, ?_⟩
        have : i0 + (i + 1) = i0 + 1 + i := by omega
        rw [this]; exact hc
    · rintro (h | ⟨i, instr, hi, hc⟩)
      · exact Or.inl (Or.inl h)
      · cases i with
        | zero =>
          simp only [List.getElem?_cons_zero, Option.some.injEq] at hi
          subst hi
          exact Or.inl (Or.inr (by simpa using hc))
        | succ i =>
          refine Or.inr ⟨i, instr, by simpa using hi, ?_⟩
          have : i0 + (i + 1) = i0 + 1 + i := by omega
          rw [← this]; exact hc

theorem LiveSets.create_ok (size : Nat) (s : LiveSets) (h : LiveSets.create size = .ok s) :
    0 < size ∧ s.WF ∧ s.m_size = size ∧ ∀ u v, s.interferes u v = false := by
  unfold LiveSets.create at h
  by_cases hs : 0 < size
  · simp only [hs, if_true, Except.ok.injEq] at h
    subst h
    refine ⟨hs, by simp [LiveSets.WF], rfl, ?_⟩
    intro u v
    rw [Bool.eq_false_iff]
    intro hc
    rw [LiveSets.interferes_iff] at hc
    obtain ⟨h1, h2, h3⟩ := hc
    simp [List.getD_eq_getElem?_getD, List.getElem?_replicate] at h3
    split at h3 <;> simp at h3
  · simp [hs] at h

/-- The sets built by `LiveSets::init` from empty sets: `v` is in the set of `u` exactly when
some instruction connects them. -/
theorem LiveSets.init_interferes (ud : Instr → UseDef) (live : Liveness) (instrs : List Instr)
    (size : Nat) (s0 s : LiveSets) (h0 : LiveSets.create size = .ok s0)
    (h : s0.init ud instrs live = .ok s) (u v : Int) :
    s.interferes u v = true ↔ ∃ i instr, instrs[i]? = some instr ∧
      connects (live.computeLiveOut i) (ud instr).def_ u v := by
  obtain ⟨_, w0, _, e0⟩ := LiveSets.create_ok size s0 h0
  obtain ⟨_, _, e⟩ := LiveSets.init_from_adds ud live instrs 0 s0 s w0 h
  rw [e, e0]
  simp

theorem vecGet_ok {α : Type} (v : List α) (i : Int) (a : α) :
    vecGet v i = .ok a ↔ 0 ≤ i ∧ v[i.toNat]? = some a := by
  unfold vecGet
  by_cases h : 0 ≤ i
  · simp only [h, if_true, true_and]
    cases hv : v[i.toNat]? with
    | none => simp
    | some b => simp
  · simp [h]

theorem vecSet_ok {α : Type} (v v' : List α) (i : Int) (a : α) :
    vecSet v i a = .ok v' ↔ (0 ≤ i ∧ i.toNat < v.length) ∧ v' = v.set i.toNat a := by
  unfold vecSet
  by_cases h : 0 ≤ i ∧ i.toNat < v.length
  · simp only [h, and_self, if_true, Except.ok.injEq, true_and]
    exact eq_comm
  · simp [h]

/-- The loop of `possible_registers` over the neighbours `l`: an entry stays `true` exactly when
it was `true` and no neighbour in `l` holds that register with the tag asked for. -/
theorem possible_fold (alloc : List Reg) (reg_tag : RegTag) (l : List Int)
    (p p' : List Bool)
    (h : l.foldlM (fun possible j => do
        let neighbour ← vecGet alloc j
        if neighbour.tag = reg_tag then vecSet possible neighbour.regId false
        else pure possible) p = .ok p') :
    p'.length = p.length ∧
    (∀ j ∈ l, ∃ r, vecGet alloc j = .ok r ∧
      (r.tag = reg_tag → 0 ≤ r.regId ∧ r.regId.toNat < p.length)) ∧
    ∀ c : Nat, p'[c]? = some true ↔
      (p[c]? = some true ∧ ∀ j ∈ l, ∀ r, vecGet alloc j = .ok r → r.tag = reg_tag →
        r.regId ≠ (c : Int)) := by
  induction l generalizing p with
  | nil =>
    simp only [List.foldlM_nil, pure, Except.pure, Except.ok.injEq] at h
    subst h
    simp
  | cons j rest ih =>
    rw [List.foldlM_cons, except_bind_ok] at h
    obtain ⟨p1, h1, h2⟩ := h
    rw [except_bind_ok] at h1
    obtain ⟨r, hr, h1⟩ := h1
    obtain ⟨l2, m2, e2⟩ := ih p1 h2
    by_cases ht : r.tag = reg_tag
    · simp only [ht, if_true] at h1
      rw [vecSet_ok] at h1
      obtain ⟨hrange, rfl⟩ := h1
      rw [List.length_set] at l2 m2
      refine ⟨l2, ?_, ?_⟩
      · intro j' hj'
        rcases List.mem_cons.mp hj' with rfl | hj'
        · exact ⟨r, hr, fun _ => hrange⟩
        · exact m2 j' hj'
      · intro c
        rw [e2, List.getElem?_set]
        constructor
        · rintro ⟨hc, hrest⟩
          by_cases hcr : r.regId.toNat = c
          · simp [hcr] at hc
          · simp only [hcr, if_false] at hc
            refine ⟨hc, ?_⟩
            intro j' hj' r' hr' ht'
            rcases List.mem_cons.mp hj' with rfl | hj'
            · rw [hr] at hr'
              cases hr'
              omega
            · exact hrest j' hj' r' hr' ht'
        · rintro ⟨hc, hall⟩
          have hne : r.regId ≠ (c : Int) := hall j (List.mem_cons_self _ _) r hr ht
          have hcr : r.regId.toNat ≠ c := by omega
          simp only [hcr, if_false]
          exact ⟨hc, fun j' hj' => hall j' (List.mem_cons_of_mem _ hj')⟩
    · simp only [ht, if_false, pure, Except.pure, Except.ok.injEq] at h1
      subst h1
      refine ⟨l2, ?_, ?_⟩
      · intro j' hj'
        rcases List.mem_cons.mp hj' with rfl | hj'
        · exact ⟨r, hr, fun h => absurd h ht⟩
        · exact m2 j' hj'
      · intro c
        rw [e2]
        constructor
        · rintro ⟨hc, hrest⟩
          refine ⟨hc, ?_⟩
          intro j' hj' r' hr' ht'
          rcases List.mem_cons.mp hj' with rfl | hj'
          · rw [hr] at hr'
            cases hr'
            exact absurd ht' ht
          · exact hrest j' hj' r' hr' ht'
        · rintro ⟨hc, hall⟩
          exact ⟨hc, fun j' hj' => hall j' (List.mem_cons_of_mem _ hj')⟩

/-- What a successful `possible_registers(index, alloc, REG_A)` returns. -/
theorem LiveSets.possible_registers_ok (s : LiveSets) (N : Nat) (index : Int)
    (alloc : List Reg) (p : List Bool)
    (h : s.possible_registers N index alloc .REG_A = .ok p) :
    p.length = N ∧
    (∀ j, s.interferes index j = true → ∃ r, vecGet alloc j = .ok r) ∧
    ∀ c : Nat, p[c]? = some true ↔
      (c < N ∧ ∀ j, s.interferes index j = true → ∀ r, vecGet alloc j = .ok r →
        r.tag = .REG_A → r.regId ≠ (c : Int)) := by
  unfold LiveSets.possible_registers at h
  simp only [reduceCtorEq, or_false, not_true_eq_false, if_false] at h
  rw [except_bind_ok] at h
  obtain ⟨u, _, h⟩ := h
  rw [except_bind_ok] at h
  obtain ⟨set, hset, h⟩ := h
  obtain ⟨l1, m1, e1⟩ := possible_fold alloc .REG_A set.elems _ p h
  have hmem : ∀ j, s.interferes index j = true ↔ j ∈ set.elems := by
    intro j
    unfold LiveSets.interferes
    rw [hset]
    simp [LiveSet.member]
  refine ⟨by simpa using l1, ?_, ?_⟩
  · intro j hj
    obtain ⟨r, hr, _⟩ := m1 j ((hmem j).mp hj)
    exact ⟨r, hr⟩
  · intro c
    rw [e1, List.getElem?_replicate]
    constructor
    · rintro ⟨hc, hall⟩
      refine ⟨by by_contra hn; simp [hn] at hc, ?_⟩
      intro j hj
      exact hall j ((hmem j).mp hj)
    · rintro ⟨hc, hall⟩
      refine ⟨by simp [hc], ?_⟩
      intro j hj
      exact hall j ((hmem j).mpr hj)

theorem LowestFree_congr (liveWith : LiveSets) (N : Nat) (alloc alloc' : List Reg) (i : Nat)
    (c : Int) (hag : ∀ j, j < i → alloc'[j]? = alloc[j]?)
    (h : LowestFree liveWith N alloc i c) : LowestFree liveWith N alloc' i c := by
  have hv : ∀ (j : Int) r, j < (i : Int) → (vecGet alloc' j = .ok r ↔ vecGet alloc j = .ok r) := by
    intro j r hj
    rw [vecGet_ok, vecGet_ok]
    by_cases h0 : 0 ≤ j
    · rw [hag j.toNat (by omega)]
    · simp [h0]
  obtain ⟨h1, h2, h3, h4⟩ := h
  refine ⟨h1, h2, ?_, ?_⟩
  · intro j r hi hj hr
    exact h3 j r hi hj ((hv j r hj).mp hr)
  · intro c' hc0 hc1
    obtain ⟨j, r, hi, hj, hr, hc⟩ := h4 c' hc0 hc1
    exact ⟨j, r, hi, hj, (hv j r hj).mpr hr, hc⟩

theorem LiveSets.choose_register_ok (p : List Bool) (regId : Int)
    (h : LiveSets.choose_register p false = .ok regId) (hpos : 0 ≤ regId) :
    ∃ c : Nat, regId = (c : Int) ∧ p[c]? = some true ∧ ∀ m, m < c → p[m]? = some false := by
  unfold LiveSets.choose_register at h
  by_cases he : p.isEmpty = true
  · simp [he] at h
  · simp only [he, Bool.false_eq_true, if_false, Bool.false_and, Except.ok.injEq] at h
    rcases choose_register_scan_cases p 0 with ⟨h1, _⟩ | ⟨k, _, h1, h2, h3⟩
    · rw [h1] at h; omega
    · refine ⟨k, ?_, h2, h3⟩
      rw [← h, h1]; simp

theorem regAlloc_var_ok (liveWith : LiveSets) (N numVars : Nat) (instrs : List Instr)
    (alloc alloc' : List Reg) (k : Nat) (hk : k < numVars)
    (hinv : AllocInv liveWith N numVars k alloc)
    (h : regAlloc_var liveWith N instrs alloc k = .ok alloc') :
    AllocInv liveWith N numVars (k + 1) alloc' ∧ ∀ i, i ≠ k → alloc'[i]? = alloc[i]? := by
  obtain ⟨hlen, hnone, hdone⟩ := hinv
  unfold regAlloc_var at h
  rw [except_bind_ok] at h
  obtain ⟨p, hp, h⟩ := h
  rw [except_bind_ok] at h
  obtain ⟨regId, hreg, h⟩ := h
  by_cases hneg : regId < 0
  · simp only [hneg, if_true] at h
    cases hi : instrs[k]? <;> simp [hi, throw, throwThe, MonadExceptOf.throw] at h
  · simp only [hneg, if_false, pure, Except.pure, Except.ok.injEq] at h
    obtain ⟨c, hc, hpc, hlow⟩ := LiveSets.choose_register_ok p regId hreg (by omega)
    obtain ⟨_, hvec, hposs⟩ := LiveSets.possible_registers_ok liveWith N k alloc p hp
    have hag : ∀ i, i ≠ k → alloc'[i]? = alloc[i]? := by
      intro i hi
      rw [← h, List.getElem?_modify, List.getElem?_modify]
      have : ¬ k = i := fun e => hi e.symm
      simp [this]
    have hk' : alloc'[k]? = some ⟨.REG_A, regId, false⟩ := by
      rw [← h, List.getElem?_modify, List.getElem?_modify, hnone k hk (le_refl k)]
      simp
    -- a neighbour that holds a register has a smaller index
    have hsmall : ∀ (j : Int) r, vecGet alloc j = .ok r → r.tag = .REG_A → j < (k : Int) := by
      intro j r hr ht
      rw [vecGet_ok] at hr
      obtain ⟨h0, hr⟩ := hr
      by_contra hge
      have hjl : j.toNat < numVars := by
        rw [← hlen]
        by_contra hn
        rw [List.getElem?_eq_none (by omega)] at hr
        cases hr
      rw [hnone j.toNat hjl (by omega)] at hr
      cases hr
      cases ht
    have hvk : ∀ (j : Int) r, j < (k : Int) →
        (vecGet alloc' j = .ok r ↔ vecGet alloc j = .ok r) := by
      intro j r hj
      rw [vecGet_ok, vecGet_ok]
      by_cases h0 : 0 ≤ j
      · rw [hag j.toNat (by omega)]
      · simp [h0]
    refine ⟨⟨?_, ?_, ?_⟩, hag⟩
    · rw [← h]; simpa using hlen
    · intro i hi hki
      rw [hag i (by omega)]
      exact hnone i hi (by omega)
    · intro i hi
      by_cases hik : i = k
      · have hki := hik.symm
        subst hki
        refine ⟨_, hk', rfl, ?_⟩
        show LowestFree liveWith N alloc' k regId
        have hpc' := (hposs c).mp hpc
        refine ⟨by omega, by rw [hc]; exact_mod_cast hpc'.1, ?_, ?_⟩
        · intro j r hint hj hr
          have hr0 := (hvk j r hj).mp hr
          have hjr : ∃ r0, alloc[j.toNat]? = some r0 ∧ r0.tag = .REG_A := by
            rw [vecGet_ok] at hr0
            obtain ⟨r1, hr1, ht1, _⟩ := hdone j.toNat (by omega)
            exact ⟨r1, hr1, ht1⟩
          obtain ⟨r0, hr0', ht0⟩ := hjr
          rw [vecGet_ok] at hr0
          rw [hr0'] at hr0
          have : r0 = r := by simpa using hr0.2
          subst this
          rw [hc]
          exact hpc'.2 j hint r0 ((vecGet_ok _ _ _).mpr ⟨hr0.1, hr0'⟩) ht0
        · intro c' hc0 hc1
          have hcn : c'.toNat < c := by omega
          have hf := hlow c'.toNat hcn
          have hnt : ¬ (c'.toNat < N ∧ ∀ j, liveWith.interferes (k : Int) j = true →
              ∀ r, vecGet alloc j = .ok r → r.tag = .REG_A → r.regId ≠ ((c'.toNat : Nat) : Int)) := by
            intro hcon
            have := (hposs c'.toNat).mpr hcon
            rw [hf] at this
            cases this
          have hcN : c'.toNat < N := by omega
          simp only [hcN, true_and, not_forall, not_not] at hnt
          obtain ⟨j, hint, r, hr, ht, hrc⟩ := hnt
          have hj := hsmall j r hr ht
          exact ⟨j, r, hint, hj, (hvk j r hj).mpr hr, by omega⟩
      · obtain ⟨r, hr, ht, hl⟩ := hdone i (by omega)
        refine ⟨r, by rw [hag i hik]; exact hr, ht, ?_⟩
        exact LowestFree_congr liveWith N alloc alloc' i r.regId
          (fun j hj => hag j (by omega)) hl

theorem regAlloc_loop_succ (liveWith : LiveSets) (N numVars : Nat) (instrs : List Instr)
    (k : Nat) :
    regAlloc_loop liveWith N numVars instrs (k + 1) =
      (regAlloc_loop liveWith N numVars instrs k >>= fun alloc =>
        regAlloc_var liveWith N instrs alloc k) := by
  unfold regAlloc_loop
  rw [List.range_succ, List.foldlM_append]
  congr 1
  funext alloc
  simp [List.foldlM_cons]

theorem regAlloc_loop_inv (liveWith : LiveSets) (N numVars : Nat) (instrs : List Instr)
    (k : Nat) (hk : k ≤ numVars) (alloc : List Reg)
    (h : regAlloc_loop liveWith N numVars instrs k = .ok alloc) :
    AllocInv liveWith N numVars k alloc := by
  induction k generalizing alloc with
  | zero =>
    simp only [regAlloc_loop, List.range_zero, List.foldlM_nil, pure, Except.pure,
      Except.ok.injEq] at h
    subst h
    refine ⟨by simp [regAlloc_init], ?_, ?_⟩
    · intro i hi _
      simp [regAlloc_init, List.getElem?_replicate, hi]
    · intro i hi; omega
  | succ k ih =>
    rw [regAlloc_loop_succ, except_bind_ok] at h
    obtain ⟨a, ha, h⟩ := h
    exact (regAlloc_var_ok liveWith N numVars instrs a alloc k (by omega)
      (ih (by omega) a ha) h).1

theorem possible_fold_total (alloc : List Reg) (reg_tag : RegTag) (l : List Int)
    (p : List Bool)
    (h : ∀ j ∈ l, ∃ r, vecGet alloc j = .ok r ∧
      (r.tag = reg_tag → 0 ≤ r.regId ∧ r.regId.toNat < p.length)) :
    ∃ p', l.foldlM (fun possible j => do
        let neighbour ← vecGet alloc j
        if neighbour.tag = reg_tag then vecSet possible neighbour.regId false
        else pure possible) p = .ok p' := by
  induction l generalizing p with
  | nil => exact ⟨p, rfl⟩
  | cons j rest ih =>
    obtain ⟨r, hr, hrange⟩ := h j (List.mem_cons_self _ _)
    rw [List.foldlM_cons]
    by_cases ht : r.tag = reg_tag
    · have hs : vecSet p r.regId false = .ok (p.set r.regId.toNat false) :=
        (vecSet_ok _ _ _ _).mpr ⟨hrange ht, rfl⟩
      obtain ⟨p', hp'⟩ := ih (p.set r.regId.toNat false) (by
        intro j' hj'
        obtain ⟨r', hr', hrange'⟩ := h j' (List.mem_cons_of_mem _ hj')
        exact ⟨r', hr', by simpa using hrange'⟩)
      refine ⟨p', ?_⟩
      simp only [hr, ht, if_true, hs, bind, Except.bind]
      exact hp'
    · obtain ⟨p', hp'⟩ := ih p (fun j' hj' => h j' (List.mem_cons_of_mem _ hj'))
      refine ⟨p', ?_⟩
      simp only [hr, ht, if_false, bind, Except.bind, pure, Except.pure]
      exact hp'

theorem LiveSets.possible_registers_total (s : LiveSets) (N : Nat) (index : Int)
    (alloc : List Reg) (hidx : 0 ≤ index ∧ index < s.m_size)
    (h : ∀ j, s.interferes index j = true → ∃ r, vecGet alloc j = .ok r ∧
      (r.tag = .REG_A → 0 ≤ r.regId ∧ r.regId < N)) :
    ∃ p, s.possible_registers N index alloc .REG_A = .ok p := by
  unfold LiveSets.possible_registers
  have hat : s.at index = .ok (s.m_sets.getD index.toNat ⟨[]⟩) := by
    unfold LiveSets.at; simp [hidx]
  obtain ⟨p, hp⟩ := possible_fold_total alloc .REG_A (s.m_sets.getD index.toNat ⟨[]⟩).elems
    (List.replicate N true) (by
      intro j hj
      have hint : s.interferes index j = true := by
        unfold LiveSets.interferes
        rw [hat]
        simpa [LiveSet.member] using hj
      obtain ⟨r, hr, hrange⟩ := h j hint
      refine ⟨r, hr, fun ht => ?_⟩
      have := hrange ht
      simp only [List.length_replicate]
      omega)
  refine ⟨p, ?_⟩
  simp only [reduceCtorEq, or_false, not_true_eq_false, if_false, hat, bind, Except.bind,
    pure, Except.pure]
  exact hp

/-- One step of the allocation loop either succeeds, or every register is held by a neighbour
with a smaller index and the step stops in the diagnostic. -/
theorem regAlloc_var_cases (liveWith : LiveSets) (N numVars : Nat) (instrs : List Instr)
    (alloc : List Reg) (k : Nat) (hk : k < numVars) (hN : 0 < N)
    (hsz : liveWith.m_size = numVars)
    (hnb : ∀ j, liveWith.interferes k j = true → 0 ≤ j ∧ j < (numVars : Int))
    (hinv : AllocInv liveWith N numVars k alloc) :
    (∃ alloc', regAlloc_var liveWith N instrs alloc k = .ok alloc') ∨
    ((∀ c : Nat, c < N → ∃ j r, liveWith.interferes k j = true ∧ j < (k : Int) ∧
        vecGet alloc j = .ok r ∧ r.regId = (c : Int)) ∧
      regAlloc_var liveWith N instrs alloc k = .error (regAlloc_failure instrs k)) := by
  obtain ⟨hlen, hnone, hdone⟩ := hinv
  -- every neighbour has an entry, and an allocated one holds a register of the file
  have hentry : ∀ j, liveWith.interferes k j = true → ∃ r, vecGet alloc j = .ok r ∧
      (r.tag = .REG_A → (0 ≤ r.regId ∧ r.regId < N) ∧ j < (k : Int)) := by
    intro j hj
    obtain ⟨h0, h1⟩ := hnb j hj
    have hjl : j.toNat < alloc.length := by omega
    by_cases hjk : j.toNat < k
    · obtain ⟨r, hr, _, hl⟩ := hdone j.toNat hjk
      exact ⟨r, (vecGet_ok _ _ _).mpr ⟨h0, hr⟩, fun _ => ⟨⟨hl.1, hl.2.1⟩, by omega⟩⟩
    · refine ⟨⟨.NONE, 0, false⟩, (vecGet_ok _ _ _).mpr ⟨h0, hnone j.toNat (by omega) (by omega)⟩, ?_⟩
      intro ht; cases ht
  obtain ⟨p, hp⟩ := LiveSets.possible_registers_total liveWith N k alloc
    ⟨by omega, by rw [hsz]; exact_mod_cast hk⟩ (by
      intro j hj
      obtain ⟨r, hr, hrange⟩ := hentry j hj
      exact ⟨r, hr, fun ht => (hrange ht).1⟩)
  obtain ⟨hplen, _, hposs⟩ := LiveSets.possible_registers_ok liveWith N k alloc p hp
  have hpne : p.isEmpty = false := by
    cases p with
    | nil => simp at hplen; omega
    | cons _ _ => rfl
  have hchoose : LiveSets.choose_register p false = .ok (LiveSets.choose_register_scan p 0) := by
    unfold LiveSets.choose_register
    simp [hpne]
  unfold regAlloc_var
  simp only [hp, hchoose, bind, Except.bind]
  rcases choose_register_scan_cases p 0 with ⟨h1, h2⟩ | ⟨c, _, h1, _, _⟩
  · right
    refine ⟨?_, ?_⟩
    · intro c hc
      have hnt : ¬ p[c]? = some true := by
        intro hpc
        have hmem : p[c] ∈ p := List.getElem_mem (by omega)
        rw [List.getElem?_eq_getElem (by omega)] at hpc
        have := h2 _ hmem
        simp_all
      rw [hposs c] at hnt
      simp only [hc, true_and, not_forall, not_not] at hnt
      obtain ⟨j, hj, r, hr, ht, hrc⟩ := hnt
      obtain ⟨r', hr', hrange⟩ := hentry j hj
      rw [hr] at hr'
      cases hr'
      exact ⟨j, r, hj, (hrange ht).2, hr, hrc⟩
    · simp only [h1, Int.reduceNeg, Int.reduceLT, if_true, regAlloc_failure]
      cases instrs[k]? <;> rfl
  · left
    have : ¬ ((0 + c : Nat) : Int) < 0 := by omega
    simp only [h1, this, if_false, pure, Except.pure]
    exact ⟨_, rfl⟩

theorem connects_symm (liveOut : LiveSet) (defs : List Int) (u v : Int)
    (h : connects liveOut defs u v) : connects liveOut defs v u := by
  obtain ⟨hne, h⟩ := h
  refine ⟨fun e => hne e.symm, ?_⟩
  rcases h with ⟨a, b⟩ | ⟨a, b⟩ | ⟨a, b⟩
  · exact Or.inl ⟨b, a⟩
  · exact Or.inr (Or.inr ⟨b, a⟩)
  · exact Or.inr (Or.inl ⟨b, a⟩)

theorem regAlloc_liveWith_ok (ud : Instr → UseDef) (numVars : Nat) (live : Liveness)
    (instrs : List Instr) (liveWith : LiveSets)
    (h : regAlloc_liveWith ud numVars live instrs = .ok liveWith) :
    instrs.length = live.size ∧ ∃ s0, LiveSets.create numVars = .ok s0 ∧
      s0.init ud instrs live = .ok liveWith := by
  unfold regAlloc_liveWith at h
  by_cases hs : instrs.length = live.size
  · simp only [hs, ne_eq, not_true_eq_false, if_false] at h
    rw [except_bind_ok] at h
    obtain ⟨_, _, h⟩ := h
    rw [except_bind_ok] at h
    exact ⟨hs, h⟩
  · simp [hs, throw, throwThe, MonadExceptOf.throw, bind, Except.bind] at h

theorem regAlloc_liveWith_props (ud : Instr → UseDef) (numVars : Nat) (live : Liveness)
    (instrs : List Instr) (liveWith : LiveSets)
    (h : regAlloc_liveWith ud numVars live instrs = .ok liveWith) :
    0 < numVars ∧ liveWith.WF ∧ liveWith.m_size = numVars ∧
    (∀ u v, liveWith.interferes u v = true → liveWith.interferes v u = true) ∧
    (∀ u v, liveWith.interferes u v = true → u ≠ v) ∧
    (∀ u v, liveWith.interferes u v = true →
      (0 ≤ u ∧ u < (numVars : Int)) ∧ (0 ≤ v ∧ v < (numVars : Int))) := by
  obtain ⟨_, s0, h0, hi⟩ := regAlloc_liveWith_ok ud numVars live instrs liveWith h
  obtain ⟨hpos, w0, m0, _⟩ := LiveSets.create_ok numVars s0 h0
  obtain ⟨w, m, _⟩ := LiveSets.init_from_adds ud live instrs 0 s0 liveWith w0 hi
  have hch := LiveSets.init_interferes ud live instrs numVars s0 liveWith h0 hi
  have hsym : ∀ u v, liveWith.interferes u v = true → liveWith.interferes v u = true := by
    intro u v huv
    rw [hch] at huv ⊢
    obtain ⟨i, instr, hi, hc⟩ := huv
    exact ⟨i, instr, hi, connects_symm _ _ _ _ hc⟩
  have hrange : ∀ u v, liveWith.interferes u v = true → 0 ≤ u ∧ u < (numVars : Int) := by
    intro u v huv
    rw [LiveSets.interferes_iff] at huv
    rw [m, m0] at huv
    exact ⟨huv.1, huv.2.1⟩
  refine ⟨hpos, w, by rw [m, m0], hsym, ?_, ?_⟩
  · intro u v huv
    rw [hch] at huv
    obtain ⟨_, _, _, hc⟩ := huv
    exact hc.1
  · intro u v huv
    exact ⟨hrange u v huv, hrange v u (hsym u v huv)⟩

theorem regAlloc_alloc_ok (ud : Instr → UseDef) (N numVars : Nat) (live : Liveness)
    (instrs : List Instr) (liveWith : LiveSets) (alloc : List Reg)
    (hl : regAlloc_liveWith ud numVars live instrs = .ok liveWith)
    (ha : regAlloc_alloc ud N numVars live instrs = .ok alloc) :
    regAlloc_loop liveWith N numVars instrs numVars = .ok alloc := by
  unfold regAlloc_alloc at ha
  rw [hl] at ha
  exact ha

/-- C2: after `LiveSets::init` on sets that start empty, the interference relation is
symmetric: `v` is a member of the set of `u` exactly when `u` is a member of the set of `v`. -/
theorem init_symmetric (ud : Instr → UseDef) (live : Liveness) (instrs : List Instr)
    (size : Nat) (s0 s : LiveSets) (h0 : LiveSets.create size = .ok s0)
    (h : s0.init ud instrs live = .ok s) (u v : Int) :
    s.interferes u v = true ↔ s.interferes v u = true := by
  rw [LiveSets.init_interferes ud live instrs size s0 s h0 h,
    LiveSets.init_interferes ud live instrs size s0 s h0 h]
  constructor
  · rintro ⟨i, instr, hi, hc⟩
    exact ⟨i, instr, hi, connects_symm _ _ _ _ hc⟩
  · rintro ⟨i, instr, hi, hc⟩
    exact ⟨i, instr, hi, connects_symm _ _ _ _ hc⟩

theorem init_symmetric_witness :
    LiveSets.create 3 = .ok ⟨3, [⟨[]⟩, ⟨[]⟩, ⟨[]⟩]⟩ ∧
    LiveSets.init ⟨3, [⟨[]⟩, ⟨[]⟩, ⟨[]⟩]⟩ useDef exampleLoop exampleLive = .ok exampleLiveWith ∧
    (exampleLiveWith.interferes 0 2 = true ↔ exampleLiveWith.interferes 2 0 = true) :=
  ⟨rfl, rfl, init_symmetric useDef exampleLive exampleLoop 3 _ exampleLiveWith rfl rfl 0 2⟩

/-- C3: after `LiveSets::init` on sets that start empty, for distinct `u` and `v`: `v` is in
the set of `u` exactly when at some instruction `i` both are live-out, or one of them is
defined at `i` and the other is live-out at `i`.  In particular the live-out set of every
instruction is a clique, and a variable defined at `i` is connected (both ways) to every other
variable live-out at `i`. -/
theorem init_edges (ud : Instr → UseDef) (live : Liveness) (instrs : List Instr)
    (size : Nat) (s0 s : LiveSets) (h0 : LiveSets.create size = .ok s0)
    (h : s0.init ud instrs live = .ok s) :
    (∀ u v : Int, u ≠ v →
      (s.interferes u v = true ↔ ∃ i instr, instrs[i]? = some instr ∧
        ((u ∈ (live.computeLiveOut i).elems ∧ v ∈ (live.computeLiveOut i).elems) ∨
         (u ∈ (ud instr).def_ ∧ v ∈ (live.computeLiveOut i).elems) ∨
         (u ∈ (live.computeLiveOut i).elems ∧ v ∈ (ud instr).def_)))) ∧
    (∀ i instr, instrs[i]? = some instr →
      ∀ u ∈ (live.computeLiveOut i).elems, ∀ v ∈ (live.computeLiveOut i).elems,
        u ≠ v → s.interferes u v = true) ∧
    (∀ i instr, instrs[i]? = some instr →
      ∀ d ∈ (ud instr).def_, ∀ x ∈ (live.computeLiveOut i).elems,
        d ≠ x → s.interferes d x = true ∧ s.interferes x d = true) := by
  have hch := LiveSets.init_interferes ud live instrs size s0 s h0 h
  refine ⟨?_, ?_, ?_⟩
  · intro u v hne
    rw [hch]
    constructor
    · rintro ⟨i, instr, hi, _, hc⟩
      refine ⟨i, instr, hi, ?_⟩
      tauto
    · rintro ⟨i, instr, hi, hc⟩
      refine ⟨i, instr, hi, hne, ?_⟩
      tauto
  · intro i instr hi u hu v hv hne
    rw [hch]
    exact ⟨i, instr, hi, hne, Or.inl ⟨hu, hv⟩⟩
  · intro i instr hi d hd x hx hne
    rw [hch, hch]
    exact ⟨⟨i, instr, hi, hne, Or.inr (Or.inr ⟨hd, hx⟩)⟩,
      ⟨i, instr, hi, fun e => hne e.symm, Or.inr (Or.inl ⟨hx, hd⟩)⟩⟩

theorem init_edges_witness :
    LiveSets.create 3 = .ok ⟨3, [⟨[]⟩, ⟨[]⟩, ⟨[]⟩]⟩ ∧
    LiveSets.init ⟨3, [⟨[]⟩, ⟨[]⟩, ⟨[]⟩]⟩ useDef exampleLoop exampleLive = .ok exampleLiveWith ∧
    exampleLiveWith.interferes 2 0 = true ∧ exampleLiveWith.interferes 0 2 = true :=
  ⟨rfl, rfl,
    (init_edges useDef exampleLive exampleLoop 3 _ exampleLiveWith rfl rfl).2.2 2 _ rfl
      2 (by decide) 0 (by decide) (by decide)⟩

/-- C4: for a non-empty vector `possible`, `choose_register` returns the smallest index `j`
with `possible[j]` true when there is one; when there is none it returns `-1` if `check_limit`
is false and raises the fatal "insufficient capacity" error if `check_limit` is true, and it
raises that error in no other case. -/
theorem choose_register_lowest (possible : List Bool) (check_limit : Bool)
    (hne : possible ≠ []) :
    (∀ j : Nat, possible[j]? = some true → (∀ m, m < j → possible[m]? = some false) →
      LiveSets.choose_register possible check_limit = .ok (j : Int)) ∧
    ((∀ b ∈ possible, b = false) →
      LiveSets.choose_register possible check_limit =
        if check_limit then .error .insufficient_capacity else .ok (-1)) ∧
    (LiveSets.choose_register possible check_limit = .error .insufficient_capacity ↔
      (check_limit = true ∧ ∀ b ∈ possible, b = false)) := by
  have hemp : possible.isEmpty = false := by
    cases possible with
    | nil => exact absurd rfl hne
    | cons _ _ => rfl
  have hfirst : ∀ j : Nat, possible[j]? = some true →
      (∀ m, m < j → possible[m]? = some false) →
      LiveSets.choose_register_scan possible 0 = (j : Int) := by
    intro j hj hlow
    rcases choose_register_scan_cases possible 0 with ⟨_, h2⟩ | ⟨k, _, h1, h2, h3⟩
    · have hlt : j < possible.length := by
        by_contra hn
        rw [List.getElem?_eq_none (by omega)] at hj
        cases hj
      rw [List.getElem?_eq_getElem hlt] at hj
      have := h2 _ (List.getElem_mem hlt)
      simp_all
    · rw [h1]
      rcases Nat.lt_trichotomy j k with hlt | heq | hgt
      · have := h3 j hlt
        rw [hj] at this
        cases this
      · subst heq; simp
      · have := hlow k hgt
        rw [h2] at this
        cases this
  refine ⟨?_, ?_, ?_⟩
  · intro j hj hlow
    unfold LiveSets.choose_register
    simp [hemp, hfirst j hj hlow]
  · intro hall
    have hscan : LiveSets.choose_register_scan possible 0 = -1 := by
      rcases choose_register_scan_cases possible 0 with ⟨h1, _⟩ | ⟨k, hk, _, h2, _⟩
      · exact h1
      · rw [List.getElem?_eq_getElem hk] at h2
        have := hall _ (List.getElem_mem hk)
        simp_all
    unfold LiveSets.choose_register
    cases check_limit <;> simp [hemp, hscan]
  · unfold LiveSets.choose_register
    simp only [hemp, Bool.false_eq_true, if_false]
    rcases choose_register_scan_cases possible 0 with ⟨h1, h2⟩ | ⟨k, hk, h1, h2, _⟩
    · cases check_limit
      · simp [h1]
      · simp only [h1, Int.reduceNeg, Int.reduceLT, decide_True, Bool.and_self, if_true,
          true_and, true_iff]
        exact h2
    · have hnn : ¬ ((0 + k : Nat) : Int) < 0 := by omega
      simp only [h1, hnn, decide_False, Bool.and_false, Bool.false_eq_true, if_false,
        reduceCtorEq, false_iff, not_and]
      intro _ hall
      rw [List.getElem?_eq_getElem hk] at h2
      have := hall _ (List.getElem_mem hk)
      simp_all

theorem choose_register_lowest_witness :
    [false, false, true, true] ≠ [] ∧
    LiveSets.choose_register [false, false, true, true] true = .ok 2 :=
  ⟨by decide,
    (choose_register_lowest [false, false, true, true] true (by decide)).1 2 rfl (by
      intro m hm
      match m, hm with
      | 0, _ => rfl
      | 1, _ => rfl)⟩

theorem AllocInv_entry (liveWith : LiveSets) (N numVars : Nat) (alloc : List Reg)
    (hinv : AllocInv liveWith N numVars numVars alloc) (i : Int) (h0 : 0 ≤ i)
    (hi : i < (numVars : Int)) :
    ∃ r, vecGet alloc i = .ok r ∧ r.tag = .REG_A ∧
      LowestFree liveWith N alloc i.toNat r.regId := by
  obtain ⟨r, hr, ht, hl⟩ := hinv.2.2 i.toNat (by omega)
  exact ⟨r, (vecGet_ok _ _ _).mpr ⟨h0, hr⟩, ht, hl⟩

/-- Two distinct variables that interfere hold different registers of file A, in a finished
greedy allocation over symmetric sets. -/
theorem AllocInv_neighbours_differ (liveWith : LiveSets) (N numVars : Nat) (alloc : List Reg)
    (hinv : AllocInv liveWith N numVars numVars alloc)
    (hsym : ∀ u v, liveWith.interferes u v = true → liveWith.interferes v u = true)
    (hrange : ∀ u v, liveWith.interferes u v = true →
      (0 ≤ u ∧ u < (numVars : Int)) ∧ (0 ≤ v ∧ v < (numVars : Int)))
    (u v : Int) (hne : u ≠ v) (huv : liveWith.interferes u v = true) :
    ∃ ru rv, vecGet alloc u = .ok ru ∧ vecGet alloc v = .ok rv ∧
      ru.tag = .REG_A ∧ rv.tag = .REG_A ∧ ru.regId ≠ rv.regId := by
  obtain ⟨⟨hu0, hu1⟩, ⟨hv0, hv1⟩⟩ := hrange u v huv
  obtain ⟨ru, hru, htu, hlu⟩ := AllocInv_entry liveWith N numVars alloc hinv u hu0 hu1
  obtain ⟨rv, hrv, htv, hlv⟩ := AllocInv_entry liveWith N numVars alloc hinv v hv0 hv1
  refine ⟨ru, rv, hru, hrv, htu, htv, ?_⟩
  have hut : ((u.toNat : Nat) : Int) = u := by omega
  have hvt : ((v.toNat : Nat) : Int) = v := by omega
  rcases lt_or_gt_of_ne hne with hlt | hgt
  · have := hlv.2.2.1 u ru (by rw [hvt]; exact hsym u v huv) (by omega) hru
    exact this
  · have := hlu.2.2.1 v rv (by rw [hut]; exact huv) (by omega) hrv
    exact fun e => this e.symm

/-- C1: when the allocation of v3d `regAlloc` completes, two distinct variables `u` and `v`
with `v` in the set `liveWith[u]` built by `LiveSets::init` hold different registers, both in
file A. -/
theorem regAlloc_neighbours_differ (ud : Instr → UseDef) (N numVars : Nat) (live : Liveness)
    (instrs : List Instr) (liveWith : LiveSets) (alloc : List Reg)
    (hl : regAlloc_liveWith ud numVars live instrs = .ok liveWith)
    (ha : regAlloc_alloc ud N numVars live instrs = .ok alloc)
    (u v : Int) (hne : u ≠ v) (huv : liveWith.interferes u v = true) :
    ∃ ru rv, vecGet alloc u = .ok ru ∧ vecGet alloc v = .ok rv ∧
      ru.tag = .REG_A ∧ rv.tag = .REG_A ∧ ru.regId ≠ rv.regId := by
  obtain ⟨_, _, _, hsym, _, hrange⟩ := regAlloc_liveWith_props ud numVars live instrs liveWith hl
  have hinv := regAlloc_loop_inv liveWith N numVars instrs numVars (le_refl _) alloc
    (regAlloc_alloc_ok ud N numVars live instrs liveWith alloc hl ha)
  exact AllocInv_neighbours_differ liveWith N numVars alloc hinv hsym hrange u v hne huv

theorem regAlloc_neighbours_differ_witness :
    regAlloc_liveWith useDef 3 exampleLive exampleLoop = .ok exampleLiveWith ∧
    regAlloc_alloc useDef 32 3 exampleLive exampleLoop = .ok exampleAlloc ∧
    exampleLiveWith.interferes 0 2 = true ∧
    ∃ ru rv, vecGet exampleAlloc 0 = .ok ru ∧ vecGet exampleAlloc 2 = .ok rv ∧
      ru.tag = .REG_A ∧ rv.tag = .REG_A ∧ ru.regId ≠ rv.regId :=
  ⟨rfl, rfl, rfl,
    regAlloc_neighbours_differ useDef 32 3 exampleLive exampleLoop exampleLiveWith exampleAlloc
      rfl rfl 0 2 (by decide) rfl⟩

/-- C5: v3d `regAlloc` is the greedy colouring in variable index order.  When the allocation
completes, every variable `i` has tag `REG_A` and its register id is the smallest id of
`[0, size_regfile)` that is not the register id of a neighbour `j < i`: no neighbour with a
smaller index holds it, and every smaller id is held by a neighbour with a smaller index.
Neighbours with a larger index play no part. -/
theorem regAlloc_greedy (ud : Instr → UseDef) (N numVars : Nat) (live : Liveness)
    (instrs : List Instr) (liveWith : LiveSets) (alloc : List Reg)
    (hl : regAlloc_liveWith ud numVars live instrs = .ok liveWith)
    (ha : regAlloc_alloc ud N numVars live instrs = .ok alloc)
    (i : Nat) (hi : i < numVars) :
    ∃ r, vecGet alloc (i : Int) = .ok r ∧ r.tag = .REG_A ∧
      (0 ≤ r.regId ∧ r.regId < (N : Int)) ∧
      (∀ j rj, liveWith.interferes (i : Int) j = true → j < (i : Int) →
        vecGet alloc j = .ok rj → rj.regId ≠ r.regId) ∧
      (∀ c : Int, 0 ≤ c → c < r.regId →
        ∃ j rj, liveWith.interferes (i : Int) j = true ∧ j < (i : Int) ∧
          vecGet alloc j = .ok rj ∧ rj.regId = c) := by
  have hinv := regAlloc_loop_inv liveWith N numVars instrs numVars (le_refl _) alloc
    (regAlloc_alloc_ok ud N numVars live instrs liveWith alloc hl ha)
  obtain ⟨r, hr, ht, h0, h1, h2, h3⟩ :=
    AllocInv_entry liveWith N numVars alloc hinv (i : Int) (by omega) (by omega)
  simp only [Int.toNat_ofNat] at h2 h3
  exact ⟨r, hr, ht, ⟨h0, h1⟩, h2, h3⟩

theorem regAlloc_greedy_witness :
    regAlloc_liveWith useDef 3 exampleLive exampleLoop = .ok exampleLiveWith ∧
    regAlloc_alloc useDef 32 3 exampleLive exampleLoop = .ok exampleAlloc ∧
    ∃ r, vecGet exampleAlloc ((2 : Nat) : Int) = .ok r ∧ r.tag = .REG_A ∧
      (0 ≤ r.regId ∧ r.regId < ((32 : Nat) : Int)) ∧
      (∀ j rj, exampleLiveWith.interferes ((2 : Nat) : Int) j = true → j < ((2 : Nat) : Int) →
        vecGet exampleAlloc j = .ok rj → rj.regId ≠ r.regId) ∧
      (∀ c : Int, 0 ≤ c → c < r.regId →
        ∃ j rj, exampleLiveWith.interferes ((2 : Nat) : Int) j = true ∧ j < ((2 : Nat) : Int) ∧
          vecGet exampleAlloc j = .ok rj ∧ rj.regId = c) :=
  ⟨rfl, rfl,
    regAlloc_greedy useDef 32 3 exampleLive exampleLoop exampleLiveWith exampleAlloc rfl rfl 2
      (by decide)⟩

theorem except_bind_error {ε α β : Type} {x : Except ε α} {f : α → Except ε β} {e : ε}
    (h : x = .error e) : (x >>= f) = .error e := by
  subst h; rfl

theorem regAlloc_loop_error (liveWith : LiveSets) (N numVars : Nat) (instrs : List Instr)
    (k : Nat) (e : Failure) (h : regAlloc_loop liveWith N numVars instrs k = .error e)
    (d : Nat) : regAlloc_loop liveWith N numVars instrs (k + d) = .error e := by
  induction d with
  | zero => exact h
  | succ d ih =>
    rw [← Nat.add_assoc, regAlloc_loop_succ]
    exact except_bind_error ih

/-- The allocation loop on variables that all interfere with each other: variable `i` gets
register `i`, as long as there are registers. -/
theorem regAlloc_loop_clique (ud : Instr → UseDef) (N numVars : Nat) (live : Liveness)
    (instrs : List Instr) (liveWith : LiveSets)
    (hl : regAlloc_liveWith ud numVars live instrs = .ok liveWith)
    (M : Nat) (hM : M ≤ numVars)
    (hcomplete : ∀ u v : Nat, u < M → v < M → u ≠ v →
      liveWith.interferes (u : Int) (v : Int) = true)
    (k : Nat) (hkM : k ≤ M) (hkN : k ≤ N) :
    ∃ alloc, regAlloc_loop liveWith N numVars instrs k = .ok alloc ∧
      ∀ i, i < k → ∃ r, alloc[i]? = some r ∧ r.tag = .REG_A ∧ r.regId = (i : Int) := by
  obtain ⟨_, _, hsz, _, _, hrange⟩ := regAlloc_liveWith_props ud numVars live instrs liveWith hl
  induction k with
  | zero =>
    exact ⟨regAlloc_init numVars, rfl, fun i hi => absurd hi (Nat.not_lt_zero i)⟩
  | succ k ih =>
    obtain ⟨alloc, hloop, hid⟩ := ih (by omega) (by omega)
    have hinv := regAlloc_loop_inv liveWith N numVars instrs k (by omega) alloc hloop
    have hstep : ∃ alloc', regAlloc_var liveWith N instrs alloc k = .ok alloc' := by
      rcases regAlloc_var_cases liveWith N numVars instrs alloc k (by omega) (by omega) hsz
          (fun j hj => (hrange _ _ hj).2) hinv with hok | ⟨hfull, _⟩
      · exact hok
      · exfalso
        obtain ⟨j, r, _, hjk, hr, hrk⟩ := hfull k (by omega)
        rw [vecGet_ok] at hr
        obtain ⟨r', hr', _, hrj⟩ := hid j.toNat (by omega)
        rw [hr.2] at hr'
        cases hr'
        omega
    obtain ⟨alloc', hstep⟩ := hstep
    obtain ⟨hinv', hag⟩ := regAlloc_var_ok liveWith N numVars instrs alloc alloc' k (by omega)
      hinv hstep
    refine ⟨alloc', ?_, ?_⟩
    · rw [regAlloc_loop_succ, hloop]
      exact hstep
    · intro i hi
      by_cases hik : i = k
      · have hki := hik.symm
        subst hki
        obtain ⟨r, hr, ht, h0, _, hfree, hleast⟩ := hinv'.2.2 k (by omega)
        refine ⟨r, hr, ht, ?_⟩
        -- the registers below `k` are held by the variables below `k`
        have hheld : ∀ j : Nat, j < k → ∃ rj, vecGet alloc' (j : Int) = .ok rj ∧
            rj.regId = (j : Int) := by
          intro j hj
          obtain ⟨rj, hrj, _, hid'⟩ := hid j hj
          refine ⟨rj, (vecGet_ok _ _ _).mpr ⟨by omega, ?_⟩, hid'⟩
          rw [Int.toNat_ofNat, hag j (by omega)]
          exact hrj
        by_contra hne
        rcases lt_or_gt_of_ne hne with hlt | hgt
        · obtain ⟨rj, hrj, hrj'⟩ := hheld r.regId.toNat (by omega)
          have hcast : ((r.regId.toNat : Nat) : Int) = r.regId := by omega
          rw [hcast] at hrj hrj'
          have hint := hcomplete k r.regId.toNat (by omega) (by omega) (by omega)
          rw [hcast] at hint
          exact hfree r.regId rj hint (by omega) hrj hrj'
        · obtain ⟨j, rj, _, hjk, hrj, hrjk⟩ := hleast (k : Int) (by omega) hgt
          rw [vecGet_ok] at hrj
          obtain ⟨rj', hrj', _, hid'⟩ := hid j.toNat (by omega)
          rw [hag j.toNat (by omega), hrj'] at hrj
          have : rj' = rj := by simpa using hrj.2
          subst this
          omega
      · obtain ⟨r, hr, hrest⟩ := hid i (by omega)
        exact ⟨r, by rw [hag i hik]; exact hr, hrest⟩

/-- With more mutually interfering variables than registers the allocation loop stops at
variable `N`, in the diagnostic. -/
theorem regAlloc_loop_full (ud : Instr → UseDef) (N numVars : Nat) (live : Liveness)
    (instrs : List Instr) (liveWith : LiveSets)
    (hl : regAlloc_liveWith ud numVars live instrs = .ok liveWith)
    (hN : 0 < N) (hlt : N < numVars)
    (hcomplete : ∀ u v : Nat, u < N + 1 → v < N + 1 → u ≠ v →
      liveWith.interferes (u : Int) (v : Int) = true) :
    regAlloc_loop liveWith N numVars instrs numVars = .error (regAlloc_failure instrs N) := by
  obtain ⟨_, _, hsz, _, _, hrange⟩ := regAlloc_liveWith_props ud numVars live instrs liveWith hl
  obtain ⟨alloc, hloop, hid⟩ := regAlloc_loop_clique ud N numVars live instrs liveWith hl
    (N + 1) (by omega) hcomplete N (by omega) (le_refl N)
  have hinv := regAlloc_loop_inv liveWith N numVars instrs N (by omega) alloc hloop
  have hstep : regAlloc_var liveWith N instrs alloc N = .error (regAlloc_failure instrs N) := by
    rcases regAlloc_var_cases liveWith N numVars instrs alloc N hlt hN hsz
        (fun j hj => (hrange _ _ hj).2) hinv with ⟨alloc', hok⟩ | ⟨_, herr⟩
    · exfalso
      obtain ⟨hinv', hag⟩ := regAlloc_var_ok liveWith N numVars instrs alloc alloc' N hlt
        hinv hok
      obtain ⟨r, hr, _, h0, h1, hfree, _⟩ := hinv'.2.2 N (by omega)
      obtain ⟨rj, hrj, _, hid'⟩ := hid r.regId.toNat (by omega)
      have hcast : ((r.regId.toNat : Nat) : Int) = r.regId := by omega
      have hint := hcomplete N r.regId.toNat (by omega) (by omega) (by omega)
      rw [hcast] at hint
      refine hfree r.regId rj hint (by omega) ((vecGet_ok _ _ _).mpr ⟨h0, ?_⟩) (by omega)
      rw [hag _ (by omega)]
      exact hrj
    · exact herr
  have hN1 : regAlloc_loop liveWith N numVars instrs (N + 1) =
      .error (regAlloc_failure instrs N) := by
    rw [regAlloc_loop_succ, hloop]
    exact hstep
  have := regAlloc_loop_error liveWith N numVars instrs (N + 1) _ hN1 (numVars - (N + 1))
  rw [show N + 1 + (numVars - (N + 1)) = numVars by omega] at this
  exact this

theorem LiveSets.insertAt_total (s : LiveSets) (i id : Int) (n : Nat) (hs : s.m_size = n)
    (hi : 0 ≤ i ∧ i < (n : Int)) : ∃ s', s.insertAt i id = .ok s' ∧ s'.m_size = n := by
  unfold LiveSets.insertAt
  rw [hs]
  simp only [hi, and_self, if_true]
  exact ⟨_, rfl, rfl⟩

theorem LiveSets.foldlM_total {α : Type} (f : LiveSets → α → Except Failure LiveSets)
    (P : α → Prop) (n : Nat)
    (hf : ∀ s x, P x → s.m_size = n → ∃ s', f s x = .ok s' ∧ s'.m_size = n)
    (l : List α) (hl : ∀ x ∈ l, P x) (s : LiveSets) (hs : s.m_size = n) :
    ∃ s', l.foldlM f s = .ok s' ∧ s'.m_size = n := by
  induction l generalizing s with
  | nil => exact ⟨s, rfl, hs⟩
  | cons a rest ih =>
    obtain ⟨s1, h1, m1⟩ := hf s a (hl a (List.mem_cons_self _ _)) hs
    obtain ⟨s2, h2, m2⟩ := ih (fun x hx => hl x (List.mem_cons_of_mem _ hx)) s1 m1
    refine ⟨s2, ?_, m2⟩
    rw [List.foldlM_cons, h1]
    exact h2

theorem LiveSets.init_instr_total (liveOut : LiveSet) (defs : List Int) (n : Nat)
    (hlo : idsBelow n liveOut.elems) (hdef : idsBelow n defs) (s : LiveSets)
    (hs : s.m_size = n) :
    ∃ s', LiveSets.init_instr liveOut defs s = .ok s' ∧ s'.m_size = n := by
  unfold LiveSets.init_instr
  refine LiveSets.foldlM_total _ (fun rx => 0 ≤ rx ∧ rx < (n : Int)) n ?_ _ hlo s hs
  intro t rx hrx ht
  unfold LiveSets.init_rx
  obtain ⟨t1, h1, m1⟩ := LiveSets.foldlM_total
    (fun s ry => if rx ≠ ry then s.insertAt rx ry else pure s) (fun _ => True) n (by
      intro t' ry _ ht'
      by_cases hne : rx ≠ ry
      · simp only [hne, ne_eq, not_false_eq_true, if_true]
        exact LiveSets.insertAt_total t' rx ry n ht' hrx
      · simp only [hne, if_false]
        exact ⟨t', rfl, ht'⟩) liveOut.elems (fun _ _ => trivial) t ht
  obtain ⟨t2, h2, m2⟩ := LiveSets.foldlM_total
    (fun s rd =>
      if rd ≠ rx then do
        let s ← s.insertAt rx rd
        s.insertAt rd rx
      else pure s) (fun rd => 0 ≤ rd ∧ rd < (n : Int)) n (by
      intro t' rd hrd ht'
      by_cases hne : rd ≠ rx
      · simp only [hne, ne_eq, not_false_eq_true, if_true]
        obtain ⟨a, ha, ma⟩ := LiveSets.insertAt_total t' rx rd n ht' hrx
        obtain ⟨b, hb, mb⟩ := LiveSets.insertAt_total a rd rx n ma hrd
        refine ⟨b, ?_, mb⟩
        rw [ha]
        exact hb
      · simp only [hne, if_false]
        exact ⟨t', rfl, ht'⟩) defs hdef t1 m1
  refine ⟨t2, ?_, m2⟩
  rw [h1]
  exact h2

theorem LiveSets.init_from_total (ud : Instr → UseDef) (live : Liveness) (n : Nat)
    (instrs : List Instr) (i0 : Nat)
    (hlo : ∀ i, i < instrs.length → idsBelow n (live.computeLiveOut (i0 + i)).elems)
    (hdef : ∀ instr ∈ instrs, idsBelow n (ud instr).def_) (s : LiveSets)
    (hs : s.m_size = n) :
    ∃ s', LiveSets.init_from ud live i0 instrs s = .ok s' := by
  induction instrs generalizing i0 s with
  | nil => exact ⟨s, rfl⟩
  | cons a rest ih =>
    obtain ⟨s1, h1, m1⟩ := LiveSets.init_instr_total (live.computeLiveOut i0) (ud a).def_ n
      (by simpa using hlo 0 (by simp)) (hdef a (List.mem_cons_self _ _)) s hs
    obtain ⟨s2, h2⟩ := ih (i0 + 1) (by
      intro i hi
      have := hlo (i + 1) (by simpa using hi)
      rw [show i0 + (i + 1) = i0 + 1 + i by omega] at this
      exact this) (fun x hx => hdef x (List.mem_cons_of_mem _ hx)) s1 m1
    refine ⟨s2, ?_⟩
    simp only [LiveSets.init_from, h1, bind, Except.bind]
    exact h2

/-- Steps 0 to 2 of `regAlloc` complete when the liveness has one entry per instruction, there
is a variable, and every id in a live-out or def set is below `numVars`. -/
theorem regAlloc_liveWith_total (ud : Instr → UseDef) (numVars : Nat) (live : Liveness)
    (instrs : List Instr) (hsize : instrs.length = live.size) (hvars : 0 < numVars)
    (hlo : ∀ i, i < instrs.length → idsBelow numVars (live.computeLiveOut i).elems)
    (hdef : ∀ instr ∈ instrs, idsBelow numVars (ud instr).def_) :
    ∃ liveWith, regAlloc_liveWith ud numVars live instrs = .ok liveWith := by
  obtain ⟨s, hs⟩ := LiveSets.init_from_total ud live numVars instrs 0
    (by simpa using hlo) hdef ⟨numVars, List.replicate numVars ⟨[]⟩⟩ rfl
  refine ⟨s, ?_⟩
  unfold regAlloc_liveWith LiveSets.create LiveSets.init
  simp only [hsize, ne_eq, not_true_eq_false, if_false, hvars, if_true, bind, Except.bind,
    pure, Except.pure]
  exact hs

theorem regAlloc_capacity (ud : Instr → UseDef) (N numVars : Nat) (live : Liveness)
    (instrs : List Instr) (liveWith : LiveSets)
    (hl : regAlloc_liveWith ud numVars live instrs = .ok liveWith)
    (hN : 0 < N) (hlt : N < numVars)
    (hcomplete : ∀ u v : Nat, u < N + 1 → v < N + 1 → u ≠ v →
      liveWith.interferes (u : Int) (v : Int) = true) :
    regAlloc ud N numVars live instrs = .error (regAlloc_failure instrs N) := by
  have h := regAlloc_loop_full ud N numVars live instrs liveWith hl hN hlt hcomplete
  unfold regAlloc regAlloc_alloc
  rw [hl]
  simp only [bind, Except.bind]
  rw [h]

/-- The sets `liveWith` of a list whose first instruction has all of `v0 .. v32` live-out and
whose instructions define no variable: the 33 variables interfere with each other. -/
theorem live33_liveWith (instrs : List Instr) (first : Instr) (rest : List Instr)
    (hinstrs : instrs = first :: rest)
    (hdef : ∀ instr ∈ instrs, (useDef instr).def_ = []) :
    ∃ liveWith, regAlloc_liveWith useDef 33 (live33 instrs.length) instrs = .ok liveWith ∧
      ∀ u v : Nat, u < 33 → v < 33 → u ≠ v →
        liveWith.interferes (u : Int) (v : Int) = true := by
  obtain ⟨liveWith, hl⟩ := regAlloc_liveWith_total useDef 33 (live33 instrs.length) instrs rfl
    (by decide) (by
      intro i _ x hx
      simp only [live33, List.mem_map, List.mem_range] at hx
      obtain ⟨k, hk, rfl⟩ := hx
      omega) (by
      intro instr hinstr x hx
      rw [hdef instr hinstr] at hx
      cases hx)
  refine ⟨liveWith, hl, ?_⟩
  intro u v hu hv hne
  obtain ⟨_, s0, h0, hi⟩ := regAlloc_liveWith_ok useDef 33 _ instrs liveWith hl
  rw [LiveSets.init_interferes useDef _ instrs 33 s0 liveWith h0 hi]
  refine ⟨0, first, by rw [hinstrs]; simp, by omega, Or.inl ⟨?_, ?_⟩⟩
  · simp only [live33, List.mem_map, List.mem_range]
    exact ⟨u, hu, rfl⟩
  · simp only [live33, List.mem_map, List.mem_range]
    exact ⟨v, hv, rfl⟩

theorem loop33_defs : ∀ instr ∈ loop33, (useDef instr).def_ = [] := by
  intro instr h
  simp only [loop33, List.mem_append, List.mem_map, List.mem_range, List.mem_cons,
    List.mem_singleton, List.not_mem_nil, or_false] at h
  rcases h with (rfl | ⟨k, _, rfl⟩) | (rfl | rfl) <;> rfl

theorem loop33_padded_defs : ∀ instr ∈ loop33_padded, (useDef instr).def_ = [] := by
  intro instr h
  simp only [loop33_padded, List.mem_append, List.mem_map, List.mem_range, List.mem_cons,
    List.mem_singleton, List.not_mem_nil, or_false, List.mem_replicate] at h
  rcases h with (((rfl | ⟨k, _, rfl⟩) | rfl) | ⟨_, rfl⟩) | rfl <;> rfl

/-- C7, evaluated on two lists with 33 mutually interfering variables and 32 registers.  On
`loop33_padded` the diagnostic for variable 32 names instruction 32, a no-op that neither
defines nor uses a variable (variable 32 is read by instruction 17); on `loop33`, which has 19
instructions, forming the diagnostic reads `(*instrs)[32]`, outside the list. -/
theorem regAlloc_diagnostic_instruction :
    (regAlloc useDef 32 33 (live33 34) loop33_padded = .error (.regalloc_failed 32 .NO_OP) ∧
      loop33_padded[32]? = some .NO_OP ∧ useDef .NO_OP = ⟨[], []⟩ ∧
      (∃ instr, loop33_padded[17]? = some instr ∧ (32 : Int) ∈ (useDef instr).use)) ∧
    (regAlloc useDef 32 33 (live33 19) loop33 = .error .out_of_range ∧
      loop33.length = 19) := by
  obtain ⟨liveWith, hl, hc⟩ := live33_liveWith loop33 _ _ rfl loop33_defs
  obtain ⟨liveWith', hl', hc'⟩ := live33_liveWith loop33_padded _ _ rfl loop33_padded_defs
  have hlen : loop33.length = 19 := rfl
  have hlen' : loop33_padded.length = 34 := rfl
  rw [hlen] at hl
  rw [hlen'] at hl'
  refine ⟨⟨?_, rfl, rfl, ⟨_, rfl, by decide⟩⟩, ?_, hlen⟩
  · rw [regAlloc_capacity useDef 32 33 (live33 34) loop33_padded liveWith' hl' (by omega)
      (by omega) hc']
    rfl
  · rw [regAlloc_capacity useDef 32 33 (live33 19) loop33 liveWith hl (by omega) (by omega) hc]
    rfl

theorem renameDest_eq (instr : Instr) (vt : RegTag) (v : Int) (wt : RegTag) (w : Int) :
    renameDest instr vt v wt w = mapDest (renameReg vt v wt w) instr := by
  cases instr <;> rfl

theorem renameUses_eq (instr : Instr) (vt : RegTag) (v : Int) (wt : RegTag) (w : Int) :
    renameUses instr vt v wt w = mapUses (renameReg vt v wt w) instr := by
  cases instr with
  | ALU sc c dest a op b => cases a <;> cases b <;> rfl
  | _ => rfl

theorem tmpReg_step (alloc : List Reg) (r : Int) (a : Reg) (l : List Int)
    (ha : vecGet alloc r = .ok a) (d : Reg) :
    tmpReg alloc l (renameReg .REG_A r .TMP_A a.regId d) = tmpReg alloc (r :: l) d := by
  unfold renameReg
  by_cases h : d.tag = .REG_A ∧ d.regId = r
  · obtain ⟨h1, h2⟩ := h
    simp only [h1, h2, and_self, if_true]
    simp [tmpReg, h1, h2, ha]
  · simp only [h, if_false]
    unfold tmpReg
    by_cases ht : d.tag = .REG_A
    · have hne : d.regId ≠ r := fun e => h ⟨ht, e⟩
      simp [ht, hne]
    · simp [ht]

theorem mapDest_comp (f g : Reg → Reg) (instr : Instr) :
    mapDest f (mapDest g instr) = mapDest (fun d => f (g d)) instr := by
  cases instr <;> rfl

theorem mapUses_comp (f g : Reg → Reg) (instr : Instr) :
    mapUses f (mapUses g instr) = mapUses (fun d => f (g d)) instr := by
  cases instr with
  | ALU sc c dest a op b => cases a <;> cases b <;> rfl
  | _ => rfl

theorem tmpReg_nil (alloc : List Reg) : tmpReg alloc [] = fun d => d := by
  funext d
  simp [tmpReg]

theorem mapDest_id (instr : Instr) : mapDest (fun d => d) instr = instr := by
  cases instr <;> rfl

theorem mapUses_id (instr : Instr) : mapUses (fun d => d) instr = instr := by
  cases instr with
  | ALU sc c dest a op b => cases a <;> cases b <;> rfl
  | _ => rfl

/-- The loop over the def set in step 4 of `regAlloc`. -/
theorem renameDest_fold (alloc : List Reg) (l : List Int) (instr instr' : Instr)
    (h : l.foldlM (fun instr r => do
        let a ← vecGet alloc r
        pure (renameDest instr .REG_A r .TMP_A a.regId)) instr = .ok instr') :
    (∀ r ∈ l, ∃ a, vecGet alloc r = .ok a) ∧ instr' = mapDest (tmpReg alloc l) instr := by
  induction l generalizing instr with
  | nil =>
    simp only [List.foldlM_nil, pure, Except.pure, Except.ok.injEq] at h
    subst h
    rw [tmpReg_nil, mapDest_id]
    exact ⟨fun r hr => absurd hr (List.not_mem_nil r), rfl⟩
  | cons r rest ih =>
    rw [List.foldlM_cons, except_bind_ok] at h
    obtain ⟨instr1, h1, h2⟩ := h
    rw [except_bind_ok] at h1
    obtain ⟨a, ha, h1⟩ := h1
    simp only [pure, Except.pure, Except.ok.injEq] at h1
    obtain ⟨hall, hres⟩ := ih instr1 h2
    refine ⟨?_, ?_⟩
    · intro r' hr'
      rcases List.mem_cons.mp hr' with rfl | hr'
      · exact ⟨a, ha⟩
      · exact hall r' hr'
    · rw [hres, ← h1, renameDest_eq, mapDest_comp]
      congr 1
      funext d
      exact tmpReg_step alloc r a rest ha d

/-- The loop over the use set in step 4 of `regAlloc`. -/
theorem renameUses_fold (alloc : List Reg) (l : List Int) (instr instr' : Instr)
    (h : l.foldlM (fun instr r => do
        let a ← vecGet alloc r
        pure (renameUses instr .REG_A r .TMP_A a.regId)) instr = .ok instr') :
    (∀ r ∈ l, ∃ a, vecGet alloc r = .ok a) ∧ instr' = mapUses (tmpReg alloc l) instr := by
  induction l generalizing instr with
  | nil =>
    simp only [List.foldlM_nil, pure, Except.pure, Except.ok.injEq] at h
    subst h
    rw [tmpReg_nil, mapUses_id]
    exact ⟨fun r hr => absurd hr (List.not_mem_nil r), rfl⟩
  | cons r rest ih =>
    rw [List.foldlM_cons, except_bind_ok] at h
    obtain ⟨instr1, h1, h2⟩ := h
    rw [except_bind_ok] at h1
    obtain ⟨a, ha, h1⟩ := h1
    simp only [pure, Except.pure, Except.ok.injEq] at h1
    obtain ⟨hall, hres⟩ := ih instr1 h2
    refine ⟨?_, ?_⟩
    · intro r' hr'
      rcases List.mem_cons.mp hr' with rfl | hr'
      · exact ⟨a, ha⟩
      · exact hall r' hr'
    · rw [hres, ← h1, renameUses_eq, mapUses_comp]
      congr 1
      funext d
      exact tmpReg_step alloc r a rest ha d

/-- A slot after renaming and retagging is the allocated register of the slot. -/
theorem substTag_tmpReg (alloc : List Reg) (l : List Int) (d : Reg)
    (hcover : d.tag = .REG_A → d.regId ∈ l)
    (hall : ∀ r ∈ l, ∃ a, vecGet alloc r = .ok a) (hd : d.tag ≠ .TMP_A) :
    substTag .TMP_A .REG_A (tmpReg alloc l d) = allocReg alloc d := by
  unfold tmpReg allocReg substTag
  by_cases ht : d.tag = .REG_A
  · obtain ⟨a, ha⟩ := hall d.regId (hcover ht)
    simp only [ht, hcover ht, and_self, if_true, ha]
  · simp [ht, hd]

theorem mapM_ok_map {α β : Type} (f : α → Except Failure β) (g : α → β) (l : List α)
    (l' : List β) (hfg : ∀ x ∈ l, ∀ y, f x = .ok y → y = g x) (h : l.mapM f = .ok l') :
    l' = l.map g := by
  induction l generalizing l' with
  | nil =>
    rw [List.mapM_nil] at h
    cases h
    rfl
  | cons a rest ih =>
    rw [List.mapM_cons, except_bind_ok] at h
    obtain ⟨b, hb, h⟩ := h
    rw [except_bind_ok] at h
    obtain ⟨bs, hbs, h⟩ := h
    cases h
    rw [List.map_cons, hfg a (List.mem_cons_self _ _) b hb,
      ih bs (fun x hx => hfg x (List.mem_cons_of_mem _ hx)) hbs]

theorem mapM_ok_each {α β : Type} (f : α → Except Failure β) (l : List α) (l' : List β)
    (h : l.mapM f = .ok l') : ∀ x ∈ l, ∃ y, f x = .ok y := by
  induction l generalizing l' with
  | nil => intro x hx; cases hx
  | cons a rest ih =>
    rw [List.mapM_cons, except_bind_ok] at h
    obtain ⟨b, hb, h⟩ := h
    rw [except_bind_ok] at h
    obtain ⟨bs, hbs, _⟩ := h
    intro x hx
    rcases List.mem_cons.mp hx with rfl | hx
    · exact ⟨b, hb⟩
    · exact ih bs hbs x hx

theorem operandVar_cover (a : RegOrImm) (r : Reg) (hr : r ∈ operandRegs a)
    (ht : r.tag = .REG_A) : r.regId ∈ operandVar a := by
  cases a with
  | REG x =>
    simp only [operandRegs, List.mem_singleton] at hr
    subst hr
    simp [operandVar, regVar, ht]
  | IMM _ => cases hr

/-- Step 4 of `regAlloc` on one instruction without registers tagged `TMP_A`: the result is
the simultaneous substitution, and every variable of the instruction has an entry in `alloc`. -/
theorem regAlloc_apply_ok (alloc : List Reg) (instr instr' : Instr)
    (h : regAlloc_apply useDef alloc instr = .ok instr')
    (hno : ∀ r ∈ regSlots instr, r.tag ≠ .TMP_A) :
    instr' = substituteRegs (allocReg alloc) instr ∧
    ∀ r ∈ regSlots instr, r.tag = .REG_A → ∃ a, vecGet alloc r.regId = .ok a := by
  unfold regAlloc_apply at h
  rw [except_bind_ok] at h
  obtain ⟨i1, h1, h⟩ := h
  rw [except_bind_ok] at h
  obtain ⟨i2, h2, h⟩ := h
  simp only [pure, Except.pure, Except.ok.injEq] at h
  obtain ⟨hd, e1⟩ := renameDest_fold alloc _ _ _ h1
  obtain ⟨hu, e2⟩ := renameUses_fold alloc _ _ _ h2
  subst e1 e2 h
  have hdest : ∀ d : Reg, d.tag ≠ .TMP_A → (∀ r ∈ regVar d, ∃ a, vecGet alloc r = .ok a) →
      substTag .TMP_A .REG_A (tmpReg alloc (regVar d) d) = allocReg alloc d ∧
      (d.tag = .REG_A → ∃ a, vecGet alloc d.regId = .ok a) := by
    intro d hdt hall
    have hc : d.tag = .REG_A → d.regId ∈ regVar d := by
      intro ht; simp [regVar, ht]
    exact ⟨substTag_tmpReg alloc _ d hc hall hdt, fun ht => hall _ (hc ht)⟩
  cases instr with
  | LI sc c dest imm =>
    obtain ⟨e, hent⟩ := hdest dest (hno dest (by simp [regSlots])) hd
    refine ⟨?_, ?_⟩
    · simp only [useDef, mapDest, mapUses, substRegTag, substituteRegs, e]
    · intro r hr ht
      simp only [regSlots, List.mem_singleton] at hr
      subst hr
      exact hent ht
  | RECV dest =>
    obtain ⟨e, hent⟩ := hdest dest (hno dest (by simp [regSlots])) hd
    refine ⟨?_, ?_⟩
    · simp only [useDef, mapDest, mapUses, substRegTag, substituteRegs, e]
    · intro r hr ht
      simp only [regSlots, List.mem_singleton] at hr
      subst hr
      exact hent ht
  | PRI reg =>
    obtain ⟨e, hent⟩ := hdest reg (hno reg (by simp [regSlots])) hu
    refine ⟨?_, ?_⟩
    · simp only [useDef, mapDest, mapUses, substRegTag, substituteRegs, e]
    · intro r hr ht
      simp only [regSlots, List.mem_singleton] at hr
      subst hr
      exact hent ht
  | PRF reg =>
    obtain ⟨e, hent⟩ := hdest reg (hno reg (by simp [regSlots])) hu
    refine ⟨?_, ?_⟩
    · simp only [useDef, mapDest, mapUses, substRegTag, substituteRegs, e]
    · intro r hr ht
      simp only [regSlots, List.mem_singleton] at hr
      subst hr
      exact hent ht
  | ALU sc c dest a op b =>
    obtain ⟨e, hent⟩ := hdest dest (hno dest (by simp [regSlots])) hd
    have hcov : ∀ x : RegOrImm, (x = a ∨ x = b) → ∀ r ∈ operandRegs x, r.tag = .REG_A →
        r.regId ∈ (useDef (.ALU sc c dest a op b)).use := by
      intro x hx r hr ht
      simp only [useDef, List.mem_append, List.mem_filter, decide_eq_true_eq]
      rcases hx with rfl | rfl
      · exact Or.inl (operandVar_cover _ r hr ht)
      · by_cases hin : r.regId ∈ operandVar a
        · exact Or.inl hin
        · exact Or.inr ⟨operandVar_cover _ r hr ht, hin⟩
    have hop : ∀ x : RegOrImm, (x = a ∨ x = b) →
        substTagOperand .TMP_A .REG_A
          (mapOperand (tmpReg alloc (useDef (.ALU sc c dest a op b)).use) x) =
          mapOperand (allocReg alloc) x := by
      intro x hx
      cases hxx : x with
      | IMM i => rfl
      | REG r =>
        have hr : r ∈ operandRegs x := by rw [hxx]; simp [operandRegs]
        have hslot : r ∈ regSlots (.ALU sc c dest a op b) := by
          simp only [regSlots, List.mem_cons, List.mem_append]
          rcases hx with rfl | rfl
          · exact Or.inr (Or.inl hr)
          · exact Or.inr (Or.inr hr)
        simp only [mapOperand, substTagOperand]
        rw [substTag_tmpReg alloc _ r (hcov x hx r hr) hu (hno r hslot)]
    refine ⟨?_, ?_⟩
    · simp only [mapDest, mapUses, substRegTag, substituteRegs]
      rw [hop a (Or.inl rfl), hop b (Or.inr rfl)]
      have e' : substTag .TMP_A .REG_A (tmpReg alloc (useDef (.ALU sc c dest a op b)).def_ dest) =
          allocReg alloc dest := e
      rw [e']
    · intro r hr ht
      simp only [regSlots, List.mem_cons, List.mem_append] at hr
      rcases hr with rfl | hr | hr
      · exact hent ht
      · exact hu _ (hcov a (Or.inl rfl) r hr ht)
      · exact hu _ (hcov b (Or.inr rfl) r hr ht)
  | _ => exact ⟨rfl, fun r hr => by cases hr⟩

theorem allocReg_tag (alloc : List Reg) (r : Reg) : (allocReg alloc r).tag = r.tag := by
  unfold allocReg
  split
  · split <;> rfl
  · rfl

theorem regSlots_substituteRegs (f : Reg → Reg) (instr : Instr) :
    regSlots (substituteRegs f instr) = (regSlots instr).map f := by
  cases instr with
  | ALU sc c dest a op b => cases a <;> cases b <;> rfl
  | _ => rfl

theorem regAlloc_alloc_parts (ud : Instr → UseDef) (N numVars : Nat) (live : Liveness)
    (instrs : List Instr) (alloc : List Reg)
    (ha : regAlloc_alloc ud N numVars live instrs = .ok alloc) :
    ∃ liveWith, regAlloc_liveWith ud numVars live instrs = .ok liveWith ∧
      regAlloc_loop liveWith N numVars instrs numVars = .ok alloc := by
  unfold regAlloc_alloc at ha
  rw [except_bind_ok] at ha
  exact ha

/-- C8: the rewrite step of v3d `regAlloc`.  After a successful run on a list that holds no
register with the temporary tag `TMP_A`, the list left in `*instrs` is the old one with one
simultaneous substitution applied to every destination and operand slot: a slot that held the
file-A variable `r` holds register `(REG_A, alloc[r].regId)`, a slot with any other tag is
unchanged, and no slot carries `TMP_A`. -/
theorem regAlloc_rewrite (N numVars : Nat) (live : Liveness) (instrs instrs' : List Instr)
    (alloc : List Reg)
    (ha : regAlloc_alloc useDef N numVars live instrs = .ok alloc)
    (hr : regAlloc useDef N numVars live instrs = .ok instrs')
    (hno : ∀ instr ∈ instrs, ∀ r ∈ regSlots instr, r.tag ≠ .TMP_A) :
    instrs' = instrs.map (substituteRegs (allocReg alloc)) ∧
    (∀ instr ∈ instrs, ∀ r ∈ regSlots instr, r.tag = .REG_A →
      ∃ a, vecGet alloc r.regId = .ok a ∧ a.tag = .REG_A ∧
        allocReg alloc r = ⟨.REG_A, a.regId, r.isUniformPtr⟩) ∧
    (∀ instr ∈ instrs, ∀ r ∈ regSlots instr, r.tag ≠ .REG_A → allocReg alloc r = r) ∧
    (∀ instr' ∈ instrs', ∀ r ∈ regSlots instr', r.tag ≠ .TMP_A) := by
  obtain ⟨liveWith, hl, hloop⟩ := regAlloc_alloc_parts useDef N numVars live instrs alloc ha
  have hinv := regAlloc_loop_inv liveWith N numVars instrs numVars (le_refl _) alloc hloop
  unfold regAlloc at hr
  rw [ha] at hr
  have hmap : instrs.mapM (regAlloc_apply useDef alloc) = .ok instrs' := hr
  have heq : instrs' = instrs.map (substituteRegs (allocReg alloc)) :=
    mapM_ok_map _ _ instrs instrs'
      (fun x hx y hy => (regAlloc_apply_ok alloc x y hy (hno x hx)).1) hmap
  refine ⟨heq, ?_, ?_, ?_⟩
  · intro instr hin r hr' ht
    obtain ⟨y, hy⟩ := mapM_ok_each _ instrs instrs' hmap instr hin
    obtain ⟨a, hget⟩ := (regAlloc_apply_ok alloc instr y hy (hno instr hin)).2 r hr' ht
    have hget' := (vecGet_ok _ _ _).mp hget
    have hlt : r.regId.toNat < numVars := by
      rw [← hinv.1]
      by_contra hn
      rw [List.getElem?_eq_none (by omega)] at hget'
      cases hget'.2
    obtain ⟨a', ha', hta, _⟩ := hinv.2.2 r.regId.toNat hlt
    rw [hget'.2] at ha'
    cases ha'
    refine ⟨a, hget, hta, ?_⟩
    unfold allocReg
    simp only [ht, if_true, hget]
  · intro instr _ r _ ht
    simp [allocReg, ht]
  · intro instr' hin' r hr'
    rw [heq, List.mem_map] at hin'
    obtain ⟨instr, hin, rfl⟩ := hin'
    rw [regSlots_substituteRegs, List.mem_map] at hr'
    obtain ⟨r0, hr0, rfl⟩ := hr'
    rw [allocReg_tag]
    exact hno instr hin r0 hr0

theorem regAlloc_rewrite_witness :
    (regAlloc_alloc useDef 32 3 exampleChainLive exampleChain = .ok exampleChainAlloc ∧
      regAlloc useDef 32 3 exampleChainLive exampleChain = .ok exampleChainOut ∧
      ∀ instr ∈ exampleChain, ∀ r ∈ regSlots instr, r.tag ≠ .TMP_A) ∧
    exampleChainOut = exampleChain.map (substituteRegs (allocReg exampleChainAlloc)) ∧
    (∀ instr' ∈ exampleChainOut, ∀ r ∈ regSlots instr', r.tag ≠ .TMP_A) :=
  ⟨⟨rfl, rfl, by decide⟩,
    (regAlloc_rewrite 32 3 exampleChainLive exampleChain exampleChainOut exampleChainAlloc
      rfl rfl (by decide)).1,
    (regAlloc_rewrite 32 3 exampleChainLive exampleChain exampleChainOut exampleChainAlloc
      rfl rfl (by decide)).2.2.2⟩

theorem run_done (env : Env) (code : List Instr) (fuel : Nat) (s : QPU)
    (h : code.length ≤ s.pc) : run env code fuel s = some s := by
  cases fuel <;> simp [run, h]

theorem run_step (env : Env) (code : List Instr) (fuel : Nat) (s s1 : QPU)
    (hlt : s.pc < code.length) (h : step env code s = some s1) :
    run env code (fuel + 1) s = run env code fuel s1 := by
  have : ¬ code.length ≤ s.pc := by omega
  simp [run, this, h]

/-- An unconditional ALU instruction writing a register of file A or an accumulator. -/
theorem step_alu (env : Env) (code : List Instr) (s : QPU) (sc : SetCond) (dest : Reg)
    (a b : RegOrImm) (op : ALUOp) (f : Nat → Nat → Nat) (va vb : Vec)
    (hc : code[s.pc]? = some (.ALU sc .ALWAYS dest a op b))
    (hf : aluFun op = some f) (ha : readOperand env s a = some va)
    (hb : readOperand env s b = some vb) (hsc : sc = .NO_COND ∨ sc = .Z)
    (hd : dest.tag = .REG_A ∨ dest.tag = .ACC) :
    ∃ s', step env code s = some s' ∧ s'.pc = s.pc + 1 ∧
      (∀ i, s'.rfA i = if dest.tag = .REG_A ∧ i = dest.regId then
        (fun l => f (va l) (vb l)) else s.rfA i) ∧
      (∀ i, s'.acc i = if dest.tag = .ACC ∧ i = dest.regId then
        (fun l => f (va l) (vb l)) else s.acc i) ∧
      (∀ l, s'.zflag l = if sc = .Z then decide (f (va l) (vb l) = 0) else s.zflag l) := by
  unfold step
  rw [hc]
  simp only [hf, ha, hb, Option.bind_eq_bind, Option.some_bind]
  rcases hd with hd | hd <;> rcases hsc with rfl | rfl <;>
    simp [writeReg, hd]

theorem step_brl (env : Env) (code : List Instr) (s : QPU) (cond : BranchCond) (l : Label)
    (taken : Bool) (target : Nat)
    (hc : code[s.pc]? = some (.BRL cond l))
    (ht : branchTaken cond s.zflag = some taken)
    (hl : labelIndex code l = some target) :
    step env code s = some { s with pc := if taken then target else s.pc + 1 } := by
  unfold step
  rw [hc]
  cases taken <;> simp [ht, hl]

theorem step_lab (env : Env) (code : List Instr) (s : QPU) (l : Label)
    (hc : code[s.pc]? = some (.LAB l)) :
    step env code s = some { s with pc := s.pc + 1 } := by
  unfold step
  rw [hc]

theorem add_init_head_eq (q k : Nat) (endifLabel : Label) :
    add_init_head q k endifLabel = .ok (add_init_list q k endifLabel) := rfl

/-- The second half of the init block, from the label on: the offset ends in `ACC0`. -/
theorem add_init_tail (q k : Nat) (endifLabel : Label) (env : Env) (s : QPU) (fuel : Nat)
    (hpc : s.pc = 6) :
    ∃ s', run env (add_init_list q k endifLabel) (fuel + 5) s = some s' ∧
      s'.rfA q = s.rfA q ∧
      ∀ l, s'.acc 0 l =
        ((((s.rfA q l <<< (4 % 32)) % 2 ^ 32 + (env.eidx l ||| env.eidx l)) % 2 ^ 32)
          <<< (2 % 32)) % 2 ^ 32 := by
  have hlen : (add_init_list q k endifLabel).length = 11 := rfl
  -- label
  have h6 := step_lab env (add_init_list q k endifLabel) s endifLabel (by rw [hpc]; rfl)
  have e6 := run_step env _ (fuel + 4) s _ (by rw [hlen, hpc]; omega) h6
  -- shl ACC1, rf(q), 4
  obtain ⟨s7, h7, p7, r7, a7, _⟩ := step_alu env (add_init_list q k endifLabel)
    { s with pc := s.pc + 1 } .NO_COND ACC1 (.REG (rf q)) (smallImm 4) .A_SHL _
    (s.rfA q) (broadcast 4) (by simp only [hpc]; rfl) rfl rfl rfl (Or.inl rfl) (Or.inr rfl)
  have e7 := run_step env _ (fuel + 3) _ _ (by simp only [hlen, hpc]; omega) h7
  simp only [hpc] at p7
  -- mov ACC0, ELEM_ID
  obtain ⟨s8, h8, p8, r8, a8, _⟩ := step_alu env (add_init_list q k endifLabel)
    s7 .NO_COND ACC0 (.REG ELEM_ID) (.REG ELEM_ID) .A_BOR _
    env.eidx env.eidx (by rw [p7]; rfl) rfl rfl rfl (Or.inl rfl) (Or.inr rfl)
  have e8 := run_step env _ (fuel + 2) _ _ (by rw [hlen, p7]; omega) h8
  rw [p7] at p8
  -- add ACC1, ACC1, ACC0
  obtain ⟨s9, h9, p9, r9, a9, _⟩ := step_alu env (add_init_list q k endifLabel)
    s8 .NO_COND ACC1 (.REG ACC1) (.REG ACC0) .A_ADD _
    (s8.acc 1) (s8.acc 0) (by rw [p8]; rfl) rfl rfl rfl (Or.inl rfl) (Or.inr rfl)
  have e9 := run_step env _ (fuel + 1) _ _ (by rw [hlen, p8]; omega) h9
  rw [p8] at p9
  -- shl ACC0, ACC1, 2
  obtain ⟨s10, h10, p10, r10, a10, _⟩ := step_alu env (add_init_list q k endifLabel)
    s9 .NO_COND ACC0 (.REG ACC1) (smallImm 2) .A_SHL _
    (s9.acc 1) (broadcast 2) (by rw [p9]; rfl) rfl rfl rfl (Or.inl rfl) (Or.inr rfl)
  have e10 := run_step env _ fuel _ _ (by rw [hlen, p9]; omega) h10
  rw [p9] at p10
  refine ⟨s10, ?_, ?_, ?_⟩
  · rw [e6, e7, e8, e9, e10]
    exact run_done env _ fuel s10 (by rw [hlen, p10])
  · rw [r10, r9, r8, r7]
    simp [ACC0, ACC1]
  · intro l
    rw [a10, a9, a8, a7, a8, a7]
    simp [ACC0, ACC1, broadcast, rf]

theorem sub8_zero (n : Nat) (hn : n < 2 ^ 32) :
    ((n + (2 ^ 32 - 8 % 2 ^ 32)) % 2 ^ 32 = 0) ↔ n = 8 := by
  norm_num at hn ⊢
  omega

theorem add_init_labelIndex (q k : Nat) (endifLabel : Label) :
    labelIndex (add_init_list q k endifLabel) endifLabel = some 6 := by
  simp [labelIndex, add_init_list, List.indexOf_cons, mov_imm, sub, mov, shr, band, label,
    genInstr, Instr.pushz]

/-- The first half of the init block, up to the label: the QPU id ends in `rf(RSV_QPU_ID)`. -/
theorem add_init_qpu_id (q k : Nat) (hne : q ≠ k) (endifLabel : Label) (env : Env) (s : QPU)
    (n : Nat) (fuel : Nat) (hpc : s.pc = 0) (hn : s.rfA k = broadcast n) (hn32 : n < 2 ^ 32) :
    ∃ s', run env (add_init_list q k endifLabel) (fuel + 6) s =
        run env (add_init_list q k endifLabel) (fuel + (if n = 8 then 0 else 3)) s' ∧
      s'.pc = 6 ∧
      ∀ l, s'.rfA q l = if n = 8 then ((env.tidx ||| env.tidx) % 2 ^ 32) >>> (2 % 32) &&& 15
        else 0 := by
  have hlen : (add_init_list q k endifLabel).length = 11 := rfl
  have hqk : (q : Int) ≠ (k : Int) := by omega
  have hkq : (k : Int) ≠ (q : Int) := by omega
  -- mov rf(q), 0
  obtain ⟨s1, h1, p1, r1, a1, z1⟩ := step_alu env (add_init_list q k endifLabel)
    s .NO_COND (rf q) (smallImm 0) (smallImm 0) .A_BOR _
    (broadcast 0) (broadcast 0) (by rw [hpc]; rfl) rfl rfl rfl (Or.inl rfl) (Or.inl rfl)
  have e1 := run_step env _ (fuel + 5) _ _ (by rw [hlen, hpc]; omega) h1
  rw [hpc] at p1
  have r1q : ∀ l, s1.rfA q l = 0 := by
    intro l; rw [r1]; simp [rf, broadcast]
  have r1k : s1.rfA k = broadcast n := by
    rw [r1]; simp [rf, hkq, hn]
  -- sub ACC0, rf(k), 8 ; pushz
  obtain ⟨s2, h2, p2, r2, a2, z2⟩ := step_alu env (add_init_list q k endifLabel)
    s1 .Z ACC0 (.REG (rf k)) (smallImm 8) .A_SUB _
    (s1.rfA k) (broadcast 8) (by rw [p1]; rfl) rfl rfl rfl (Or.inr rfl) (Or.inr rfl)
  have e2 := run_step env _ (fuel + 4) _ _ (by rw [hlen, p1]; omega) h2
  rw [p1] at p2
  have z2' : ∀ l, s2.zflag l = decide (n = 8) := by
    intro l
    rw [z2, r1k]
    simp only [if_true, broadcast]
    exact decide_eq_decide.mpr (sub8_zero n hn32)
  have r2q : ∀ l, s2.rfA q l = 0 := by
    intro l; rw [r2]; simp [ACC0, r1q]
  -- branch
  have hbr : branchTaken ⟨.COND_ALL, .ZC⟩ s2.zflag = some (decide (n ≠ 8)) := by
    simp only [branchTaken, z2']
    by_cases h8 : n = 8 <;> simp [h8]
  have h3 := step_brl env (add_init_list q k endifLabel) s2 ⟨.COND_ALL, .ZC⟩ endifLabel _ 6
    (by rw [p2]; rfl) hbr (add_init_labelIndex q k endifLabel)
  have e3 := run_step env _ (fuel + 3) _ _ (by rw [hlen, p2]; omega) h3
  by_cases h8 : n = 8
  · simp only [h8, ne_eq, not_true_eq_false, decide_False, Bool.false_eq_true, if_false,
      if_true, Nat.add_zero] at e3 ⊢
    -- mov ACC0, QPU_ID
    obtain ⟨s4, h4, p4, r4, a4, _⟩ := step_alu env (add_init_list q k endifLabel)
      { s2 with pc := s2.pc + 1 } .NO_COND ACC0 (.REG QPU_ID) (.REG QPU_ID) .A_BOR _
      (broadcast env.tidx) (broadcast env.tidx) (by simp only [p2]; rfl) rfl rfl rfl
      (Or.inl rfl) (Or.inr rfl)
    have e4 := run_step env _ (fuel + 2) _ _ (by simp only [hlen, p2]; omega) h4
    simp only [p2] at p4
    -- shr ACC0, ACC0, 2
    obtain ⟨s5, h5, p5, r5, a5, _⟩ := step_alu env (add_init_list q k endifLabel)
      s4 .NO_COND ACC0 (.REG ACC0) (smallImm 2) .A_SHR _
      (s4.acc 0) (broadcast 2) (by rw [p4]; rfl) rfl rfl rfl (Or.inl rfl) (Or.inr rfl)
    have e5 := run_step env _ (fuel + 1) _ _ (by rw [hlen, p4]; omega) h5
    rw [p4] at p5
    -- band rf(q), ACC0, 15
    obtain ⟨s6, h6, p6, r6, a6, _⟩ := step_alu env (add_init_list q k endifLabel)
      s5 .NO_COND (rf q) (.REG ACC0) (smallImm 15) .A_BAND _
      (s5.acc 0) (broadcast 15) (by rw [p5]; rfl) rfl rfl rfl (Or.inl rfl) (Or.inl rfl)
    have e6 := run_step env _ fuel _ _ (by rw [hlen, p5]; omega) h6
    rw [p5] at p6
    refine ⟨s6, ?_, p6, ?_⟩
    · rw [e1, e2, e3, e4, e5, e6]
    · intro l
      rw [r6, a5, a4]
      simp [rf, ACC0, broadcast]
  · simp only [h8, ne_eq, not_false_eq_true, decide_True, if_true, if_false] at e3 ⊢
    refine ⟨{ s2 with pc := 6 }, ?_, rfl, ?_⟩
    · rw [e1, e2, e3]
    · intro l
      exact r2q l

theorem offset_arith (e q : Nat) :
    ((((q <<< (4 % 32)) % 2 ^ 32 + (e ||| e)) % 2 ^ 32) <<< (2 % 32)) % 2 ^ 32 =
      (4 * (e + 16 * q)) % 2 ^ 32 := by
  simp only [Nat.or_self, Nat.shiftLeft_eq]
  norm_num
  omega

/-- C10: executing the instructions `add_init` emits before the uniform-pointer adds, with the
32-bit value `n` in `rf(RSV_NUM_QPUS)`, thread index `t` read from `QPU_ID` and element index
`e` read from `ELEM_ID`, ends (with fuel for its 11 instructions) with
`rf(RSV_QPU_ID) = (t >> 2) & 0xF` if `n = 8` and `0` otherwise, and with
`ACC0 = 4 * (e + 16 * rf(RSV_QPU_ID))` in 32-bit arithmetic, in every lane. -/
theorem add_init_offset (RSV_QPU_ID RSV_NUM_QPUS : Nat) (hne : RSV_QPU_ID ≠ RSV_NUM_QPUS)
    (endifLabel : Label) (env : Env) (s : QPU) (n fuel : Nat) (hpc : s.pc = 0)
    (hn : s.rfA RSV_NUM_QPUS = broadcast n) (hn32 : n < 2 ^ 32) (ht : env.tidx < 2 ^ 32)
    (hfuel : 11 ≤ fuel) :
    ∃ code, add_init_head RSV_QPU_ID RSV_NUM_QPUS endifLabel = .ok code ∧
      ∃ s', run env code fuel s = some s' ∧
        (∀ l, s'.rfA RSV_QPU_ID l = if n = 8 then (env.tidx >>> 2) &&& 15 else 0) ∧
        (∀ l, s'.acc ACC0.regId l =
          (4 * (env.eidx l + 16 * s'.rfA RSV_QPU_ID l)) % 2 ^ 32) := by
  refine ⟨_, add_init_head_eq RSV_QPU_ID RSV_NUM_QPUS endifLabel, ?_⟩
  obtain ⟨f, rfl⟩ : ∃ f, fuel = f + 11 := ⟨fuel - 11, by omega⟩
  obtain ⟨s6, e6, p6, r6⟩ := add_init_qpu_id RSV_QPU_ID RSV_NUM_QPUS hne endifLabel env s n
    (f + 5) hpc hn hn32
  have htail : ∃ s', run env (add_init_list RSV_QPU_ID RSV_NUM_QPUS endifLabel) (f + 11) s =
      some s' ∧ s'.rfA RSV_QPU_ID = s6.rfA RSV_QPU_ID ∧
      ∀ l, s'.acc 0 l =
        ((((s6.rfA RSV_QPU_ID l <<< (4 % 32)) % 2 ^ 32 + (env.eidx l ||| env.eidx l)) % 2 ^ 32)
          <<< (2 % 32)) % 2 ^ 32 := by
    rw [show f + 11 = f + 5 + 6 by omega, e6]
    by_cases h8 : n = 8
    · simp only [h8, if_true, Nat.add_zero]
      exact add_init_tail RSV_QPU_ID RSV_NUM_QPUS endifLabel env s6 f p6
    · simp only [h8, if_false]
      rw [show f + 5 + 3 = f + 3 + 5 by omega]
      exact add_init_tail RSV_QPU_ID RSV_NUM_QPUS endifLabel env s6 (f + 3) p6
  obtain ⟨s', hrun, hr, ha⟩ := htail
  refine ⟨s', hrun, ?_, ?_⟩
  · intro l
    rw [hr, r6]
    by_cases h8 : n = 8
    · simp only [h8, if_true, Nat.or_self]
      rw [Nat.mod_eq_of_lt ht]
    · simp only [h8, if_false]
  · intro l
    show s'.acc 0 l = _
    rw [ha, hr]
    exact offset_arith _ _

theorem add_init_offset_witness :
    ((0 : Nat) ≠ 1 ∧ exampleQPU.pc = 0 ∧ exampleQPU.rfA ((1 : Nat) : Int) = broadcast 8 ∧
      (8 : Nat) < 2 ^ 32 ∧ exampleEnv.tidx < 2 ^ 32 ∧ 11 ≤ 11) ∧
    ∃ code, add_init_head 0 1 42 = .ok code ∧
      ∃ s', run exampleEnv code 11 exampleQPU = some s' ∧
        (∀ l, s'.rfA ((0 : Nat) : Int) l =
          if (8 : Nat) = 8 then (exampleEnv.tidx >>> 2) &&& 15 else 0) ∧
        (∀ l, s'.acc ACC0.regId l =
          (4 * (exampleEnv.eidx l + 16 * s'.rfA ((0 : Nat) : Int) l)) % 2 ^ 32) :=
  ⟨⟨by decide, rfl, rfl, by norm_num, by decide, le_refl _⟩,
    add_init_offset 0 1 (by decide) 42 exampleEnv exampleQPU 8 11 rfl rfl (by norm_num)
      (by decide) (le_refl _)⟩

theorem allocReg_regId (alloc : List Reg) (r : Reg) (ht : r.tag = .REG_A) :
    (allocReg alloc r).regId = allocId alloc r.regId := by
  unfold allocReg allocId
  simp only [ht, if_true]
  cases vecGet alloc r.regId <;> rfl

theorem regVar_allocReg (alloc : List Reg) (r : Reg) :
    regVar (allocReg alloc r) = (regVar r).map (allocId alloc) := by
  unfold regVar
  rw [allocReg_tag]
  by_cases ht : r.tag = .REG_A
  · simp [ht, allocReg_regId alloc r ht]
  · simp [ht]

theorem operandVar_allocReg (alloc : List Reg) (a : RegOrImm) :
    operandVar (mapOperand (allocReg alloc) a) = (operandVar a).map (allocId alloc) := by
  cases a with
  | REG r => exact regVar_allocReg alloc r
  | IMM _ => rfl

/-- The def set of a rewritten instruction holds the registers of the old def set. -/
theorem useDef_def_substituteRegs (alloc : List Reg) (instr : Instr) :
    (useDef (substituteRegs (allocReg alloc) instr)).def_ =
      (useDef instr).def_.map (allocId alloc) := by
  cases instr <;> simp [substituteRegs, useDef, regVar_allocReg]

/-- The use set of a rewritten instruction holds the registers of the old use set. -/
theorem useDef_use_substituteRegs (alloc : List Reg) (instr : Instr) (y : Int) :
    y ∈ (useDef (substituteRegs (allocReg alloc) instr)).use ↔
      ∃ x ∈ (useDef instr).use, allocId alloc x = y := by
  cases instr with
  | ALU sc c dest a op b =>
    simp only [substituteRegs, useDef, operandVar_allocReg, List.mem_append, List.mem_map,
      List.mem_filter, decide_eq_true_eq]
    constructor
    · rintro (⟨x, hx, rfl⟩ | ⟨⟨x, hx, rfl⟩, hnot⟩)
      · exact ⟨x, Or.inl hx, rfl⟩
      · by_cases hxa : x ∈ operandVar a
        · exact ⟨x, Or.inl hxa, rfl⟩
        · exact ⟨x, Or.inr ⟨hx, hxa⟩, rfl⟩
    · rintro ⟨x, (hx | ⟨hx, _⟩), rfl⟩
      · exact Or.inl ⟨x, hx, rfl⟩
      · by_cases hin : ∃ z ∈ operandVar a, allocId alloc z = allocId alloc x
        · exact Or.inl hin
        · exact Or.inr ⟨⟨x, hx, rfl⟩, hin⟩
  | PRI r => simp [substituteRegs, useDef, regVar_allocReg]
  | PRF r => simp [substituteRegs, useDef, regVar_allocReg]
  | _ => simp [substituteRegs, useDef]

/-- In the greedy allocation the register of a variable is at most its index. -/
theorem AllocInv_regId_le (liveWith : LiveSets) (N numVars : Nat) (alloc : List Reg)
    (hinv : AllocInv liveWith N numVars numVars alloc) (v : Nat) (hv : v < numVars) :
    ∃ r, alloc[v]? = some r ∧ r.tag = .REG_A ∧ 0 ≤ r.regId ∧ r.regId < (N : Int) ∧
      r.regId ≤ (v : Int) := by
  induction v using Nat.strong_induction_on with
  | _ v ih =>
    obtain ⟨r, hr, ht, h0, hN, _, hleast⟩ := hinv.2.2 v hv
    refine ⟨r, hr, ht, h0, hN, ?_⟩
    by_contra hgt
    obtain ⟨j, rj, _, hjv, hrj, hrjv⟩ := hleast (v : Int) (by omega) (by omega)
    rw [vecGet_ok] at hrj
    obtain ⟨r', hr', _, _, _, hle⟩ := ih j.toNat (by omega) (by omega)
    rw [hrj.2] at hr'
    cases hr'
    omega

theorem allocId_of_entry (alloc : List Reg) (v : Nat) (r : Reg) (hr : alloc[v]? = some r) :
    allocId alloc (v : Int) = r.regId := by
  unfold allocId
  rw [(vecGet_ok alloc (v : Int) r).mpr ⟨by omega, by simpa using hr⟩]

theorem substituteRegs_fixed (f : Reg → Reg) (instr : Instr)
    (h : ∀ r ∈ regSlots instr, f r = r) : substituteRegs f instr = instr := by
  cases instr with
  | LI sc c dest imm =>
    simp only [substituteRegs, h dest (by simp [regSlots])]
  | RECV dest =>
    simp only [substituteRegs, h dest (by simp [regSlots])]
  | PRI r =>
    simp only [substituteRegs, h r (by simp [regSlots])]
  | PRF r =>
    simp only [substituteRegs, h r (by simp [regSlots])]
  | ALU sc c dest a op b =>
    have hop : ∀ x : RegOrImm, (∀ r ∈ operandRegs x, f r = r) → mapOperand f x = x := by
      intro x hx
      cases x with
      | REG r => simp only [mapOperand, hx r (by simp [operandRegs])]
      | IMM _ => rfl
    simp only [substituteRegs, h dest (by simp [regSlots]),
      hop a (fun r hr => h r (by simp [regSlots, hr])),
      hop b (fun r hr => h r (by simp [regSlots, hr]))]
  | _ => rfl

theorem rename_fold_total (alloc : List Reg) (g : Instr → Int → Reg → Instr) (l : List Int)
    (instr : Instr) (h : ∀ r ∈ l, ∃ a, vecGet alloc r = .ok a) :
    ∃ instr', l.foldlM (fun instr r => do
        let a ← vecGet alloc r
        pure (g instr r a)) instr = .ok instr' := by
  induction l generalizing instr with
  | nil => exact ⟨instr, rfl⟩
  | cons r rest ih =>
    obtain ⟨a, ha⟩ := h r (List.mem_cons_self _ _)
    obtain ⟨instr', h'⟩ := ih (g instr r a) (fun x hx => h x (List.mem_cons_of_mem _ hx))
    refine ⟨instr', ?_⟩
    rw [List.foldlM_cons]
    simp only [ha, bind, Except.bind, pure, Except.pure]
    exact h'

/-- Step 4 of `regAlloc` completes on an instruction whose variables all have an entry. -/
theorem regAlloc_apply_total (alloc : List Reg) (instr : Instr)
    (hd : ∀ r ∈ (useDef instr).def_, ∃ a, vecGet alloc r = .ok a)
    (hu : ∀ r ∈ (useDef instr).use, ∃ a, vecGet alloc r = .ok a) :
    ∃ instr', regAlloc_apply useDef alloc instr = .ok instr' := by
  unfold regAlloc_apply
  obtain ⟨i1, h1⟩ := rename_fold_total alloc
    (fun instr r a => renameDest instr .REG_A r .TMP_A a.regId) _ instr hd
  obtain ⟨i2, h2⟩ := rename_fold_total alloc
    (fun instr r a => renameUses instr .REG_A r .TMP_A a.regId) _ i1 hu
  refine ⟨substRegTag i2 .TMP_A .REG_A, ?_⟩
  simp only [bind, Except.bind] at h1 h2 ⊢
  rw [h1]
  simp only
  rw [h2]
  rfl

theorem mapM_ok_self {α : Type} (f : α → Except Failure α) (l : List α)
    (h : ∀ x ∈ l, f x = .ok x) : l.mapM f = .ok l := by
  induction l with
  | nil => rfl
  | cons a rest ih =>
    rw [List.mapM_cons, h a (List.mem_cons_self _ _),
      ih (fun x hx => h x (List.mem_cons_of_mem _ hx))]
    rfl

theorem useDef_def_slot (instr : Instr) (d : Int) (hd : d ∈ (useDef instr).def_) :
    ∃ r ∈ regSlots instr, r.tag = .REG_A ∧ r.regId = d := by
  have hreg : ∀ r : Reg, d ∈ regVar r → r.tag = .REG_A ∧ r.regId = d := by
    intro r hr
    unfold regVar at hr
    by_cases ht : r.tag = .REG_A
    · simp only [ht, if_true, List.mem_singleton] at hr
      exact ⟨ht, hr.symm⟩
    · simp [ht] at hr
  cases instr with
  | LI sc c dest imm => exact ⟨dest, by simp [regSlots], hreg dest hd⟩
  | ALU sc c dest a op b => exact ⟨dest, by simp [regSlots], hreg dest hd⟩
  | RECV dest => exact ⟨dest, by simp [regSlots], hreg dest hd⟩
  | _ => simp [useDef] at hd

theorem useDef_use_slot (instr : Instr) (d : Int) (hd : d ∈ (useDef instr).use) :
    ∃ r ∈ regSlots instr, r.tag = .REG_A ∧ r.regId = d := by
  have hreg : ∀ r : Reg, d ∈ regVar r → r.tag = .REG_A ∧ r.regId = d := by
    intro r hr
    unfold regVar at hr
    by_cases ht : r.tag = .REG_A
    · simp only [ht, if_true, List.mem_singleton] at hr
      exact ⟨ht, hr.symm⟩
    · simp [ht] at hr
  have hop : ∀ x : RegOrImm, d ∈ operandVar x → ∃ r ∈ operandRegs x,
      r.tag = .REG_A ∧ r.regId = d := by
    intro x hx
    cases x with
    | REG r => exact ⟨r, by simp [operandRegs], hreg r hx⟩
    | IMM _ => cases hx
  cases instr with
  | ALU sc c dest a op b =>
    simp only [useDef, List.mem_append, List.mem_filter] at hd
    rcases hd with hd | ⟨hd, _⟩
    · obtain ⟨r, hr, h⟩ := hop a hd
      exact ⟨r, by simp [regSlots, hr], h⟩
    · obtain ⟨r, hr, h⟩ := hop b hd
      exact ⟨r, by simp [regSlots, hr], h⟩
  | PRI r => exact ⟨r, by simp [regSlots], hreg r hd⟩
  | PRF r => exact ⟨r, by simp [regSlots], hreg r hd⟩
  | _ => simp [useDef] at hd

theorem allocId_facts (liveWith : LiveSets) (N numVars : Nat) (alloc : List Reg)
    (hinv : AllocInv liveWith N numVars numVars alloc) (v : Int) (h0 : 0 ≤ v)
    (hv : v < (numVars : Int)) :
    ∃ r, vecGet alloc v = .ok r ∧ r.tag = .REG_A ∧ allocId alloc v = r.regId ∧
      0 ≤ r.regId ∧ r.regId < (N : Int) ∧ r.regId ≤ v ∧
      LowestFree liveWith N alloc v.toNat r.regId := by
  obtain ⟨r, hr, ht, hr0, hrN, hle⟩ := AllocInv_regId_le liveWith N numVars alloc hinv v.toNat
    (by omega)
  obtain ⟨r', hr', _, hl⟩ := hinv.2.2 v.toNat (by omega)
  rw [hr] at hr'
  cases hr'
  have hget : vecGet alloc v = .ok r := (vecGet_ok _ _ _).mpr ⟨h0, hr⟩
  refine ⟨r, hget, ht, ?_, hr0, hrN, by omega, hl⟩
  unfold allocId
  rw [hget]

/-- The allocation loop of a second run: on the sets of the rewritten list every register in
use is given to itself. -/
theorem regAlloc_loop_again (liveWith liveWith' : LiveSets) (N numVars : Nat)
    (instrs' : List Instr) (alloc : List Reg)
    (hinv : AllocInv liveWith N numVars numVars alloc) (hN : 0 < N)
    (hsz' : liveWith'.m_size = numVars)
    (hback : ∀ p q, liveWith'.interferes p q = true → ∃ u v,
      liveWith.interferes u v = true ∧ allocId alloc u = p ∧ allocId alloc v = q)
    (hfwd : ∀ u v, liveWith.interferes u v = true →
      liveWith'.interferes (allocId alloc u) (allocId alloc v) = true)
    (hrange : ∀ u v, liveWith.interferes u v = true →
      (0 ≤ u ∧ u < (numVars : Int)) ∧ (0 ≤ v ∧ v < (numVars : Int)))
    (k : Nat) (hk : k ≤ numVars) :
    ∃ alloc2, regAlloc_loop liveWith' N numVars instrs' k = .ok alloc2 ∧
      ∀ p : Nat, p < k →
        (∃ v : Int, 0 ≤ v ∧ v < (numVars : Int) ∧ allocId alloc v = (p : Int)) →
        ∃ r, alloc2[p]? = some r ∧ r.tag = .REG_A ∧ r.regId = (p : Int) := by
  -- a neighbour in the second graph is a register in use, below `numVars`
  have hinC : ∀ p q, liveWith'.interferes p q = true →
      (∃ v : Int, 0 ≤ v ∧ v < (numVars : Int) ∧ allocId alloc v = p) ∧
      (∃ v : Int, 0 ≤ v ∧ v < (numVars : Int) ∧ allocId alloc v = q) := by
    intro p q hpq
    obtain ⟨u, v, huv, hu, hv⟩ := hback p q hpq
    obtain ⟨hur, hvr⟩ := hrange u v huv
    exact ⟨⟨u, hur.1, hur.2, hu⟩, ⟨v, hvr.1, hvr.2, hv⟩⟩
  have hCrange : ∀ (p : Int), (∃ v : Int, 0 ≤ v ∧ v < (numVars : Int) ∧ allocId alloc v = p) →
      0 ≤ p ∧ p < (numVars : Int) ∧ p < (N : Int) := by
    rintro p ⟨v, h0, hv, rfl⟩
    obtain ⟨r, _, _, hid, hr0, hrN, hle, _⟩ := allocId_facts liveWith N numVars alloc hinv v h0 hv
    rw [hid]
    omega
  induction k with
  | zero =>
    exact ⟨regAlloc_init numVars, rfl, fun p hp => absurd hp (Nat.not_lt_zero p)⟩
  | succ k ih =>
    obtain ⟨alloc2, hloop, hid⟩ := ih (by omega)
    have hinv2 := regAlloc_loop_inv liveWith' N numVars instrs' k (by omega) alloc2 hloop
    have hheld : ∀ (j : Int) (r : Reg), liveWith'.interferes (k : Int) j = true →
        j < (k : Int) → vecGet alloc2 j = .ok r → r.regId = j := by
      intro j r hint hjk hr
      obtain ⟨_, hjC⟩ := hinC _ _ hint
      have hj0 := (hCrange j hjC).1
      have hjc : ((j.toNat : Nat) : Int) = j := by omega
      obtain ⟨r', hr', _, hrid⟩ := hid j.toNat (by omega) (by rw [hjc]; exact hjC)
      rw [vecGet_ok] at hr
      rw [hr.2] at hr'
      cases hr'
      omega
    have hstep : ∃ alloc2', regAlloc_var liveWith' N instrs' alloc2 k = .ok alloc2' := by
      rcases regAlloc_var_cases liveWith' N numVars instrs' alloc2 k (by omega) hN hsz'
          (fun j hj => by
            obtain ⟨_, hjC⟩ := hinC _ _ hj
            have := hCrange j hjC
            omega) hinv2 with hok | ⟨hfull, _⟩
      · exact hok
      · exfalso
        obtain ⟨j0, r0, hint0, _, _, _⟩ := hfull 0 hN
        obtain ⟨hkC, _⟩ := hinC _ _ hint0
        have hkN := (hCrange _ hkC).2.2
        obtain ⟨j, r, hint, hjk, hr, hrk⟩ := hfull k (by omega)
        have := hheld j r hint hjk hr
        omega
    obtain ⟨alloc2', hstep⟩ := hstep
    obtain ⟨hinv2', hag⟩ := regAlloc_var_ok liveWith' N numVars instrs' alloc2 alloc2' k
      (by omega) hinv2 hstep
    have hheld' : ∀ (j : Int) (r : Reg), liveWith'.interferes (k : Int) j = true →
        j < (k : Int) → vecGet alloc2' j = .ok r → r.regId = j := by
      intro j r hint hjk hr
      refine hheld j r hint hjk ?_
      rw [vecGet_ok] at hr ⊢
      refine ⟨hr.1, ?_⟩
      rw [← hag j.toNat (by omega)]
      exact hr.2
    refine ⟨alloc2', ?_, ?_⟩
    · rw [regAlloc_loop_succ, hloop]
      exact hstep
    · intro p hp hpC
      by_cases hpk : p = k
      · subst hpk
        obtain ⟨r, hr, ht, h0, _, hfree, hleast⟩ := hinv2'.2.2 p (by omega)
        refine ⟨r, hr, ht, ?_⟩
        obtain ⟨v, hv0, hvn, hvp⟩ := hpC
        obtain ⟨rv, hrv, _, hidv, _, _, _, _, _, _, hleastv⟩ :=
          allocId_facts liveWith N numVars alloc hinv v hv0 hvn
        by_contra hne
        rcases lt_or_gt_of_ne hne with hlt | hgt
        · -- a smaller register is held by a neighbour of `v`, hence of `p`
          obtain ⟨j, rj, hintj, _, hrj, hrjc⟩ := hleastv r.regId h0 (by omega)
          have hvc : ((v.toNat : Nat) : Int) = v := by omega
          rw [hvc] at hintj
          have hint' := hfwd v j hintj
          have hjid : allocId alloc j = r.regId := by
            unfold allocId
            rw [hrj]
            exact hrjc
          rw [hvp, hjid] at hint'
          have hC := (hinC _ _ hint').2
          have hc0 := (hCrange _ hC).1
          have hcc : ((r.regId.toNat : Nat) : Int) = r.regId := by omega
          obtain ⟨r2, hr2, _, hr2id⟩ := hid r.regId.toNat (by omega) (by rw [hcc]; exact hC)
          have hget : vecGet alloc2' r.regId = .ok r2 := by
            rw [vecGet_ok]
            refine ⟨hc0, ?_⟩
            rw [hag r.regId.toNat (by omega)]
            exact hr2
          exact hfree r.regId r2 hint' hlt hget (by omega)
        · obtain ⟨j, rj, hintj, hjp, hrj, hrjp⟩ := hleast (p : Int) (by omega) hgt
          have := hheld' j rj hintj hjp hrj
          omega
      · obtain ⟨r, hr, hrest⟩ := hid p (by omega) hpC
        exact ⟨r, by rw [hag p hpk]; exact hr, hrest⟩

theorem getElem?_some_lt {α : Type} (l : List α) (i : Nat) (x : α) (h : l[i]? = some x) :
    i < l.length := by
  by_contra hn
  rw [List.getElem?_eq_none (Nat.le_of_not_lt hn)] at h
  cases h

theorem allocReg_fixed (alloc : List Reg) (r a : Reg) (h : vecGet alloc r.regId = .ok a)
    (hid : a.regId = r.regId) : allocReg alloc r = r := by
  unfold allocReg
  by_cases ht : r.tag = .REG_A
  · simp only [ht, if_true, h, hid]
    cases r
    simp only at ht
    rw [ht]
  · simp only [ht, if_false]

theorem mapM_total {α β : Type} (f : α → Except Failure β) (l : List α)
    (h : ∀ x ∈ l, ∃ y, f x = .ok y) : ∃ l', l.mapM f = .ok l' := by
  induction l with
  | nil => exact ⟨[], rfl⟩
  | cons a rest ih =>
    obtain ⟨b, hb⟩ := h a (List.mem_cons_self _ _)
    obtain ⟨bs, hbs⟩ := ih (fun x hx => h x (List.mem_cons_of_mem _ hx))
    refine ⟨b :: bs, ?_⟩
    rw [List.mapM_cons, hb, hbs]
    rfl

/-- A second run of `regAlloc` on the list a first run left, with a liveness whose live-out
sets hold the registers of the variables of the first liveness: nothing changes. -/
theorem regAlloc_again (N numVars : Nat) (live live' : Liveness) (instrs instrs' : List Instr)
    (alloc : List Reg)
    (ha : regAlloc_alloc useDef N numVars live instrs = .ok alloc)
    (hr : regAlloc useDef N numVars live instrs = .ok instrs')
    (hno : ∀ instr ∈ instrs, ∀ r ∈ regSlots instr, r.tag ≠ .TMP_A)
    (hsize : live'.size = live.size)
    (hlive : ∀ i, i < instrs.length → idsBelow numVars (live.computeLiveOut i).elems)
    (himg : ∀ i, i < instrs.length → ∀ y, y ∈ (live'.computeLiveOut i).elems ↔
      ∃ x ∈ (live.computeLiveOut i).elems, allocId alloc x = y) :
    regAlloc useDef N numVars live' instrs' = .ok instrs' := by
  obtain ⟨liveWith, hl, hloop⟩ := regAlloc_alloc_parts useDef N numVars live instrs alloc ha
  have hinv := regAlloc_loop_inv liveWith N numVars instrs numVars (le_refl _) alloc hloop
  obtain ⟨hpos, _, _, hsym, _, hrange⟩ :=
    regAlloc_liveWith_props useDef numVars live instrs liveWith hl
  obtain ⟨hlen, s0, h0, hinit⟩ := regAlloc_liveWith_ok useDef numVars live instrs liveWith hl
  have hch := LiveSets.init_interferes useDef live instrs numVars s0 liveWith h0 hinit
  -- the rewritten list
  have hmap : instrs.mapM (regAlloc_apply useDef alloc) = .ok instrs' := by
    unfold regAlloc at hr
    rw [ha] at hr
    exact hr
  have heq : instrs' = instrs.map (substituteRegs (allocReg alloc)) :=
    mapM_ok_map _ _ instrs instrs'
      (fun x hx y hy => (regAlloc_apply_ok alloc x y hy (hno x hx)).1) hmap
  have hslot : ∀ instr ∈ instrs, ∀ r ∈ regSlots instr, r.tag = .REG_A →
      0 ≤ r.regId ∧ r.regId < (numVars : Int) := by
    intro instr hin r hr' ht
    obtain ⟨y, hy⟩ := mapM_ok_each _ instrs instrs' hmap instr hin
    obtain ⟨a, hget⟩ := (regAlloc_apply_ok alloc instr y hy (hno instr hin)).2 r hr' ht
    rw [vecGet_ok] at hget
    refine ⟨hget.1, ?_⟩
    by_contra hn
    have hlen' := hinv.1
    rw [List.getElem?_eq_none (by omega)] at hget
    cases hget.2
  have hN : 0 < N := by
    obtain ⟨_, _, _, _, h1, h2, _⟩ := allocId_facts liveWith N numVars alloc hinv 0
      (le_refl _) (by omega)
    omega
  have hcol : ∀ v : Int, 0 ≤ v → v < (numVars : Int) →
      0 ≤ allocId alloc v ∧ allocId alloc v < (numVars : Int) := by
    intro v h0 hv
    obtain ⟨_, _, _, hid, h1, _, h3, _⟩ := allocId_facts liveWith N numVars alloc hinv v h0 hv
    rw [hid]
    omega
  have hget' : ∀ (i : Nat) (instr' : Instr), instrs'[i]? = some instr' →
      ∃ instr, instrs[i]? = some instr ∧ instr' = substituteRegs (allocReg alloc) instr := by
    intro i instr' hi
    rw [heq, List.getElem?_map] at hi
    cases hinstr : instrs[i]? with
    | none => rw [hinstr] at hi; cases hi
    | some instr =>
      rw [hinstr] at hi
      simp only [Option.map_some', Option.some.injEq] at hi
      exact ⟨instr, rfl, hi.symm⟩
  have hdefrange : ∀ instr ∈ instrs, ∀ d ∈ (useDef instr).def_,
      0 ≤ d ∧ d < (numVars : Int) := by
    intro instr hin d hd
    obtain ⟨r, hr', ht, rfl⟩ := useDef_def_slot instr d hd
    exact hslot instr hin r hr' ht
  have huserange : ∀ instr ∈ instrs, ∀ d ∈ (useDef instr).use,
      0 ≤ d ∧ d < (numVars : Int) := by
    intro instr hin d hd
    obtain ⟨r, hr', ht, rfl⟩ := useDef_use_slot instr d hd
    exact hslot instr hin r hr' ht
  -- the sets of the second run
  have hlen' : instrs'.length = instrs.length := by rw [heq, List.length_map]
  obtain ⟨liveWith', hl'⟩ := regAlloc_liveWith_total useDef numVars live' instrs'
    (by rw [hlen', hlen, hsize]) hpos (by
      intro i hi y hy
      rw [hlen'] at hi
      rw [himg i hi] at hy
      obtain ⟨x, hx, rfl⟩ := hy
      obtain ⟨hx0, hxn⟩ := hlive i hi x hx
      exact hcol x hx0 hxn) (by
      intro instr' hin' y hy
      rw [heq, List.mem_map] at hin'
      obtain ⟨instr, hin, rfl⟩ := hin'
      rw [useDef_def_substituteRegs, List.mem_map] at hy
      obtain ⟨d, hd, rfl⟩ := hy
      obtain ⟨hd0, hdn⟩ := hdefrange instr hin d hd
      exact hcol d hd0 hdn)
  obtain ⟨_, _, hsz', _, _, _⟩ :=
    regAlloc_liveWith_props useDef numVars live' instrs' liveWith' hl'
  obtain ⟨_, s0', h0', hinit'⟩ :=
    regAlloc_liveWith_ok useDef numVars live' instrs' liveWith' hl'
  have hch' := LiveSets.init_interferes useDef live' instrs' numVars s0' liveWith' h0' hinit'
  have hback : ∀ p q, liveWith'.interferes p q = true → ∃ u v,
      liveWith.interferes u v = true ∧ allocId alloc u = p ∧ allocId alloc v = q := by
    intro p q hpq
    rw [hch'] at hpq
    obtain ⟨i, instr', hi', hne, hc⟩ := hpq
    obtain ⟨instr, hi, rfl⟩ := hget' i instr' hi'
    have hilt : i < instrs.length := getElem?_some_lt instrs i instr hi
    rw [useDef_def_substituteRegs] at hc
    simp only [himg i hilt, List.mem_map] at hc
    have key : ∀ u v : Int, allocId alloc u = p → allocId alloc v = q →
        ((u ∈ (live.computeLiveOut i).elems ∧ v ∈ (live.computeLiveOut i).elems) ∨
         (u ∈ (live.computeLiveOut i).elems ∧ v ∈ (useDef instr).def_) ∨
         (u ∈ (useDef instr).def_ ∧ v ∈ (live.computeLiveOut i).elems)) →
        ∃ u v, liveWith.interferes u v = true ∧ allocId alloc u = p ∧
          allocId alloc v = q := by
      intro u v hu hv hpat
      refine ⟨u, v, ?_, hu, hv⟩
      rw [hch]
      refine ⟨i, instr, hi, ⟨?_, hpat⟩⟩
      intro e
      apply hne
      rw [← hu, ← hv, e]
    rcases hc with ⟨⟨u, hu, hup⟩, ⟨v, hv, hvq⟩⟩ | ⟨⟨u, hu, hup⟩, ⟨v, hv, hvq⟩⟩ |
        ⟨⟨u, hu, hup⟩, ⟨v, hv, hvq⟩⟩
    · exact key u v hup hvq (Or.inl ⟨hu, hv⟩)
    · exact key u v hup hvq (Or.inr (Or.inl ⟨hu, hv⟩))
    · exact key u v hup hvq (Or.inr (Or.inr ⟨hu, hv⟩))
  have hfwd : ∀ u v, liveWith.interferes u v = true →
      liveWith'.interferes (allocId alloc u) (allocId alloc v) = true := by
    intro u v huv
    have hne : u ≠ v := by
      intro e
      rw [hch] at huv
      obtain ⟨_, _, _, hc⟩ := huv
      exact hc.1 e
    obtain ⟨ru, rv, hru, hrv, _, _, hdiff⟩ :=
      AllocInv_neighbours_differ liveWith N numVars alloc hinv hsym hrange u v hne huv
    have hidu : allocId alloc u = ru.regId := by unfold allocId; rw [hru]
    have hidv : allocId alloc v = rv.regId := by unfold allocId; rw [hrv]
    rw [hch] at huv
    obtain ⟨i, instr, hi, _, hpat⟩ := huv
    have hilt : i < instrs.length := getElem?_some_lt instrs i instr hi
    rw [hch']
    refine ⟨i, substituteRegs (allocReg alloc) instr, ?_, ?_, ?_⟩
    · rw [heq, List.getElem?_map, hi]
      rfl
    · rw [hidu, hidv]
      exact hdiff
    · rw [useDef_def_substituteRegs]
      simp only [himg i hilt, List.mem_map]
      rcases hpat with ⟨hu, hv⟩ | ⟨hu, hv⟩ | ⟨hu, hv⟩
      · exact Or.inl ⟨⟨u, hu, rfl⟩, ⟨v, hv, rfl⟩⟩
      · exact Or.inr (Or.inl ⟨⟨u, hu, rfl⟩, ⟨v, hv, rfl⟩⟩)
      · exact Or.inr (Or.inr ⟨⟨u, hu, rfl⟩, ⟨v, hv, rfl⟩⟩)
  -- the allocation of the second run
  obtain ⟨alloc2, hloop2, hid2⟩ := regAlloc_loop_again liveWith liveWith' N numVars instrs'
    alloc hinv hN hsz' hback hfwd hrange numVars (le_refl _)
  have hentry2 : ∀ v : Int, 0 ≤ v → v < (numVars : Int) →
      ∃ r, vecGet alloc2 (allocId alloc v) = .ok r ∧ r.regId = allocId alloc v := by
    intro v hv0 hvn
    obtain ⟨hc0, hcn⟩ := hcol v hv0 hvn
    have hcc : (((allocId alloc v).toNat : Nat) : Int) = allocId alloc v := by omega
    obtain ⟨r, hr2, _, hrid⟩ := hid2 (allocId alloc v).toNat (by omega)
      ⟨v, hv0, hvn, hcc.symm⟩
    exact ⟨r, (vecGet_ok _ _ _).mpr ⟨hc0, hr2⟩, by omega⟩
  -- the rewrite of the second run
  have hsame : ∀ instr' ∈ instrs', regAlloc_apply useDef alloc2 instr' = .ok instr' := by
    intro instr' hin'
    have hin'' := hin'
    rw [heq, List.mem_map] at hin''
    obtain ⟨instr, hin, hinstr⟩ := hin''
    have hno' : ∀ r ∈ regSlots instr', r.tag ≠ .TMP_A := by
      intro r hr'
      rw [← hinstr, regSlots_substituteRegs, List.mem_map] at hr'
      obtain ⟨r0, hr0, rfl⟩ := hr'
      rw [allocReg_tag]
      exact hno instr hin r0 hr0
    obtain ⟨out, hout⟩ := regAlloc_apply_total alloc2 instr' (by
      intro y hy
      rw [← hinstr, useDef_def_substituteRegs, List.mem_map] at hy
      obtain ⟨d, hd, rfl⟩ := hy
      obtain ⟨hd0, hdn⟩ := hdefrange instr hin d hd
      obtain ⟨r, hr2, _⟩ := hentry2 d hd0 hdn
      exact ⟨r, hr2⟩) (by
      intro y hy
      rw [← hinstr, useDef_use_substituteRegs] at hy
      obtain ⟨d, hd, rfl⟩ := hy
      obtain ⟨hd0, hdn⟩ := huserange instr hin d hd
      obtain ⟨r, hr2, _⟩ := hentry2 d hd0 hdn
      exact ⟨r, hr2⟩)
    rw [hout]
    congr 1
    rw [(regAlloc_apply_ok alloc2 instr' out hout hno').1]
    apply substituteRegs_fixed
    intro r' hr'
    rw [← hinstr, regSlots_substituteRegs, List.mem_map] at hr'
    obtain ⟨r0, hr0, rfl⟩ := hr'
    by_cases ht : r0.tag = .REG_A
    · obtain ⟨h00, h0n⟩ := hslot instr hin r0 hr0 ht
      obtain ⟨r2, hr2, hr2id⟩ := hentry2 r0.regId h00 h0n
      rw [← allocReg_regId alloc r0 ht] at hr2 hr2id
      exact allocReg_fixed alloc2 _ r2 hr2 hr2id
    · have hfix : allocReg alloc r0 = r0 := by simp [allocReg, ht]
      rw [hfix]
      simp [allocReg, ht]
  unfold regAlloc regAlloc_alloc
  rw [hl']
  simp only [bind, Except.bind]
  rw [hloop2]
  simp only
  exact mapM_ok_self _ instrs' hsame

theorem LiveSet.mem_foldl_insert (l : List Int) (s : LiveSet) (x : Int) :
    x ∈ (l.foldl LiveSet.insert s).elems ↔ x ∈ s.elems ∨ x ∈ l := by
  induction l generalizing s with
  | nil => simp
  | cons a rest ih =>
    rw [List.foldl_cons, ih, LiveSet.mem_insert]
    simp only [List.mem_cons]
    tauto

theorem LiveSet.mem_add (s rhs : LiveSet) (x : Int) :
    x ∈ (s.add rhs).elems ↔ x ∈ s.elems ∨ x ∈ rhs.elems :=
  LiveSet.mem_foldl_insert rhs.elems s x

theorem LiveSet.mem_addSet (s : LiveSet) (set : List Int) (x : Int) :
    x ∈ (s.addSet set).elems ↔ x ∈ s.elems ∨ x ∈ set :=
  LiveSet.mem_foldl_insert set s x

theorem LiveSet.mem_add_not_used_fold (l : List Int) (defs : List Int) (s : LiveSet)
    (x : Int) :
    x ∈ (l.foldl (fun acc j => if j ∈ defs then acc else acc.insert j) s).elems ↔
      x ∈ s.elems ∨ (x ∈ l ∧ x ∉ defs) := by
  induction l generalizing s with
  | nil => simp
  | cons a rest ih =>
    rw [List.foldl_cons, ih]
    by_cases ha : a ∈ defs
    · simp only [ha, if_true, List.mem_cons]
      constructor
      · rintro (h | ⟨h1, h2⟩)
        · exact Or.inl h
        · exact Or.inr ⟨Or.inr h1, h2⟩
      · rintro (h | ⟨(rfl | h1), h2⟩)
        · exact Or.inl h
        · exact absurd ha h2
        · exact Or.inr ⟨h1, h2⟩
    · simp only [ha, if_false, LiveSet.mem_insert, List.mem_cons]
      constructor
      · rintro ((rfl | h) | ⟨h1, h2⟩)
        · exact Or.inr ⟨Or.inl rfl, ha⟩
        · exact Or.inl h
        · exact Or.inr ⟨Or.inr h1, h2⟩
      · rintro (h | ⟨(rfl | h1), h2⟩)
        · exact Or.inl (Or.inr h)
        · exact Or.inl (Or.inl rfl)
        · exact Or.inr ⟨h1, h2⟩

theorem LiveSet.mem_add_not_used (s set : LiveSet) (use : UseDef) (x : Int) :
    x ∈ (s.add_not_used set use).elems ↔ x ∈ set.elems ∧ x ∉ use.def_ := by
  unfold LiveSet.add_not_used
  rw [LiveSet.mem_add_not_used_fold]
  simp [LiveSet.clear]

theorem mem_liveInOf (liveOut : LiveSet) (ud : UseDef) (x : Int) :
    x ∈ (liveInOf liveOut ud).elems ↔ x ∈ ud.use ∨ (x ∈ liveOut.elems ∧ x ∉ ud.def_) := by
  unfold liveInOf
  rw [LiveSet.mem_addSet, LiveSet.mem_add_not_used]
  tauto

theorem mem_liveOutOf_fold (m_set : List LiveSet) (succs : List Nat) (out : LiveSet)
    (x : Int) :
    x ∈ (succs.foldl (fun out s => out.add (m_set.getD s ⟨[]⟩)) out).elems ↔
      x ∈ out.elems ∨ ∃ s ∈ succs, x ∈ (m_set.getD s ⟨[]⟩).elems := by
  induction succs generalizing out with
  | nil => simp
  | cons a rest ih =>
    rw [List.foldl_cons, ih, LiveSet.mem_add]
    simp only [List.mem_cons, exists_eq_or_imp]
    tauto

theorem mem_liveOutOf (cfg : CFG) (m_set : List LiveSet) (i : Nat) (x : Int) :
    x ∈ (liveOutOf cfg m_set i).elems ↔
      ∃ s ∈ cfg.getD i [], x ∈ (m_set.getD s ⟨[]⟩).elems := by
  unfold liveOutOf
  rw [mem_liveOutOf_fold]
  simp

theorem getD_set_elems (m : List LiveSet) (i j : Nat) (v : LiveSet) (hi : i < m.length) :
    (m.set i v).getD j ⟨[]⟩ = if j = i then v else m.getD j ⟨[]⟩ := by
  simp only [List.getD_eq_getElem?_getD, List.getElem?_set]
  by_cases hji : j = i
  · subst hji
    simp [hi]
  · have : ¬ i = j := fun e => hji e.symm
    simp [hji, this]

theorem set_getElem_same {α : Type} (l : List α) (i : Nat) (h : i < l.length) :
    l.set i l[i] = l := by
  apply List.ext_getElem?
  intro j
  rw [List.getElem?_set]
  by_cases hij : i = j
  · subst hij
    simp [h]
  · simp [hij]

theorem liveStep_length (cfg : CFG) (instrs : List Instr) (st : List LiveSet × Bool)
    (i : Nat) : (liveStep cfg instrs st i).1.length = st.1.length := by
  unfold liveStep
  cases instrs[i]? <;> simp

theorem liveStep_mem (cfg : CFG) (instrs : List Instr) (st : List LiveSet × Bool) (i : Nat)
    (instr : Instr) (hi : instrs[i]? = some instr) (hlen : i < st.1.length) (j : Nat)
    (x : Int) :
    x ∈ ((liveStep cfg instrs st i).1.getD j ⟨[]⟩).elems ↔
      x ∈ (st.1.getD j ⟨[]⟩).elems ∨
        (j = i ∧ x ∈ (liveInOf (liveOutOf cfg st.1 i) (useDef instr)).elems) := by
  unfold liveStep
  simp only [hi]
  rw [getD_set_elems _ _ _ _ hlen]
  by_cases hji : j = i
  · subst hji
    simp [LiveSet.mem_add]
  · simp [hji]

theorem liveStep_flag (cfg : CFG) (instrs : List Instr) (st : List LiveSet × Bool) (i : Nat)
    (instr : Instr) (hi : instrs[i]? = some instr) :
    (liveStep cfg instrs st i).2 = true ↔
      st.2 = true ∨ ∃ x ∈ (liveInOf (liveOutOf cfg st.1 i) (useDef instr)).elems,
        x ∉ (st.1.getD i ⟨[]⟩).elems := by
  unfold liveStep
  simp only [hi, Bool.or_eq_true, List.any_eq_true, Bool.not_eq_true', LiveSet.member,
    decide_eq_false_iff_not]

theorem LiveSet.insert_of_mem (s : LiveSet) (x : Int) (h : x ∈ s.elems) : s.insert x = s := by
  unfold LiveSet.insert
  simp [h]

theorem LiveSet.add_of_subset (s rhs : LiveSet) (h : ∀ x ∈ rhs.elems, x ∈ s.elems) :
    s.add rhs = s := by
  unfold LiveSet.add
  have : ∀ l : List Int, (∀ x ∈ l, x ∈ s.elems) → l.foldl LiveSet.insert s = s := by
    intro l
    induction l with
    | nil => intro _; rfl
    | cons a rest ih =>
      intro hl
      rw [List.foldl_cons, LiveSet.insert_of_mem s a (hl a (List.mem_cons_self _ _))]
      exact ih (fun x hx => hl x (List.mem_cons_of_mem _ hx))
  exact this rhs.elems h

/-- A step that does not raise the flag leaves the sets as they are. -/
theorem liveStep_unchanged (cfg : CFG) (instrs : List Instr) (st : List LiveSet × Bool)
    (i : Nat) (h : (liveStep cfg instrs st i).2 = false) :
    (liveStep cfg instrs st i).1 = st.1 ∧ st.2 = false := by
  cases hi : instrs[i]? with
  | none =>
    unfold liveStep at h ⊢
    simp only [hi] at h ⊢
    exact ⟨trivial, h⟩
  | some instr =>
    have hf := liveStep_flag cfg instrs st i instr hi
    rw [h] at hf
    simp only [Bool.false_eq_true, false_iff, not_or, not_exists, not_and, not_not] at hf
    refine ⟨?_, by simpa using hf.1⟩
    unfold liveStep
    simp only [hi]
    rw [LiveSet.add_of_subset _ _ hf.2]
    simp only [List.getD_eq_getElem?_getD]
    by_cases hlt : i < st.1.length
    · rw [List.getElem?_eq_getElem hlt]
      exact set_getElem_same st.1 i hlt
    · rw [List.set_eq_of_length_le (by omega)]

theorem liveFold_unchanged (cfg : CFG) (instrs : List Instr) (is : List Nat)
    (st : List LiveSet × Bool) (h : (is.foldl (liveStep cfg instrs) st).2 = false) :
    (is.foldl (liveStep cfg instrs) st).1 = st.1 ∧ st.2 = false := by
  induction is generalizing st with
  | nil => exact ⟨rfl, h⟩
  | cons a rest ih =>
    rw [List.foldl_cons] at h ⊢
    obtain ⟨h1, h2⟩ := ih (liveStep cfg instrs st a) h
    obtain ⟨h3, h4⟩ := liveStep_unchanged cfg instrs st a h2
    exact ⟨by rw [h1, h3], h4⟩

theorem liveFold_length (cfg : CFG) (instrs : List Instr) (is : List Nat)
    (st : List LiveSet × Bool) :
    (is.foldl (liveStep cfg instrs) st).1.length = st.1.length := by
  induction is generalizing st with
  | nil => rfl
  | cons a rest ih => rw [List.foldl_cons, ih, liveStep_length]

theorem liveStep_grows (cfg : CFG) (instrs : List Instr) (st : List LiveSet × Bool)
    (i : Nat) (hlen : st.1.length = instrs.length) :
    SubSets st.1 (liveStep cfg instrs st i).1 := by
  intro j x hx
  cases hi : instrs[i]? with
  | none =>
    unfold liveStep
    simp only [hi]
    exact hx
  | some instr =>
    rw [liveStep_mem cfg instrs st i instr hi
      (by rw [hlen]; exact getElem?_some_lt instrs i instr hi)]
    exact Or.inl hx

theorem liveFold_grows (cfg : CFG) (instrs : List Instr) (is : List Nat)
    (st : List LiveSet × Bool) (hlen : st.1.length = instrs.length) :
    SubSets st.1 (is.foldl (liveStep cfg instrs) st).1 := by
  induction is generalizing st with
  | nil => intro _ _ h; exact h
  | cons a rest ih =>
    rw [List.foldl_cons]
    intro j x hx
    exact ih (liveStep cfg instrs st a) (by rw [liveStep_length, hlen]) j x
      (liveStep_grows cfg instrs st a hlen j x hx)

theorem liveLoop_grows (cfg : CFG) (instrs : List Instr) (fuel : Nat) (m mf : List LiveSet)
    (hlen : m.length = instrs.length) (h : liveLoop cfg instrs fuel m = some mf) :
    SubSets m mf ∧ mf.length = instrs.length := by
  induction fuel generalizing m with
  | zero => simp [liveLoop] at h
  | succ fuel ih =>
    simp only [liveLoop] at h
    have hg := liveFold_grows cfg instrs (List.range instrs.length).reverse (m, false) hlen
    have hl := liveFold_length cfg instrs (List.range instrs.length).reverse (m, false)
    by_cases hc : (liveSweep cfg instrs m).2 = true
    · simp only [hc, if_true] at h
      obtain ⟨h1, h2⟩ := ih (liveSweep cfg instrs m).1 (by unfold liveSweep; rw [hl, hlen]) h
      exact ⟨fun j x hx => h1 j x (hg j x hx), h2⟩
    · simp only [hc, Bool.false_eq_true, if_false, Option.some.injEq] at h
      rw [← h]
      exact ⟨hg, by unfold liveSweep; rw [hl, hlen]⟩

theorem liveOutOf_img (σ : Int → Int) (cfg : CFG) (m m' : List LiveSet)
    (hR : ImgSets σ m m') (i : Nat) :
    ImgSet σ (liveOutOf cfg m i) (liveOutOf cfg m' i) := by
  intro y
  simp only [mem_liveOutOf]
  constructor
  · rintro ⟨s, hs, hy⟩
    obtain ⟨x, hx, rfl⟩ := (hR.2 s y).mp hy
    exact ⟨x, ⟨s, hs, hx⟩, rfl⟩
  · rintro ⟨x, ⟨s, hs, hx⟩, rfl⟩
    exact ⟨s, hs, (hR.2 s _).mpr ⟨x, hx, rfl⟩⟩

theorem liveOutOf_sub (cfg : CFG) (m mf : List LiveSet) (hsub : SubSets m mf) (i : Nat)
    (x : Int) (hx : x ∈ (liveOutOf cfg m i).elems) : x ∈ (liveOutOf cfg mf i).elems := by
  rw [mem_liveOutOf] at hx ⊢
  obtain ⟨s, hs, hx⟩ := hx
  exact ⟨s, hs, hsub s x hx⟩

/-- One step of a sweep on the renamed list follows the step on the original list. -/
theorem liveStep_sim (σ : Int → Int) (cfg : CFG) (instrs instrs' : List Instr)
    (mf : List LiveSet) (hren : Renamed σ cfg instrs instrs' mf)
    (st st' : List LiveSet × Bool) (i : Nat) (hR : ImgSets σ st.1 st'.1)
    (hflag : st'.2 = true → st.2 = true) (hlen : st.1.length = instrs.length)
    (hsub : SubSets st.1 mf) :
    ImgSets σ (liveStep cfg instrs st i).1 (liveStep cfg instrs' st' i).1 ∧
    ((liveStep cfg instrs' st' i).2 = true → (liveStep cfg instrs st i).2 = true) := by
  obtain ⟨hlen', hud, hinj⟩ := hren
  cases hi : instrs[i]? with
  | none =>
    have hi' : instrs'[i]? = none := by
      rw [List.getElem?_eq_none_iff] at hi ⊢
      omega
    unfold liveStep
    simp only [hi, hi']
    exact ⟨hR, hflag⟩
  | some instr =>
    obtain ⟨instr', hi', huse, hdef⟩ := hud i instr hi
    have hilt := getElem?_some_lt instrs i instr hi
    have hout := liveOutOf_img σ cfg st.1 st'.1 hR i
    have hin : ImgSet σ (liveInOf (liveOutOf cfg st.1 i) (useDef instr))
        (liveInOf (liveOutOf cfg st'.1 i) (useDef instr')) := by
      intro y
      simp only [mem_liveInOf]
      constructor
      · rintro (hy | ⟨hy, hnd⟩)
        · obtain ⟨x, hx, rfl⟩ := (huse y).mp hy
          exact ⟨x, Or.inl hx, rfl⟩
        · obtain ⟨x, hx, rfl⟩ := (hout y).mp hy
          refine ⟨x, Or.inr ⟨hx, ?_⟩, rfl⟩
          intro hxd
          exact hnd ((hdef _).mpr ⟨x, hxd, rfl⟩)
      · rintro ⟨x, (hx | ⟨hx, hnd⟩), rfl⟩
        · exact Or.inl ((huse _).mpr ⟨x, hx, rfl⟩)
        · refine Or.inr ⟨(hout _).mpr ⟨x, hx, rfl⟩, ?_⟩
          intro hd
          obtain ⟨b, hb, hbx⟩ := (hdef _).mp hd
          have hne : x ≠ b := fun e => hnd (e ▸ hb)
          exact hinj i instr hi x (liveOutOf_sub cfg st.1 mf hsub i x hx) b hb hne hbx.symm
    refine ⟨⟨?_, ?_⟩, ?_⟩
    · rw [liveStep_length, liveStep_length]
      exact hR.1
    · intro j y
      rw [liveStep_mem cfg instrs' st' i instr' hi' (by rw [hR.1, hlen]; exact hilt)]
      constructor
      · rintro (hy | ⟨rfl, hy⟩)
        · obtain ⟨x, hx, rfl⟩ := (hR.2 j y).mp hy
          refine ⟨x, ?_, rfl⟩
          rw [liveStep_mem cfg instrs st i instr hi (by rw [hlen]; exact hilt)]
          exact Or.inl hx
        · obtain ⟨x, hx, rfl⟩ := (hin y).mp hy
          refine ⟨x, ?_, rfl⟩
          rw [liveStep_mem cfg instrs st j instr hi (by rw [hlen]; exact hilt)]
          exact Or.inr ⟨rfl, hx⟩
      · rintro ⟨x, hx, rfl⟩
        rw [liveStep_mem cfg instrs st i instr hi (by rw [hlen]; exact hilt)] at hx
        rcases hx with hx | ⟨rfl, hx⟩
        · exact Or.inl ((hR.2 j _).mpr ⟨x, hx, rfl⟩)
        · exact Or.inr ⟨rfl, (hin _).mpr ⟨x, hx, rfl⟩⟩
    · rw [liveStep_flag cfg instrs' st' i instr' hi', liveStep_flag cfg instrs st i instr hi]
      rintro (h | ⟨y, hy, hnew⟩)
      · exact Or.inl (hflag h)
      · obtain ⟨x, hx, rfl⟩ := (hin y).mp hy
        refine Or.inr ⟨x, hx, ?_⟩
        intro hold
        exact hnew ((hR.2 i _).mpr ⟨x, hold, rfl⟩)

theorem liveFold_sim (σ : Int → Int) (cfg : CFG) (instrs instrs' : List Instr)
    (mf : List LiveSet) (hren : Renamed σ cfg instrs instrs' mf) (is : List Nat)
    (st st' : List LiveSet × Bool) (hR : ImgSets σ st.1 st'.1)
    (hflag : st'.2 = true → st.2 = true) (hlen : st.1.length = instrs.length)
    (hsub : SubSets (is.foldl (liveStep cfg instrs) st).1 mf) :
    ImgSets σ (is.foldl (liveStep cfg instrs) st).1 (is.foldl (liveStep cfg instrs') st').1 ∧
    ((is.foldl (liveStep cfg instrs') st').2 = true →
      (is.foldl (liveStep cfg instrs) st).2 = true) := by
  induction is generalizing st st' with
  | nil => exact ⟨hR, hflag⟩
  | cons a rest ih =>
    have hsub0 : SubSets st.1 mf := fun j x hx =>
      hsub j x (liveFold_grows cfg instrs (a :: rest) st hlen j x hx)
    obtain ⟨hR1, hflag1⟩ := liveStep_sim σ cfg instrs instrs' mf hren st st' a hR hflag hlen
      hsub0
    rw [List.foldl_cons, List.foldl_cons]
    exact ih (liveStep cfg instrs st a) (liveStep cfg instrs' st' a) hR1 hflag1
      (by rw [liveStep_length, hlen]) hsub

/-- The fixed-point loop on the renamed list ends, with the same fuel, in the images of the
sets the loop on the original list ends in. -/
theorem liveLoop_sim (σ : Int → Int) (cfg : CFG) (instrs instrs' : List Instr)
    (mf : List LiveSet) (hren : Renamed σ cfg instrs instrs' mf) (fuel : Nat)
    (m m' : List LiveSet) (hR : ImgSets σ m m') (hlen : m.length = instrs.length)
    (h : liveLoop cfg instrs fuel m = some mf) :
    ∃ mf', liveLoop cfg instrs' fuel m' = some mf' ∧ ImgSets σ mf mf' := by
  induction fuel generalizing m m' with
  | zero => simp [liveLoop] at h
  | succ fuel ih =>
    simp only [liveLoop] at h ⊢
    have hl := liveFold_length cfg instrs (List.range instrs.length).reverse (m, false)
    have hlen1 : (liveSweep cfg instrs m).1.length = instrs.length := by
      unfold liveSweep; rw [hl, hlen]
    have hsub : SubSets (liveSweep cfg instrs m).1 mf := by
      by_cases hc : (liveSweep cfg instrs m).2 = true
      · simp only [hc, if_true] at h
        exact (liveLoop_grows cfg instrs fuel _ mf hlen1 h).1
      · simp only [hc, Bool.false_eq_true, if_false, Option.some.injEq] at h
        rw [h]
        intro _ _ hx
        exact hx
    have hsim := liveFold_sim σ cfg instrs instrs' mf hren (List.range instrs.length).reverse
      (m, false) (m', false) hR (fun e => e) hlen hsub
    have hsweep' : liveSweep cfg instrs' m' =
        (List.range instrs.length).reverse.foldl (liveStep cfg instrs') (m', false) := by
      unfold liveSweep; rw [hren.1]
    rw [hsweep']
    obtain ⟨hR1, hflag1⟩ := hsim
    by_cases hc' : ((List.range instrs.length).reverse.foldl (liveStep cfg instrs')
        (m', false)).2 = true
    · have hc : (liveSweep cfg instrs m).2 = true := hflag1 hc'
      simp only [hc, if_true] at h
      simp only [hc', if_true]
      exact ih _ _ hR1 hlen1 h
    · simp only [hc', Bool.false_eq_true, if_false]
      refine ⟨_, rfl, ?_⟩
      by_cases hc : (liveSweep cfg instrs m).2 = true
      · simp only [hc, if_true] at h
        obtain ⟨mf', hloop', hRf⟩ := ih _ _ hR1 hlen1 h
        have hun := liveFold_unchanged cfg instrs' (List.range instrs.length).reverse
          (m', false) (by simpa using hc')
        cases fuel with
        | zero => simp [liveLoop] at hloop'
        | succ f =>
          have e1 : ((List.range instrs.length).reverse.foldl (liveStep cfg instrs')
              (m', false)).1 = m' := hun.1
          simp only [liveLoop] at hloop'
          rw [e1, hsweep'] at hloop'
          simp only [hc', Bool.false_eq_true, if_false, Option.some.injEq] at hloop'
          rw [hloop']
          exact hRf
      · simp only [hc, Bool.false_eq_true, if_false, Option.some.injEq] at h
        rw [← h]
        exact hR1

theorem getElem?_some_mem {α : Type} (l : List α) (i : Nat) (x : α) (h : l[i]? = some x) :
    x ∈ l := by
  have hlt := getElem?_some_lt l i x h
  rw [List.getElem?_eq_getElem hlt] at h
  cases h
  exact List.getElem_mem hlt

theorem liveStep_used (cfg : CFG) (instrs : List Instr) (st : List LiveSet × Bool) (i : Nat)
    (hlen : st.1.length = instrs.length) (hu : UsedIds instrs st.1) :
    UsedIds instrs (liveStep cfg instrs st i).1 := by
  cases hi : instrs[i]? with
  | none =>
    unfold liveStep
    simp only [hi]
    exact hu
  | some instr =>
    intro j x hx
    rw [liveStep_mem cfg instrs st i instr hi
      (by rw [hlen]; exact getElem?_some_lt instrs i instr hi)] at hx
    rcases hx with hx | ⟨_, hx⟩
    · exact hu j x hx
    · rw [mem_liveInOf] at hx
      rcases hx with hx | ⟨hx, _⟩
      · exact ⟨instr, getElem?_some_mem instrs i instr hi, hx⟩
      · rw [mem_liveOutOf] at hx
        obtain ⟨s, _, hx⟩ := hx
        exact hu s x hx

theorem liveFold_used (cfg : CFG) (instrs : List Instr) (is : List Nat)
    (st : List LiveSet × Bool) (hlen : st.1.length = instrs.length)
    (hu : UsedIds instrs st.1) : UsedIds instrs (is.foldl (liveStep cfg instrs) st).1 := by
  induction is generalizing st with
  | nil => exact hu
  | cons a rest ih =>
    rw [List.foldl_cons]
    exact ih _ (by rw [liveStep_length, hlen]) (liveStep_used cfg instrs st a hlen hu)

theorem liveLoop_used (cfg : CFG) (instrs : List Instr) (fuel : Nat) (m mf : List LiveSet)
    (hlen : m.length = instrs.length) (hu : UsedIds instrs m)
    (h : liveLoop cfg instrs fuel m = some mf) : UsedIds instrs mf := by
  induction fuel generalizing m with
  | zero => simp [liveLoop] at h
  | succ fuel ih =>
    simp only [liveLoop] at h
    have hu1 := liveFold_used cfg instrs (List.range instrs.length).reverse (m, false) hlen hu
    have hl := liveFold_length cfg instrs (List.range instrs.length).reverse (m, false)
    by_cases hc : (liveSweep cfg instrs m).2 = true
    · simp only [hc, if_true] at h
      exact ih _ (hl.trans hlen) hu1 h
    · simp only [hc, Bool.false_eq_true, if_false, Option.some.injEq] at h
      rw [← h]
      exact hu1

/-- What a successful first run of `regAlloc` on a list without `TMP_A` registers provides: the
rewritten list, the range of the variables in use, and different registers for a variable
live-out at an instruction and a different variable defined there. -/
theorem regAlloc_run_facts (N numVars : Nat) (live : Liveness) (instrs instrs' : List Instr)
    (alloc : List Reg)
    (ha : regAlloc_alloc useDef N numVars live instrs = .ok alloc)
    (hr : regAlloc useDef N numVars live instrs = .ok instrs')
    (hno : ∀ instr ∈ instrs, ∀ r ∈ regSlots instr, r.tag ≠ .TMP_A) :
    instrs' = instrs.map (substituteRegs (allocReg alloc)) ∧
    (∀ instr ∈ instrs, ∀ d ∈ (useDef instr).use, 0 ≤ d ∧ d < (numVars : Int)) ∧
    (∀ (i : Nat) (instr : Instr), instrs[i]? = some instr →
      ∀ a ∈ (live.computeLiveOut i).elems, ∀ b ∈ (useDef instr).def_, a ≠ b →
        allocId alloc a ≠ allocId alloc b) := by
  obtain ⟨liveWith, hl, hloop⟩ := regAlloc_alloc_parts useDef N numVars live instrs alloc ha
  have hinv := regAlloc_loop_inv liveWith N numVars instrs numVars (le_refl _) alloc hloop
  obtain ⟨_, _, _, hsym, _, hrange⟩ :=
    regAlloc_liveWith_props useDef numVars live instrs liveWith hl
  obtain ⟨_, s0, h0, hinit⟩ := regAlloc_liveWith_ok useDef numVars live instrs liveWith hl
  have hch := LiveSets.init_interferes useDef live instrs numVars s0 liveWith h0 hinit
  have hmap : instrs.mapM (regAlloc_apply useDef alloc) = .ok instrs' := by
    unfold regAlloc at hr
    rw [ha] at hr
    exact hr
  refine ⟨?_, ?_, ?_⟩
  · exact mapM_ok_map _ _ instrs instrs'
      (fun x hx y hy => (regAlloc_apply_ok alloc x y hy (hno x hx)).1) hmap
  · intro instr hin d hd
    obtain ⟨r, hr', ht, rfl⟩ := useDef_use_slot instr d hd
    obtain ⟨y, hy⟩ := mapM_ok_each _ instrs instrs' hmap instr hin
    obtain ⟨a, hget⟩ := (regAlloc_apply_ok alloc instr y hy (hno instr hin)).2 r hr' ht
    rw [vecGet_ok] at hget
    have := getElem?_some_lt alloc _ a hget.2
    have hlen := hinv.1
    omega
  · intro i instr hi a ha' b hb hne
    have hint : liveWith.interferes a b = true := by
      rw [hch]
      exact ⟨i, instr, hi, hne, Or.inr (Or.inl ⟨ha', hb⟩)⟩
    obtain ⟨ra, rb, hra, hrb, _, _, hdiff⟩ :=
      AllocInv_neighbours_differ liveWith N numVars alloc hinv hsym hrange a b hne hint
    unfold allocId
    rw [hra, hrb]
    exact hdiff

theorem regAlloc_ok_alloc (ud : Instr → UseDef) (N numVars : Nat) (live : Liveness)
    (instrs instrs' : List Instr) (hr : regAlloc ud N numVars live instrs = .ok instrs') :
    ∃ alloc, regAlloc_alloc ud N numVars live instrs = .ok alloc := by
  unfold regAlloc at hr
  rw [except_bind_ok] at hr
  obtain ⟨alloc, ha, _⟩ := hr
  exact ⟨alloc, ha⟩

/-- C9: idempotence of allocation.  When v3d `regAlloc` succeeds on a list without `TMP_A`
registers, with the liveness of that list, a second run on the list it left, with the
liveness recomputed on that list (same control-flow graph, same fuel), succeeds and leaves
every instruction unchanged. -/
theorem regAlloc_idempotent (cfg : CFG) (N numVars fuel : Nat) (instrs instrs' : List Instr)
    (live : Liveness)
    (hlive : Liveness.compute cfg instrs fuel = some live)
    (hr : regAlloc useDef N numVars live instrs = .ok instrs')
    (hno : ∀ instr ∈ instrs, ∀ r ∈ regSlots instr, r.tag ≠ .TMP_A) :
    ∃ live', Liveness.compute cfg instrs' fuel = some live' ∧
      regAlloc useDef N numVars live' instrs' = .ok instrs' := by
  obtain ⟨alloc, ha⟩ := regAlloc_ok_alloc useDef N numVars live instrs instrs' hr
  obtain ⟨heq, huse, hinj⟩ := regAlloc_run_facts N numVars live instrs instrs' alloc ha hr hno
  unfold Liveness.compute at hlive
  rw [Option.map_eq_some'] at hlive
  obtain ⟨mf, hloop, rfl⟩ := hlive
  have hlen' : instrs'.length = instrs.length := by rw [heq, List.length_map]
  have hren : Renamed (allocId alloc) cfg instrs instrs' mf := by
    refine ⟨hlen', ?_, hinj⟩
    intro i instr hi
    refine ⟨substituteRegs (allocReg alloc) instr, ?_, ?_, ?_⟩
    · rw [heq, List.getElem?_map, hi]
      rfl
    · exact useDef_use_substituteRegs alloc instr
    · intro y
      rw [useDef_def_substituteRegs, List.mem_map]
  have hempty : ∀ n i, (List.replicate n (⟨[]⟩ : LiveSet)).getD i ⟨[]⟩ = ⟨[]⟩ := by
    intro n i
    simp only [List.getD_eq_getElem?_getD, List.getElem?_replicate]
    split <;> rfl
  obtain ⟨mf', hloop', hR⟩ := liveLoop_sim (allocId alloc) cfg instrs instrs' mf hren fuel
    (List.replicate instrs.length ⟨[]⟩) (List.replicate instrs.length ⟨[]⟩)
    ⟨rfl, fun i y => by simp [hempty]⟩ (by simp) hloop
  have hused := liveLoop_used cfg instrs fuel _ mf (by simp)
    (fun i x hx => by simp [hempty] at hx) hloop
  refine ⟨livenessOf cfg mf', ?_, ?_⟩
  · unfold Liveness.compute
    rw [hlen', hloop']
    rfl
  · refine regAlloc_again N numVars (livenessOf cfg mf) (livenessOf cfg mf') instrs instrs'
      alloc ha hr hno hR.1 ?_ ?_
    · intro i _ x hx
      have hx' : x ∈ (liveOutOf cfg mf i).elems := hx
      rw [mem_liveOutOf] at hx'
      obtain ⟨s, _, hxs⟩ := hx'
      obtain ⟨instr, hin, hxu⟩ := hused s x hxs
      exact huse instr hin x hxu
    · intro i _
      exact liveOutOf_img (allocId alloc) cfg mf mf' hR i

theorem regAlloc_idempotent_witness :
    (Liveness.compute exampleChainCFG exampleChain 5 =
        some (livenessOf exampleChainCFG exampleChainLiveIn) ∧
      regAlloc useDef 32 3 (livenessOf exampleChainCFG exampleChainLiveIn) exampleChain =
        .ok exampleChainOut ∧
      ∀ instr ∈ exampleChain, ∀ r ∈ regSlots instr, r.tag ≠ .TMP_A) ∧
    ∃ live', Liveness.compute exampleChainCFG exampleChainOut 5 = some live' ∧
      regAlloc useDef 32 3 live' exampleChainOut = .ok exampleChainOut :=
  ⟨⟨rfl, rfl, by decide⟩,
    regAlloc_idempotent exampleChainCFG 32 3 5 exampleChain exampleChainOut
      (livenessOf exampleChainCFG exampleChainLiveIn) rfl rfl (by decide)⟩

theorem LiveSet.insert_wf (s : LiveSet) (id : Int) (h : s.WF) : (s.insert id).WF := by
  unfold LiveSet.WF at h ⊢
  unfold LiveSet.insert
  split
  · exact h
  · rename_i hmem
    have hle : s.elems.Sorted (· ≤ ·) := h.imp (fun hab => le_of_lt hab)
    have hs : (List.orderedInsert (· ≤ ·) id s.elems).Sorted (· ≤ ·) := hle.orderedInsert id s.elems
    have hnd : (List.orderedInsert (· ≤ ·) id s.elems).Nodup := by
      rw [(List.perm_orderedInsert (· ≤ ·) id s.elems).nodup_iff, List.nodup_cons]
      exact ⟨hmem, h.nodup⟩
    exact hs.lt_of_le hnd

theorem LiveSet.foldl_insert_wf (l : List Int) (s : LiveSet) (h : s.WF) :
    (l.foldl LiveSet.insert s).WF := by
  induction l generalizing s with
  | nil => exact h
  | cons a rest ih =>
    rw [List.foldl_cons]
    exact ih _ (LiveSet.insert_wf s a h)

theorem LiveSet.add_not_used_fold_wf (l defs : List Int) (s : LiveSet) (h : s.WF) :
    (l.foldl (fun acc j => if j ∈ defs then acc else acc.insert j) s).WF := by
  induction l generalizing s with
  | nil => exact h
  | cons a rest ih =>
    rw [List.foldl_cons]
    apply ih
    split
    · exact h
    · exact LiveSet.insert_wf s a h

theorem LiveSet.add_not_used_wf (s set : LiveSet) (use : UseDef) :
    (s.add_not_used set use).WF := by
  unfold LiveSet.add_not_used
  apply LiveSet.add_not_used_fold_wf
  unfold LiveSet.WF LiveSet.clear
  exact List.sorted_nil

/-- C17, the liveness transfer step.  Whatever `s` holds before, `s.add_not_used(out, ud)` for a
set `out` that is not `s` itself leaves in `s` exactly the elements of `out` that are not
members of `ud.def` (the result does not depend on the old contents of `s`), and a following
`s.add(ud.use)` makes `s` the set `use ∪ (out \ def)`; both results are again ordered sets
without repetition. -/
theorem add_not_used_then_add (s out : LiveSet) (ud : UseDef) :
    (∀ x : Int, x ∈ (s.add_not_used out ud).elems ↔ x ∈ out.elems ∧ x ∉ ud.def_) ∧
    s.add_not_used out ud = (LiveSet.mk []).add_not_used out ud ∧
    (s.add_not_used out ud).WF ∧
    (∀ x : Int, x ∈ ((s.add_not_used out ud).addSet ud.use).elems ↔
      x ∈ ud.use ∨ (x ∈ out.elems ∧ x ∉ ud.def_)) ∧
    ((s.add_not_used out ud).addSet ud.use).WF := by
  refine ⟨LiveSet.mem_add_not_used s out ud, rfl, LiveSet.add_not_used_wf s out ud, ?_, ?_⟩
  · intro x
    rw [LiveSet.mem_addSet, LiveSet.mem_add_not_used]
    tauto
  · exact LiveSet.foldl_insert_wf ud.use _ (LiveSet.add_not_used_wf s out ud)

/-- The tail is not the sequence `nop.thrsw, nop.thrsw, nop, nop, nop, nop.thrsw, nop, nop`: its
signals differ from that sequence, position 4 carries `thrsw` and position 5 does not. -/
theorem end_program_thrsw_not_at_5 :
    v3d.instr.end_program.map (fun i => i.sig_thrsw) ≠
        [true, true, false, false, false, true, false, false] ∧
      (v3d.instr.end_program.getD 4 v3d.instr.nop).sig_thrsw = true ∧
      (v3d.instr.end_program.getD 5 v3d.instr.nop).sig_thrsw = false := by
  decide

/-- C12 as amended.  The tail emitted by `end_program` has exactly eight instructions, each a
`nop` up to its signal and header, with the signals
`nop.thrsw, nop.thrsw, nop, nop, nop.thrsw, nop, nop, nop`: `thrsw` on positions 0, 1 and 4 and
on no other position. -/
theorem end_program_thrsw :
    v3d.instr.end_program.length = 8 ∧
      v3d.instr.end_program.map (fun i => i.sig_thrsw) =
        [true, true, false, false, true, false, false, false] ∧
      v3d.instr.thrswPositions v3d.instr.end_program = [0, 1, 4] ∧
      ∀ i ∈ v3d.instr.end_program,
        i = v3d.instr.nop ∨ i = v3d.instr.nop.thrsw ∨
          i = v3d.instr.nop.thrsw.header "Program tail" := by
  decide

theorem storeRequest_vars (x : Externals) (seq : List Instr) (vd va : Var) :
    storeRequest x seq (.VAR vd) (.VAR va) =
      (seq ++ [mov TMUD (x.srcReg vd), mov TMUA (x.srcReg va), tmuwt], .ok ()) := by
  simp [storeRequest, Expr.isVar, Expr.var]

theorem storeRequest_returns (x : Externals)
    (hput : ∀ (l : List Instr) (e : Expr), ∃ v, (x.putInVar l e).2 = .VAR v)
    (seq : List Instr) (data addr : Expr) :
    ∃ seq', storeRequest x seq data addr = (seq', .ok ()) := by
  unfold storeRequest
  by_cases hc : (!addr.isVar || !data.isVar) = true
  · obtain ⟨va, hva⟩ := hput seq addr
    obtain ⟨vd, hvd⟩ := hput (x.putInVar seq addr).1 data
    simp only [hc, if_true, hva, hvd, Expr.var]
    exact ⟨_, rfl⟩
  · simp only [hc]
    simp only [Bool.or_eq_true, Bool.not_eq_true', not_or, Bool.not_eq_false] at hc
    cases addr <;> cases data <;> simp [Expr.isVar] at hc
    simp only [Expr.var]
    exact ⟨_, rfl⟩

/-- C15.  For every statement whose tag is a DMA/VPM tag (`DMA::is_dma_tag`), v3d `stmt` raises
the fatal error "VPM and DMA reads and writes can not be used for v3d" and leaves the
instruction sequence as it was. -/
theorem stmt_dma_fatal (x : Externals) (seq : List Instr) (s : Stmt)
    (hdma : x.is_dma_tag s.tag = true) :
    SourceTranslate.stmt x seq s =
      (seq, .error (.fatal "VPM and DMA reads and writes can not be used for v3d")) := by
  unfold SourceTranslate.stmt
  rw [if_pos hdma]

theorem stmt_dma_fatal_witness :
    exampleExternals.is_dma_tag (Stmt.mk (.INTRINSIC 0) (.INT_LIT 0) (.INT_LIT 0)).tag = true ∧
      SourceTranslate.stmt exampleExternals [Instr.NO_OP]
          (Stmt.mk (.INTRINSIC 0) (.INT_LIT 0) (.INT_LIT 0)) =
        ([Instr.NO_OP],
          .error (.fatal "VPM and DMA reads and writes can not be used for v3d")) :=
  ⟨rfl, stmt_dma_fatal exampleExternals [Instr.NO_OP]
    (Stmt.mk (.INTRINSIC 0) (.INT_LIT 0) (.INT_LIT 0)) rfl⟩

/-- C16.  For a statement `s` that is not a DMA statement, with a `putInVar` that returns
variables: v3d `stmt` returns, it returns `true` if and only if `s` is a `STORE_REQUEST`, a
call that returns `false` leaves the sequence unchanged, and for a store request whose data
and address are both variables the sequence afterwards is the sequence before followed by
`mov TMUD <- data register`, `mov TMUA <- address register`, `tmuwt`. -/
theorem stmt_store_request (x : Externals)
    (hput : ∀ (l : List Instr) (e : Expr), ∃ v, (x.putInVar l e).2 = .VAR v)
    (seq : List Instr) (s : Stmt) (hdma : x.is_dma_tag s.tag = false) :
    (∃ b, (SourceTranslate.stmt x seq s).2 = .ok b) ∧
    ((SourceTranslate.stmt x seq s).2 = .ok true ↔ s.tag = .STORE_REQUEST) ∧
    ((SourceTranslate.stmt x seq s).2 = .ok false → (SourceTranslate.stmt x seq s).1 = seq) ∧
    (∀ vd va : Var, s.tag = .STORE_REQUEST → s.storeReq_data = .VAR vd →
      s.storeReq_addr = .VAR va →
      SourceTranslate.stmt x seq s =
        (seq ++ [mov TMUD (x.srcReg vd), mov TMUA (x.srcReg va), tmuwt], .ok true)) := by
  have hstore : s.tag = .STORE_REQUEST →
      ∃ seq', SourceTranslate.stmt x seq s = (seq', .ok true) := by
    intro ht
    obtain ⟨seq', h⟩ := storeRequest_returns x hput seq s.storeReq_data s.storeReq_addr
    refine ⟨seq', ?_⟩
    unfold SourceTranslate.stmt
    rw [if_neg (by rw [hdma]; exact Bool.false_ne_true)]
    simp only [ht, h]
  have hother : s.tag ≠ .STORE_REQUEST → SourceTranslate.stmt x seq s = (seq, .ok false) := by
    intro ht
    unfold SourceTranslate.stmt
    rw [if_neg (by rw [hdma]; exact Bool.false_ne_true)]
    split
    · rename_i heq
      exact absurd heq ht
    · rfl
  refine ⟨?_, ?_, ?_, ?_⟩
  · by_cases ht : s.tag = .STORE_REQUEST
    · obtain ⟨seq', h⟩ := hstore ht
      exact ⟨true, by rw [h]⟩
    · exact ⟨false, by rw [hother ht]⟩
  · constructor
    · intro h
      by_contra ht
      rw [hother ht] at h
      simp at h
    · intro ht
      obtain ⟨seq', h⟩ := hstore ht
      rw [h]
  · intro h
    by_cases ht : s.tag = .STORE_REQUEST
    · obtain ⟨seq', h'⟩ := hstore ht
      rw [h'] at h
      simp at h
    · rw [hother ht]
  · intro vd va ht hd ha
    unfold SourceTranslate.stmt
    rw [if_neg (by rw [hdma]; exact Bool.false_ne_true)]
    simp only [ht, hd, ha, storeRequest_vars]

theorem stmt_store_request_witness :
    (∃ b, (SourceTranslate.stmt exampleExternals [Instr.NO_OP]
        (Stmt.mk .STORE_REQUEST (.VAR ⟨.STANDARD, 7⟩) (.VAR ⟨.STANDARD, 3⟩))).2 = .ok b) ∧
    ((SourceTranslate.stmt exampleExternals [Instr.NO_OP]
        (Stmt.mk .STORE_REQUEST (.VAR ⟨.STANDARD, 7⟩) (.VAR ⟨.STANDARD, 3⟩))).2 = .ok true ↔
      (Stmt.mk .STORE_REQUEST (.VAR ⟨.STANDARD, 7⟩) (.VAR ⟨.STANDARD, 3⟩)).tag =
        .STORE_REQUEST) ∧
    ((SourceTranslate.stmt exampleExternals [Instr.NO_OP]
        (Stmt.mk .STORE_REQUEST (.VAR ⟨.STANDARD, 7⟩) (.VAR ⟨.STANDARD, 3⟩))).2 = .ok false →
      (SourceTranslate.stmt exampleExternals [Instr.NO_OP]
        (Stmt.mk .STORE_REQUEST (.VAR ⟨.STANDARD, 7⟩) (.VAR ⟨.STANDARD, 3⟩))).1 =
        [Instr.NO_OP]) ∧
    (∀ vd va : Var,
      (Stmt.mk .STORE_REQUEST (.VAR ⟨.STANDARD, 7⟩) (.VAR ⟨.STANDARD, 3⟩)).tag =
        .STORE_REQUEST →
      (Stmt.mk .STORE_REQUEST (.VAR ⟨.STANDARD, 7⟩) (.VAR ⟨.STANDARD, 3⟩)).storeReq_data =
        .VAR vd →
      (Stmt.mk .STORE_REQUEST (.VAR ⟨.STANDARD, 7⟩) (.VAR ⟨.STANDARD, 3⟩)).storeReq_addr =
        .VAR va →
      SourceTranslate.stmt exampleExternals [Instr.NO_OP]
          (Stmt.mk .STORE_REQUEST (.VAR ⟨.STANDARD, 7⟩) (.VAR ⟨.STANDARD, 3⟩)) =
        ([Instr.NO_OP] ++ [mov TMUD (exampleExternals.srcReg vd),
          mov TMUA (exampleExternals.srcReg va), tmuwt], .ok true)) :=
  stmt_store_request exampleExternals (fun _ _ => ⟨⟨.STANDARD, 0⟩, rfl⟩) [Instr.NO_OP]
    (Stmt.mk .STORE_REQUEST (.VAR ⟨.STANDARD, 7⟩) (.VAR ⟨.STANDARD, 3⟩)) rfl

/-- C19.  `deref_var_var(lhs, rhs)`, the code for `*lhs = rhs`: for an `rhs` that is not the
element-number variable it returns `mov TMUD, reg(rhs)`, `mov TMUA, reg(lhs)`, `tmuwt`; for the
element-number variable, read from `ELEM_ID` as the source asserts, it returns
`mov ACC0, ELEM_ID`, `mov TMUD, ACC0`, `mov TMUA, reg(lhs)`, `tmuwt`. -/
theorem deref_var_var_sequence (x : Externals) (lhs rhs : Var) :
    (rhs.tag ≠ .ELEM_NUM →
      SourceTranslate.deref_var_var x lhs rhs =
        .ok [mov TMUD (x.srcReg rhs), mov TMUA (x.srcReg lhs), tmuwt]) ∧
    (rhs.tag = .ELEM_NUM → x.srcReg rhs = ELEM_ID →
      SourceTranslate.deref_var_var x lhs rhs =
        .ok [mov ACC0 ELEM_ID, mov TMUD ACC0, mov TMUA (x.srcReg lhs), tmuwt]) := by
  constructor
  · intro h
    unfold SourceTranslate.deref_var_var
    rw [if_neg h]
    rfl
  · intro h hreg
    unfold SourceTranslate.deref_var_var
    rw [if_pos h, if_pos hreg]
    rfl

theorem deref_var_var_sequence_witness :
    SourceTranslate.deref_var_var exampleExternals ⟨.STANDARD, 3⟩ ⟨.STANDARD, 7⟩ =
        .ok [mov TMUD (exampleExternals.srcReg ⟨.STANDARD, 7⟩),
          mov TMUA (exampleExternals.srcReg ⟨.STANDARD, 3⟩), tmuwt] ∧
      SourceTranslate.deref_var_var exampleExternals ⟨.STANDARD, 3⟩ ⟨.ELEM_NUM, 0⟩ =
        .ok [mov ACC0 ELEM_ID, mov TMUD ACC0,
          mov TMUA (exampleExternals.srcReg ⟨.STANDARD, 3⟩), tmuwt] :=
  ⟨(deref_var_var_sequence exampleExternals ⟨.STANDARD, 3⟩ ⟨.STANDARD, 7⟩).1 (by decide),
   (deref_var_var_sequence exampleExternals ⟨.STANDARD, 3⟩ ⟨.ELEM_NUM, 0⟩).2 rfl rfl⟩

/-- C20.  `varassign_deref_var(seq, v, e)` for `v = *w`, that is for `e` the dereference of
the variable `w`: the sequence afterwards is the sequence before, unchanged, followed by
exactly five instructions: `mov TMU0_S <- reg(w)`, `nop`, `nop`, `TMU0_TO_ACC4`,
`mov reg(v) <- ACC4`. -/
theorem varassign_deref_var_sequence (x : Externals) (seq : List Instr) (v w : Var) :
    ∃ seq', SourceTranslate.varassign_deref_var x (some seq) v (.DEREF (.VAR w)) = .ok seq' ∧
      seq' = seq ++ [mov TMU0_S (x.srcReg w), Instr.NO_OP, Instr.NO_OP, Instr.TMU0_TO_ACC4,
        mov (x.dstReg v) ACC4] ∧
      seq'.length = seq.length + 5 ∧
      seq'.take seq.length = seq := by
  refine ⟨_, rfl, rfl, ?_, ?_⟩
  · simp
  · simp

theorem add_init_ret_ok (isUniformLoad : Instr → Bool) (q k : Nat) (endifLabel : Label)
    (code : List Instr) :
    add_init_ret isUniformLoad q k endifLabel code =
      .ok (add_init_list q k endifLabel ++ add_uniform_pointer_offset isUniformLoad code) := by
  unfold add_init_ret
  rw [add_init_head_eq]
  rfl

theorem wrap32_id (x : Int) (h1 : -2147483648 ≤ x) (h2 : x < 2147483648) : wrap32 x = x := by
  unfold wrap32
  omega

theorem gcd_body_a (s : GcdVars) (i : Fin 16) :
    (gcd_body s).a i = if s.a i > s.b i then wrap32 (s.a i - s.b i) else s.a i := by
  simp [gcd_body, Where]

theorem gcd_body_b (s : GcdVars) (i : Fin 16) :
    (gcd_body s).b i =
      if (gcd_body s).a i < s.b i then wrap32 (s.b i - (gcd_body s).a i) else s.b i := by
  simp [gcd_body, Where]

theorem gcd_body_lane (s : GcdVars) (i : Fin 16) (h : 1 ≤ s.a i ∧ s.a i ≤ 199 ∧ 1 ≤ s.b i ∧
    s.b i ≤ 199) :
    (gcd_body s).a i = (if s.a i > s.b i then s.a i - s.b i else s.a i) ∧
      (gcd_body s).b i = (if s.a i > s.b i then
        (if s.a i - s.b i < s.b i then s.b i - (s.a i - s.b i) else s.b i)
        else (if s.a i < s.b i then s.b i - s.a i else s.b i)) := by
  have ha : (gcd_body s).a i = (if s.a i > s.b i then s.a i - s.b i else s.a i) := by
    rw [gcd_body_a]
    split
    · exact wrap32_id _ (by omega) (by omega)
    · rfl
  refine ⟨ha, ?_⟩
  rw [gcd_body_b, ha]
  by_cases hab : s.a i > s.b i
  · simp only [hab, if_true]
    split
    · exact wrap32_id _ (by omega) (by omega)
    · rfl
  · simp only [hab, if_false]
    split
    · exact wrap32_id _ (by omega) (by omega)
    · rfl

theorem gcd_body_inRange (s : GcdVars) (h : s.InRange) : (gcd_body s).InRange := by
  intro i
  obtain ⟨ha, hb⟩ := gcd_body_lane s i (h i)
  have hi := h i
  rw [ha, hb]
  split <;> split <;> omega

theorem gcd_iterate_inRange (s : GcdVars) (h : s.InRange) (j : Nat) :
    (gcd_body^[j] s).InRange := by
  induction j generalizing s with
  | zero => exact h
  | succ j ih =>
    rw [Function.iterate_succ_apply]
    exact ih (gcd_body s) (gcd_body_inRange s h)

theorem gcd_cond_lane (s : GcdVars) (h : gcd_cond s = true) (i : Fin 16) : s.a i ≠ s.b i := by
  unfold gcd_cond all at h
  have h' := of_decide_eq_true h i
  exact of_decide_eq_true h'

theorem gcd_body_bound (s : GcdVars) (h : s.InRange) (hc : gcd_cond s = true) (B : Int)
    (ha : s.a 0 ≤ B + 1) (hb : s.b 0 ≤ B + 1) :
    (gcd_body s).a 0 ≤ B ∧ (gcd_body s).b 0 ≤ B := by
  obtain ⟨ea, eb⟩ := gcd_body_lane s 0 (h 0)
  have hne := gcd_cond_lane s hc 0
  have h0 := h 0
  rw [ea, eb]
  split <;> split <;> omega

theorem whileLoop_exit {σ : Type} (cond : σ → Bool) (body : σ → σ) (m : Nat) :
    ∀ (fuel : Nat) (s : σ) (n : Nat), m < fuel → (∀ j, j < m → cond (body^[j] s) = true) →
      cond (body^[m] s) = false →
      whileLoop cond body fuel s n = some (body^[m] s, n + m) := by
  induction m with
  | zero =>
    intro fuel s n hf _ hex
    obtain ⟨f, rfl⟩ : ∃ f, fuel = f + 1 := ⟨fuel - 1, by omega⟩
    unfold whileLoop
    have hex' : cond s = false := hex
    simp [hex']
  | succ m ih =>
    intro fuel s n hf hall hex
    obtain ⟨f, rfl⟩ : ∃ f, fuel = f + 1 := ⟨fuel - 1, by omega⟩
    unfold whileLoop
    have hc : cond s = true := hall 0 (by omega)
    rw [if_pos hc, ih f (body s) (n + 1) (by omega)
      (fun j hj => by
        have := hall (j + 1) (by omega)
        rwa [Function.iterate_succ_apply] at this)
      (by rwa [Function.iterate_succ_apply] at hex)]
    rw [Function.iterate_succ_apply]
    congr 2
    omega

theorem gcd_exit (B : Nat) :
    ∀ s : GcdVars, s.InRange → s.a 0 ≤ (B : Int) → s.b 0 ≤ (B : Int) →
      ∃ m, m < B ∧ (∀ j, j < m → gcd_cond (gcd_body^[j] s) = true) ∧
        gcd_cond (gcd_body^[m] s) = false := by
  induction B with
  | zero =>
    intro s h ha _
    have := h 0
    omega
  | succ B ih =>
    intro s h ha hb
    by_cases hc : gcd_cond s = true
    · obtain ⟨ha', hb'⟩ := gcd_body_bound s h hc (B : Int) (by push_cast at ha; omega)
        (by push_cast at hb; omega)
      obtain ⟨m, hm, hall, hex⟩ := ih (gcd_body s) (gcd_body_inRange s h) ha' hb'
      refine ⟨m + 1, by omega, ?_, ?_⟩
      · intro j hj
        cases j with
        | zero => exact hc
        | succ j =>
          rw [Function.iterate_succ_apply]
          exact hall j (by omega)
      · rw [Function.iterate_succ_apply]
        exact hex
    · refine ⟨0, by omega, ?_, ?_⟩
      · intro j hj
        omega
      · simpa using hc

theorem gcd_input_inRange (p q : IntVec) (hp : ∀ i, 100 ≤ p i ∧ p i ≤ 199)
    (hq : ∀ i, 100 ≤ q i ∧ q i ≤ 199) : (GcdVars.mk p q).InRange := by
  intro i
  have h1 := hp i
  have h2 := hq i
  show 1 ≤ p i ∧ p i ≤ 199 ∧ 1 ≤ q i ∧ q i ≤ 199
  omega

/-- C13 at a failing input.  With 100 and 100 in lane 0 and 199 and 100 in lane 1 the loop
condition `all(a != b)` is false as soon as it is tested, so the kernel stores 199 in lane 1
when the condition is tested before the first pass, and 99 when the loop starts with a pass;
the greatest common divisor of 199 and 100 is 1. -/
theorem gcd_kernel_stops_early :
    (∀ i, 100 ≤ gcdInputP i ∧ gcdInputP i ≤ 199) ∧
      (∀ i, 100 ≤ gcdInputQ i ∧ gcdInputQ i ≤ 199) ∧
      (gcd true 200 gcdInputP gcdInputQ).map (fun r => r 1) = some 199 ∧
      (gcd false 200 gcdInputP gcdInputQ).map (fun r => r 1) = some 99 ∧
      Int.gcd (gcdInputP 1) (gcdInputQ 1) = 1 := by
  refine ⟨by decide, by decide, ?_, ?_, by decide⟩
  · decide
  · decide

/-- C14.  For input vectors with every lane in `[100, 199]` the `While` loop of the kernel
`gcd` exits after at most 200 passes, with 200 tests or more allowed and in both readings of
`While`, and every lane of `a` and of `b` is at least 1 after any number of passes. -/
theorem gcd_loop_terminates (testFirst : Bool) (p q : IntVec)
    (hp : ∀ i, 100 ≤ p i ∧ p i ≤ 199) (hq : ∀ i, 100 ≤ q i ∧ q i ≤ 199) :
    ∃ n, n ≤ 200 ∧
      (∀ fuel, 200 ≤ fuel →
        While testFirst gcd_cond gcd_body fuel ⟨p, q⟩ = some (gcd_body^[n] ⟨p, q⟩, n)) ∧
      gcd_cond (gcd_body^[n] ⟨p, q⟩) = false ∧
      ∀ (j : Nat) (i : Fin 16),
        1 ≤ (gcd_body^[j] ⟨p, q⟩).a i ∧ 1 ≤ (gcd_body^[j] ⟨p, q⟩).b i := by
  have h0 := gcd_input_inRange p q hp hq
  have hall : ∀ (j : Nat) (i : Fin 16),
      1 ≤ (gcd_body^[j] ⟨p, q⟩).a i ∧ 1 ≤ (gcd_body^[j] ⟨p, q⟩).b i := by
    intro j i
    have := gcd_iterate_inRange ⟨p, q⟩ h0 j i
    exact ⟨this.1, this.2.2.1⟩
  cases testFirst with
  | true =>
    obtain ⟨m, hm, hpass, hex⟩ := gcd_exit 199 ⟨p, q⟩ h0 (h0 0).2.1 (h0 0).2.2.2
    refine ⟨m, by omega, ?_, hex, hall⟩
    intro fuel hf
    simp only [While, if_true]
    rw [whileLoop_exit gcd_cond gcd_body m fuel ⟨p, q⟩ 0 (by omega) hpass hex, Nat.zero_add]
  | false =>
    have h1 := gcd_body_inRange ⟨p, q⟩ h0
    obtain ⟨m, hm, hpass, hex⟩ := gcd_exit 199 (gcd_body ⟨p, q⟩) h1 (h1 0).2.1 (h1 0).2.2.2
    rw [← Function.iterate_succ_apply] at hex
    refine ⟨m + 1, by omega, ?_, hex, hall⟩
    intro fuel hf
    simp only [While, Bool.false_eq_true, if_false]
    rw [whileLoop_exit gcd_cond gcd_body m fuel (gcd_body ⟨p, q⟩) 1 (by omega) hpass
      (by rwa [Function.iterate_succ_apply] at hex), Function.iterate_succ_apply, Nat.add_comm]

theorem gcd_loop_terminates_witness :
    (∀ i, 100 ≤ gcdInputP i ∧ gcdInputP i ≤ 199) ∧
      (∀ i, 100 ≤ gcdInputQ i ∧ gcdInputQ i ≤ 199) ∧
      ∃ n, n ≤ 200 ∧
        (∀ fuel, 200 ≤ fuel →
          While true gcd_cond gcd_body fuel ⟨gcdInputP, gcdInputQ⟩ =
            some (gcd_body^[n] ⟨gcdInputP, gcdInputQ⟩, n)) ∧
        gcd_cond (gcd_body^[n] ⟨gcdInputP, gcdInputQ⟩) = false ∧
        ∀ (j : Nat) (i : Fin 16),
          1 ≤ (gcd_body^[j] ⟨gcdInputP, gcdInputQ⟩).a i ∧
            1 ≤ (gcd_body^[j] ⟨gcdInputP, gcdInputQ⟩).b i :=
  ⟨by decide, by decide, gcd_loop_terminates true gcdInputP gcdInputQ (by decide) (by decide)⟩

/-- C28, no self-interference.  After `LiveSets::init` on sets that were just constructed, no
variable is a member of its own set, whatever the instructions, their def sets and their
live-out sets are: `(*this)[u].member(u)` is false for every `u`. -/
theorem init_no_self_interference (ud : Instr → UseDef) (live : Liveness)
    (instrs : List Instr) (size : Nat) (s0 s : LiveSets)
    (h0 : LiveSets.create size = .ok s0) (h : s0.init ud instrs live = .ok s) (u : Int) :
    s.interferes u u = false ∧ ∀ set, s.at u = .ok set → u ∉ set.elems := by
  have hno : s.interferes u u = false := by
    cases hb : s.interferes u u with
    | false => rfl
    | true =>
      rw [LiveSets.init_interferes ud live instrs size s0 s h0 h] at hb
      obtain ⟨_, _, _, hne, _⟩ := hb
      exact absurd rfl hne
  refine ⟨hno, ?_⟩
  intro set hset hmem
  unfold LiveSets.interferes at hno
  rw [hset] at hno
  simp [LiveSet.member, hmem] at hno

theorem init_no_self_interference_witness :
    LiveSets.create 2 = .ok ⟨2, [⟨[]⟩, ⟨[]⟩]⟩ ∧
      (LiveSets.mk 2 [⟨[]⟩, ⟨[]⟩]).init useDef exampleSelf exampleSelfLive =
        .ok ⟨2, [⟨[1]⟩, ⟨[0]⟩]⟩ ∧
      (LiveSets.mk 2 [⟨[1]⟩, ⟨[0]⟩]).interferes 0 0 = false ∧
      ∀ set, (LiveSets.mk 2 [⟨[1]⟩, ⟨[0]⟩]).at 0 = .ok set → (0 : Int) ∉ set.elems :=
  ⟨rfl, rfl, init_no_self_interference useDef exampleSelfLive exampleSelf 2 ⟨2, [⟨[]⟩, ⟨[]⟩]⟩
    ⟨2, [⟨[1]⟩, ⟨[0]⟩]⟩ rfl rfl 0⟩

theorem regAlloc_loop_neighbours (liveWith : LiveSets) (N numVars : Nat)
    (instrs : List Instr) (hsz : liveWith.m_size = numVars)
    (hnb : ∀ u v, liveWith.interferes u v = true →
      (0 ≤ u ∧ u < (numVars : Int)) ∧ (0 ≤ v ∧ v < (numVars : Int)))
    (k : Nat) (hk : k < numVars) (alloc : List Reg)
    (h : regAlloc_loop liveWith N numVars instrs k = .ok alloc) :
    (∀ j, liveWith.interferes (k : Int) j = true → ∃ r, vecGet alloc j = .ok r ∧
      (r.tag = .REG_A → 0 ≤ r.regId ∧ r.regId < (N : Int))) ∧
    ∃ p, liveWith.possible_registers N (k : Int) alloc .REG_A = .ok p := by
  have hinv := regAlloc_loop_inv liveWith N numVars instrs k (by omega) alloc h
  obtain ⟨hlen, hnone, hdone⟩ := hinv
  have hnbs : ∀ j, liveWith.interferes (k : Int) j = true → ∃ r, vecGet alloc j = .ok r ∧
      (r.tag = .REG_A → 0 ≤ r.regId ∧ r.regId < (N : Int)) := by
    intro j hj
    obtain ⟨_, hj0, hjn⟩ := hnb _ _ hj
    obtain ⟨jn, rfl⟩ : ∃ jn : Nat, j = (jn : Int) := ⟨j.toNat, by omega⟩
    have hjn' : jn < numVars := by omega
    by_cases hlt : jn < k
    · obtain ⟨r, hr, _, hlow⟩ := hdone jn hlt
      refine ⟨r, ?_, fun _ => ⟨hlow.1, hlow.2.1⟩⟩
      unfold vecGet
      simp [hr]
    · have hr := hnone jn hjn' (by omega)
      refine ⟨⟨.NONE, 0, false⟩, ?_, ?_⟩
      · unfold vecGet
        simp [hr]
      · intro ht
        simp at ht
  refine ⟨hnbs, ?_⟩
  exact LiveSets.possible_registers_total liveWith N (k : Int) alloc
    ⟨by omega, by rw [hsz]; exact_mod_cast hk⟩ hnbs

/-- C27, index safety of the allocation.  With `numVars > 0` and every id of a live-out set or
def set in `[0, numVars)`: building the sets `liveWith` returns, so every `operator[]` of
`LiveSets::init` is within `[0, m_size)`; before the step for variable `k` every neighbour of
`k` is an index of `alloc`, a neighbour tagged `REG_A` holds a register in `[0, size_regfile)`,
and `possible_registers` returns, so its accesses are within bounds; and when the allocation
succeeds every `alloc[i].regId` lies in `[0, size_regfile)`. -/
theorem regAlloc_index_safety (ud : Instr → UseDef) (N numVars : Nat) (live : Liveness)
    (instrs : List Instr) (hsize : instrs.length = live.size) (hvars : 0 < numVars)
    (hlo : ∀ i, i < instrs.length → idsBelow numVars (live.computeLiveOut i).elems)
    (hdef : ∀ instr ∈ instrs, idsBelow numVars (ud instr).def_) :
    ∃ liveWith, regAlloc_liveWith ud numVars live instrs = .ok liveWith ∧
      (∀ (k : Nat) (alloc : List Reg), k < numVars →
        regAlloc_loop liveWith N numVars instrs k = .ok alloc →
        (∀ j, liveWith.interferes (k : Int) j = true → ∃ r, vecGet alloc j = .ok r ∧
          (r.tag = .REG_A → 0 ≤ r.regId ∧ r.regId < (N : Int))) ∧
        ∃ p, liveWith.possible_registers N (k : Int) alloc .REG_A = .ok p) ∧
      (∀ alloc, regAlloc_alloc ud N numVars live instrs = .ok alloc →
        alloc.length = numVars ∧
        ∀ i, i < numVars → ∃ r, alloc[i]? = some r ∧ 0 ≤ r.regId ∧ r.regId < (N : Int)) := by
  obtain ⟨liveWith, hl⟩ := regAlloc_liveWith_total ud numVars live instrs hsize hvars hlo hdef
  obtain ⟨_, _, hsz, _, _, hnb⟩ := regAlloc_liveWith_props ud numVars live instrs liveWith hl
  refine ⟨liveWith, hl, ?_, ?_⟩
  · intro k alloc hk h
    exact regAlloc_loop_neighbours liveWith N numVars instrs hsz hnb k hk alloc h
  · intro alloc ha
    have hloop := regAlloc_alloc_ok ud N numVars live instrs liveWith alloc hl ha
    have hinv := regAlloc_loop_inv liveWith N numVars instrs numVars (le_refl _) alloc hloop
    refine ⟨hinv.1, ?_⟩
    intro i hi
    obtain ⟨r, hr, _, h0, hN, _⟩ := AllocInv_regId_le liveWith N numVars alloc hinv i hi
    exact ⟨r, hr, h0, hN⟩

theorem regAlloc_index_safety_witness :
    exampleLoop.length = exampleLive.size ∧ 0 < 3 ∧
      ∃ liveWith, regAlloc_liveWith useDef 3 exampleLive exampleLoop = .ok liveWith ∧
        (∀ (k : Nat) (alloc : List Reg), k < 3 →
          regAlloc_loop liveWith 32 3 exampleLoop k = .ok alloc →
          (∀ j, liveWith.interferes (k : Int) j = true → ∃ r, vecGet alloc j = .ok r ∧
            (r.tag = .REG_A → 0 ≤ r.regId ∧ r.regId < ((32 : Nat) : Int))) ∧
          ∃ p, liveWith.possible_registers 32 (k : Int) alloc .REG_A = .ok p) ∧
        (∀ alloc, regAlloc_alloc useDef 32 3 exampleLive exampleLoop = .ok alloc →
          alloc.length = 3 ∧
          ∀ i, i < 3 → ∃ r, alloc[i]? = some r ∧ 0 ≤ r.regId ∧
            r.regId < ((32 : Nat) : Int)) :=
  ⟨rfl, by decide, regAlloc_index_safety useDef 32 3 exampleLive exampleLoop rfl (by decide)
    (by
      intro i _ x hx
      simp only [exampleLive, List.mem_cons, List.mem_singleton, List.not_mem_nil,
        or_false] at hx
      omega)
    (by
      intro instr hin x hx
      simp only [exampleLoop, List.mem_cons, List.mem_singleton, List.not_mem_nil,
        or_false] at hin
      rcases hin with rfl | rfl | rfl | rfl <;>
        simp [useDef, regVar, regA] at hx
      omega)⟩

theorem LiveSets.lowerDegree_le_degree (s : LiveSets) (i : Nat) :
    s.lowerDegree i ≤ s.degree i := by
  unfold LiveSets.lowerDegree LiveSets.degree
  rw [← List.card_toFinset, ← List.card_toFinset]
  apply Finset.card_le_card
  intro x hx
  rw [List.mem_toFinset] at hx ⊢
  exact List.mem_of_mem_filter hx

/-- When the neighbours of `i` below `i` hold all the registers `0 .. M-1`, there are at least
`M` of them. -/
theorem LiveSets.lowerDegree_ge (s : LiveSets) (alloc : List Reg) (i M : Nat)
    (h : ∀ c : Nat, c < M → ∃ j r, s.interferes (i : Int) j = true ∧ j < (i : Int) ∧
      vecGet alloc j = .ok r ∧ r.regId = (c : Int)) :
    M ≤ s.lowerDegree i := by
  unfold LiveSets.lowerDegree
  rw [← List.card_toFinset]
  let g : Int → Int := fun j =>
    match vecGet alloc j with
    | .ok r => r.regId
    | .error _ => -1
  have hsub : (Finset.range M).image (fun n : Nat => (n : Int)) ⊆
      (((s.m_sets.getD i ⟨[]⟩).elems.filter
        (fun j => decide (j < (i : Int)))).toFinset).image g := by
    intro x hx
    rw [Finset.mem_image] at hx
    obtain ⟨c, hc, rfl⟩ := hx
    rw [Finset.mem_range] at hc
    obtain ⟨j, r, hint, hlt, hget, hreg⟩ := h c hc
    rw [Finset.mem_image]
    refine ⟨j, ?_, ?_⟩
    · rw [List.mem_toFinset, List.mem_filter]
      rw [LiveSets.interferes_iff] at hint
      refine ⟨?_, by simpa using hlt⟩
      simpa using hint.2.2
    · show (match vecGet alloc j with
        | .ok r => r.regId
        | .error _ => -1) = (c : Int)
      rw [hget]
      exact hreg
  have hcard := Finset.card_le_card hsub
  rw [Finset.card_image_of_injective _ (fun a b hab => by exact_mod_cast hab),
    Finset.card_range] at hcard
  exact le_trans hcard Finset.card_image_le

theorem regAlloc_loop_total (liveWith : LiveSets) (N numVars : Nat) (instrs : List Instr)
    (hN : 0 < N) (hsz : liveWith.m_size = numVars)
    (hnb : ∀ u v, liveWith.interferes u v = true →
      (0 ≤ u ∧ u < (numVars : Int)) ∧ (0 ≤ v ∧ v < (numVars : Int)))
    (hdeg : ∀ i, i < numVars → liveWith.degree i < N) (k : Nat) (hk : k ≤ numVars) :
    ∃ alloc, regAlloc_loop liveWith N numVars instrs k = .ok alloc := by
  induction k with
  | zero => exact ⟨_, rfl⟩
  | succ k ih =>
    obtain ⟨alloc, ha⟩ := ih (by omega)
    have hinv := regAlloc_loop_inv liveWith N numVars instrs k (by omega) alloc ha
    rw [regAlloc_loop_succ, ha]
    rcases regAlloc_var_cases liveWith N numVars instrs alloc k (by omega) hN hsz
      (fun j hj => (hnb _ _ hj).2) hinv with hok | ⟨hfull, _⟩
    · exact hok
    · have h1 := LiveSets.lowerDegree_ge liveWith alloc k N hfull
      have h2 := LiveSets.lowerDegree_le_degree liveWith k
      have h3 := hdeg k (by omega)
      omega

/-- C26, the greedy bound.  With the sets `liveWith` of `regAlloc`: when the allocation
succeeds, the register id chosen for variable `i` is at most the number of interfering
neighbours of `i` with an index below `i`; and when every variable has fewer than
`size_regfile` interfering neighbours the allocation loop completes, so the allocation-failure
error is not raised and `regAlloc` goes on to apply the allocation. -/
theorem regAlloc_greedy_bound (ud : Instr → UseDef) (N numVars : Nat) (live : Liveness)
    (instrs : List Instr) (liveWith : LiveSets)
    (hl : regAlloc_liveWith ud numVars live instrs = .ok liveWith) :
    (∀ alloc, regAlloc_alloc ud N numVars live instrs = .ok alloc →
      ∀ i, i < numVars → ∃ r, alloc[i]? = some r ∧ 0 ≤ r.regId ∧
        r.regId ≤ (liveWith.lowerDegree i : Int)) ∧
    ((∀ i, i < numVars → liveWith.degree i < N) →
      ∃ alloc, regAlloc_alloc ud N numVars live instrs = .ok alloc ∧
        regAlloc ud N numVars live instrs = instrs.mapM (regAlloc_apply ud alloc)) := by
  obtain ⟨hvars, _, hsz, _, _, hnb⟩ :=
    regAlloc_liveWith_props ud numVars live instrs liveWith hl
  constructor
  · intro alloc ha i hi
    have hloop := regAlloc_alloc_ok ud N numVars live instrs liveWith alloc hl ha
    have hinv := regAlloc_loop_inv liveWith N numVars instrs numVars (le_refl _) alloc hloop
    obtain ⟨r, hr, _, hlow⟩ := hinv.2.2 i hi
    obtain ⟨h0, _, _, hbelow⟩ := hlow
    refine ⟨r, hr, h0, ?_⟩
    have hge := LiveSets.lowerDegree_ge liveWith alloc i r.regId.toNat (by
      intro c hc
      exact hbelow (c : Int) (by omega) (by omega))
    omega
  · intro hdeg
    have hN : 0 < N := by
      have := hdeg 0 hvars
      omega
    obtain ⟨alloc, hloop⟩ := regAlloc_loop_total liveWith N numVars instrs hN hsz hnb hdeg
      numVars (le_refl _)
    have ha : regAlloc_alloc ud N numVars live instrs = .ok alloc := by
      unfold regAlloc_alloc
      rw [hl]
      exact hloop
    refine ⟨alloc, ha, ?_⟩
    unfold regAlloc
    rw [ha]
    rfl

theorem regAlloc_greedy_bound_witness :
    regAlloc_liveWith useDef 3 exampleLive exampleLoop = .ok exampleLiveWith ∧
      (∀ i, i < 3 → exampleLiveWith.degree i < 32) ∧
      (∀ alloc, regAlloc_alloc useDef 32 3 exampleLive exampleLoop = .ok alloc →
        ∀ i, i < 3 → ∃ r, alloc[i]? = some r ∧ 0 ≤ r.regId ∧
          r.regId ≤ (exampleLiveWith.lowerDegree i : Int)) ∧
      ((∀ i, i < 3 → exampleLiveWith.degree i < 32) →
        ∃ alloc, regAlloc_alloc useDef 32 3 exampleLive exampleLoop = .ok alloc ∧
          regAlloc useDef 32 3 exampleLive exampleLoop =
            exampleLoop.mapM (regAlloc_apply useDef alloc)) :=
  ⟨rfl, by decide,
    regAlloc_greedy_bound useDef 32 3 exampleLive exampleLoop exampleLiveWith rfl⟩

/-- The result of `mem_unlock` and of `mem_free` is not in general the value the `ioctl`
call returned: with an `ioctl` that returns 0 and leaves the handle 5 in `p[5]`, both return 5,
the word `p[5]`, while `ioctl` returned 0. -/
theorem mem_unlock_returns_response_word :
    (mbox_property ioctlUnchanged 3 (mem_unlock ioctlUnchanged 3 5).request).1 = 0 ∧
      (mem_unlock ioctlUnchanged 3 5).result = 5 ∧
      (mbox_property ioctlUnchanged 3 (mem_free ioctlUnchanged 3 5).request).1 = 0 ∧
      (mem_free ioctlUnchanged 3 5).result = 5 := by
  decide

/-- C25 as amended.  For every `ioctl`, file descriptor and handle, `mem_unlock` hands the
message `[28, 0, 0x3000e, 4, 4, handle, 0]` to `mbox_property` and `mem_free` the message
`[28, 0, 0x3000f, 4, 4, handle, 0]`; the result is `0xFFFFFFFF` when the `ioctl` call returns a
negative value, and otherwise it is the response word `p[5]` of the buffer after the call. -/
theorem mem_unlock_result (ioctl : Ioctl) (file_desc : Int) (handle : Nat) :
    ((ioctl file_desc [28, 0, 0x3000e, 4, 4, handle, 0]).1 < 0 →
      (mem_unlock ioctl file_desc handle).result = 0xFFFFFFFF) ∧
    (0 ≤ (ioctl file_desc [28, 0, 0x3000e, 4, 4, handle, 0]).1 →
      (mem_unlock ioctl file_desc handle).result =
        (ioctl file_desc [28, 0, 0x3000e, 4, 4, handle, 0]).2.getD 5 0) ∧
    ((ioctl file_desc [28, 0, 0x3000f, 4, 4, handle, 0]).1 < 0 →
      (mem_free ioctl file_desc handle).result = 0xFFFFFFFF) ∧
    (0 ≤ (ioctl file_desc [28, 0, 0x3000f, 4, 4, handle, 0]).1 →
      (mem_free ioctl file_desc handle).result =
        (ioctl file_desc [28, 0, 0x3000f, 4, 4, handle, 0]).2.getD 5 0) := by
  have hu : (mem_unlock ioctl file_desc handle).result =
      if (ioctl file_desc [28, 0, 0x3000e, 4, 4, handle, 0]).1 < 0 then 0xFFFFFFFF
      else (ioctl file_desc [28, 0, 0x3000e, 4, 4, handle, 0]).2.getD 5 0 := rfl
  have hf : (mem_free ioctl file_desc handle).result =
      if (ioctl file_desc [28, 0, 0x3000f, 4, 4, handle, 0]).1 < 0 then 0xFFFFFFFF
      else (ioctl file_desc [28, 0, 0x3000f, 4, 4, handle, 0]).2.getD 5 0 := rfl
  refine ⟨?_, ?_, ?_, ?_⟩
  · intro h
    rw [hu, if_pos h]
  · intro h
    rw [hu, if_neg (by omega)]
  · intro h
    rw [hf, if_pos h]
  · intro h
    rw [hf, if_neg (by omega)]

theorem mem_unlock_result_witness :
    0 ≤ (ioctlStatusZero 3 [28, 0, 0x3000e, 4, 4, 5, 0]).1 ∧
      (mem_unlock ioctlStatusZero 3 5).result =
        (ioctlStatusZero 3 [28, 0, 0x3000e, 4, 4, 5, 0]).2.getD 5 0 ∧
      (mem_unlock ioctlStatusZero 3 5).result = 0 :=
  ⟨by decide, (mem_unlock_result ioctlStatusZero 3 5).2.1 (by decide), by decide⟩

/-- C29, mailbox request framing.  For all arguments, each of `get_version`, `mem_alloc`,
`mem_free`, `mem_lock`, `mem_unlock`, `execute_code`, `qpu_enable` and `execute_qpu` hands to
`mbox_property` exactly the message written out here: header, its tag id, the size of the
value buffer, the size of the data, the value words in the order of the arguments, and the end
tag.  Each of these messages is framed: word 0 is 4 times the number of words written, word 1
is 0, word 3 is 4 times the number of value words, and the last word is 0. -/
theorem mailbox_requests_framed (ioctl : Ioctl) (file_desc : Int)
    (a b c d e f g : Nat) :
    ((get_version ioctl file_desc).request = [28, 0, 0x10002, 4, 0, 0, 0] ∧
      Framed (get_version ioctl file_desc).request) ∧
    ((mem_alloc ioctl file_desc a b c).request = [36, 0, 0x3000c, 12, 12, a, b, c, 0] ∧
      Framed (mem_alloc ioctl file_desc a b c).request) ∧
    ((mem_free ioctl file_desc a).request = [28, 0, 0x3000f, 4, 4, a, 0] ∧
      Framed (mem_free ioctl file_desc a).request) ∧
    ((mem_lock ioctl file_desc a).request = [28, 0, 0x3000d, 4, 4, a, 0] ∧
      Framed (mem_lock ioctl file_desc a).request) ∧
    ((mem_unlock ioctl file_desc a).request = [28, 0, 0x3000e, 4, 4, a, 0] ∧
      Framed (mem_unlock ioctl file_desc a).request) ∧
    ((execute_code ioctl file_desc a b c d e f g).request =
        [52, 0, 0x30010, 28, 28, a, b, c, d, e, f, g, 0] ∧
      Framed (execute_code ioctl file_desc a b c d e f g).request) ∧
    ((qpu_enable ioctl file_desc a).request = [28, 0, 0x30012, 4, 4, a, 0] ∧
      Framed (qpu_enable ioctl file_desc a).request) ∧
    ((execute_qpu ioctl file_desc a b c d).request =
        [40, 0, 0x30011, 16, 16, a, b, c, d, 0] ∧
      Framed (execute_qpu ioctl file_desc a b c d).request) := by
  refine ⟨⟨rfl, ?_⟩, ⟨rfl, ?_⟩, ⟨rfl, ?_⟩, ⟨rfl, ?_⟩, ⟨rfl, ?_⟩, ⟨rfl, ?_⟩, ⟨rfl, ?_⟩,
    ⟨rfl, ?_⟩⟩ <;>
    simp [Framed, get_version, mem_alloc, mem_free, mem_lock, mem_unlock, execute_code,
      qpu_enable, execute_qpu, mbox_size]

/-- Messages without a tag header are not framed. -/
theorem not_framed_short : ¬ Framed [8, 0] ∧ ¬ Framed [20, 0, 0x3000c, 0, 0] := by
  constructor <;> simp [Framed]

theorem Instr.tag_INIT_BEGIN (instr : Instr) :
    instr.tag = .INIT_BEGIN ↔ instr = .INIT_BEGIN := by
  cases instr <;> simp [Instr.tag]

theorem tag_indices_none (tagi : InstrTag) (l : List Instr) (s : Nat)
    (h : ∀ x ∈ l, x.tag ≠ tagi) : tag_indices tagi l s = [] := by
  induction l generalizing s with
  | nil => rfl
  | cons a rest ih =>
    unfold tag_indices
    rw [if_neg (h a (List.mem_cons_self _ _))]
    exact ih (s + 1) (fun x hx => h x (List.mem_cons_of_mem _ hx))

theorem tag_indices_one (tagi : InstrTag) (pre post : List Instr) (m : Instr) (s : Nat)
    (hpre : ∀ x ∈ pre, x.tag ≠ tagi) (hpost : ∀ x ∈ post, x.tag ≠ tagi) (hm : m.tag = tagi) :
    tag_indices tagi (pre ++ m :: post) s = [s + pre.length] := by
  induction pre generalizing s with
  | nil =>
    simp only [List.nil_append, List.length_nil, Nat.add_zero]
    unfold tag_indices
    rw [if_pos hm, tag_indices_none tagi post (s + 1) hpost]
  | cons a rest ih =>
    simp only [List.cons_append, List.length_cons]
    unfold tag_indices
    rw [if_neg (hpre a (List.mem_cons_self _ _)),
      ih (s + 1) (fun x hx => hpre x (List.mem_cons_of_mem _ hx))]
    congr 1
    omega

theorem OneInitBegin.split (code : List Instr) (k : Nat) (h : OneInitBegin code k) :
    k < code.length ∧ code = code.take k ++ .INIT_BEGIN :: code.drop (k + 1) ∧
      (∀ x ∈ code.take k, x.tag ≠ .INIT_BEGIN) ∧
      (∀ x ∈ code.drop (k + 1), x.tag ≠ .INIT_BEGIN) := by
  obtain ⟨hk, huniq⟩ := h
  have hlt : k < code.length := getElem?_some_lt code k _ hk
  have hget : code[k] = .INIT_BEGIN := by
    rw [List.getElem?_eq_getElem hlt] at hk
    exact Option.some.inj hk
  refine ⟨hlt, ?_, ?_, ?_⟩
  · have h1 := @List.drop_eq_getElem_cons _ k code hlt
    rw [hget] at h1
    rw [← h1, List.take_append_drop]
  · intro x hx htag
    rw [Instr.tag_INIT_BEGIN] at htag
    subst htag
    rw [List.mem_iff_getElem?] at hx
    obtain ⟨n, hn⟩ := hx
    rw [List.getElem?_take] at hn
    by_cases hnk : n < k
    · rw [if_pos hnk] at hn
      have := huniq n hn
      omega
    · rw [if_neg hnk] at hn
      cases hn
  · intro x hx htag
    rw [Instr.tag_INIT_BEGIN] at htag
    subst htag
    rw [List.mem_iff_getElem?] at hx
    obtain ⟨n, hn⟩ := hx
    rw [List.getElem?_drop] at hn
    have := huniq (k + 1 + n) hn
    omega

theorem tag_index_one (code : List Instr) (k : Nat) (h : OneInitBegin code k) :
    tag_index code .INIT_BEGIN true = .ok (k : Int) := by
  obtain ⟨hlt, hsplit, hpre, hpost⟩ := OneInitBegin.split code k h
  unfold tag_index
  rw [hsplit, tag_indices_one .INIT_BEGIN (code.take k) (code.drop (k + 1)) .INIT_BEGIN 0
    hpre hpost rfl]
  simp only [Nat.zero_add, List.length_take]
  rw [Nat.min_eq_left (by omega)]

theorem add_init_eq (isUniformLoad : Instr → Bool) (q n : Nat) (endifLabel : Label)
    (code : List Instr) (k : Nat) (h : OneInitBegin code k) :
    add_init isUniformLoad q n endifLabel code =
      .ok (code.take (k + 1) ++
        (add_init_list q n endifLabel ++ add_uniform_pointer_offset isUniformLoad code) ++
        code.drop (k + 1)) := by
  have hlt := (OneInitBegin.split code k h).1
  unfold add_init
  rw [tag_index_one code k h, add_init_ret_ok]
  simp only [bind, Except.bind, pure, Except.pure]
  have hneg : ¬ ((k : Int) < 0) := by omega
  rw [if_neg hneg]
  simp only [Seq.insert]
  rw [if_pos ⟨by omega, by omega⟩]
  have hnat : ((k : Int) + 1).toNat = k + 1 := by omega
  rw [hnat]

theorem exampleInitCode_marker : OneInitBegin exampleInitCode 3 := by
  refine ⟨rfl, ?_⟩
  intro i hi
  have hlt : i < exampleInitCode.length := getElem?_some_lt exampleInitCode i _ hi
  have hlen : exampleInitCode.length = 8 := rfl
  rw [hlen] at hlt
  interval_cases i <;> first | rfl | (exfalso; revert hi; decide)

theorem insertion_getElem? {α : Type} (a r b : List α) (k : Nat) (ha : a.length = k + 1) :
    (∀ i, i ≤ k → (a ++ r ++ b)[i]? = a[i]?) ∧
    (∀ j, j < r.length → (a ++ r ++ b)[k + 1 + j]? = r[j]?) ∧
    (∀ i, k < i → (a ++ r ++ b)[i + r.length]? = b[i - (k + 1)]?) := by
  refine ⟨?_, ?_, ?_⟩
  · intro i hi
    rw [List.append_assoc, List.getElem?_append_left (by omega)]
  · intro j hj
    rw [List.append_assoc, List.getElem?_append_right (by omega), ha,
      List.getElem?_append_left (by omega)]
    congr 1
    omega
  · intro i hi
    rw [List.getElem?_append_right (by rw [List.length_append]; omega), List.length_append, ha]
    congr 1
    omega

/-- C21.  For a code list with exactly one `INIT_BEGIN`, at index `k`, `add_init` returns the
list with the block `ret` inserted directly after the marker: the block has `11 + p`
instructions, `p` of them the uniform-pointer adds; the instructions `0 .. k` stay at their
indices, the block follows at `k + 1`, and every instruction behind the marker is found
`11 + p` places further on; nothing is removed or altered. -/
theorem add_init_insertion (isUniformLoad : Instr → Bool) (q n : Nat) (endifLabel : Label)
    (code : List Instr) (k : Nat) (h : OneInitBegin code k) :
    ∃ ret code', add_init_ret isUniformLoad q n endifLabel code = .ok ret ∧
      ret.length = 11 + (add_uniform_pointer_offset isUniformLoad code).length ∧
      add_init isUniformLoad q n endifLabel code = .ok code' ∧
      code'.length = code.length + ret.length ∧
      (∀ i, i ≤ k → code'[i]? = code[i]?) ∧
      (∀ j, j < ret.length → code'[k + 1 + j]? = ret[j]?) ∧
      (∀ i, k < i → code'[i + ret.length]? = code[i]?) := by
  have hlt := (OneInitBegin.split code k h).1
  have hlen : (code.take (k + 1)).length = k + 1 := by
    rw [List.length_take]
    omega
  obtain ⟨h1, h2, h3⟩ := insertion_getElem? (code.take (k + 1))
    (add_init_list q n endifLabel ++ add_uniform_pointer_offset isUniformLoad code)
    (code.drop (k + 1)) k hlen
  refine ⟨_, _, add_init_ret_ok isUniformLoad q n endifLabel code, ?_,
    add_init_eq isUniformLoad q n endifLabel code k h, ?_, ?_, h2, ?_⟩
  · rw [List.length_append]
    rfl
  · simp only [List.length_append, List.length_take, List.length_drop]
    omega
  · intro i hi
    rw [h1 i hi, List.getElem?_take_of_lt (by omega)]
  · intro i hi
    rw [h3 i hi, List.getElem?_drop]
    congr 1
    omega

theorem add_init_insertion_witness :
    OneInitBegin exampleInitCode 3 ∧
      ∃ ret code', add_init_ret Instr.isUniformLoad 0 1 7 exampleInitCode = .ok ret ∧
        ret.length = 11 + (add_uniform_pointer_offset Instr.isUniformLoad exampleInitCode).length ∧
        add_init Instr.isUniformLoad 0 1 7 exampleInitCode = .ok code' ∧
        code'.length = exampleInitCode.length + ret.length ∧
        (∀ i, i ≤ 3 → code'[i]? = exampleInitCode[i]?) ∧
        (∀ j, j < ret.length → code'[3 + 1 + j]? = ret[j]?) ∧
        (∀ i, 3 < i → code'[i + ret.length]? = exampleInitCode[i]?) :=
  ⟨exampleInitCode_marker, add_init_insertion Instr.isUniformLoad 0 1 7 exampleInitCode 3
    exampleInitCode_marker⟩

theorem labelRefs_append (a b : List Instr) : labelRefs (a ++ b) = labelRefs a ++ labelRefs b :=
  List.filterMap_append a b _

theorem labelDefs_append (a b : List Instr) : labelDefs (a ++ b) = labelDefs a ++ labelDefs b :=
  List.filterMap_append a b _

theorem add_uniform_pointer_offset_from_labels (isUniformLoad : Instr → Bool)
    (code : List Instr) (start : Nat) :
    labelRefs (add_uniform_pointer_offset_from isUniformLoad start code) = [] ∧
      labelDefs (add_uniform_pointer_offset_from isUniformLoad start code) = [] := by
  induction code generalizing start with
  | nil => exact ⟨rfl, rfl⟩
  | cons instr rest ih =>
    unfold add_uniform_pointer_offset_from
    split
    · exact ⟨rfl, rfl⟩
    · rw [labelRefs_append, labelDefs_append, (ih (start + 1)).1, (ih (start + 1)).2]
      split <;> exact ⟨rfl, rfl⟩

theorem add_init_block_labels (isUniformLoad : Instr → Bool) (q n : Nat) (endifLabel : Label)
    (code : List Instr) :
    labelRefs (add_init_list q n endifLabel ++ add_uniform_pointer_offset isUniformLoad code) =
        [endifLabel] ∧
      labelDefs (add_init_list q n endifLabel ++
        add_uniform_pointer_offset isUniformLoad code) = [endifLabel] := by
  rw [labelRefs_append, labelDefs_append]
  unfold add_uniform_pointer_offset
  rw [(add_uniform_pointer_offset_from_labels isUniformLoad code 0).1,
    (add_uniform_pointer_offset_from_labels isUniformLoad code 0).2]
  exact ⟨rfl, rfl⟩

/-- C22.  The block `add_init` inserts contains exactly one branch-to-label (its third
instruction) and exactly one label definition (its seventh), both with the label that
`freshLabel()` returned.  Hence, for code with exactly one `INIT_BEGIN` in which every label
referenced by a branch is defined exactly once and the fresh label is not defined, the same
holds of the code `add_init` returns. -/
theorem add_init_labels (isUniformLoad : Instr → Bool) (q n : Nat) (endifLabel : Label)
    (code : List Instr) (k : Nat) (h : OneInitBegin code k) (hwf : LabelsWellFormed code)
    (hfresh : endifLabel ∉ labelDefs code) :
    ∃ ret code', add_init_ret isUniformLoad q n endifLabel code = .ok ret ∧
      labelRefs ret = [endifLabel] ∧ labelDefs ret = [endifLabel] ∧
      ret[2]? = some (.BRL ⟨.COND_ALL, .ZC⟩ endifLabel) ∧
      ret[6]? = some (.LAB endifLabel) ∧
      add_init isUniformLoad q n endifLabel code = .ok code' ∧
      LabelsWellFormed code' := by
  obtain ⟨hrefs, hdefs⟩ := add_init_block_labels isUniformLoad q n endifLabel code
  refine ⟨_, _, add_init_ret_ok isUniformLoad q n endifLabel code, hrefs, hdefs, rfl, rfl,
    add_init_eq isUniformLoad q n endifLabel code k h, ?_⟩
  have hcode : code.take (k + 1) ++ code.drop (k + 1) = code := List.take_append_drop _ _
  have hr : labelRefs code = labelRefs (code.take (k + 1)) ++ labelRefs (code.drop (k + 1)) := by
    rw [← labelRefs_append, hcode]
  have hd : labelDefs code = labelDefs (code.take (k + 1)) ++ labelDefs (code.drop (k + 1)) := by
    rw [← labelDefs_append, hcode]
  have hnotref : endifLabel ∉ labelRefs code := by
    intro hin
    have h1 := hwf endifLabel hin
    have h0 : (labelDefs code).count endifLabel = 0 := List.count_eq_zero.mpr hfresh
    omega
  intro l hl
  rw [labelRefs_append, labelRefs_append, hrefs] at hl
  rw [labelDefs_append, labelDefs_append, hdefs, List.count_append, List.count_append]
  have hcount : (labelDefs code).count l =
      (labelDefs (code.take (k + 1))).count l + (labelDefs (code.drop (k + 1))).count l := by
    rw [hd, List.count_append]
  by_cases hle : l = endifLabel
  · subst hle
    have h0 : (labelDefs code).count l = 0 := List.count_eq_zero.mpr hfresh
    have h1 : [l].count l = 1 := by simp
    omega
  · have hin : l ∈ labelRefs code := by
      rw [hr]
      simp only [List.mem_append, List.mem_singleton] at hl ⊢
      rcases hl with (h1 | h1) | h1
      · exact Or.inl h1
      · exact absurd h1 hle
      · exact Or.inr h1
    have h1 := hwf l hin
    have h0 : [endifLabel].count l = 0 := by
      rw [List.count_eq_zero]
      simp only [List.mem_singleton]
      exact hle
    omega

theorem exampleInitCode_labels :
    LabelsWellFormed exampleInitCode ∧ (7 : Label) ∉ labelDefs exampleInitCode := by
  constructor
  · intro l hl
    have hl' : l = 0 := by
      have : labelRefs exampleInitCode = [0] := rfl
      rw [this] at hl
      simpa using hl
    subst hl'
    rfl
  · decide

theorem add_init_labels_witness :
    OneInitBegin exampleInitCode 3 ∧ LabelsWellFormed exampleInitCode ∧
      (7 : Label) ∉ labelDefs exampleInitCode ∧
      ∃ ret code', add_init_ret Instr.isUniformLoad 0 1 7 exampleInitCode = .ok ret ∧
        labelRefs ret = [7] ∧ labelDefs ret = [7] ∧
        ret[2]? = some (.BRL ⟨.COND_ALL, .ZC⟩ 7) ∧
        ret[6]? = some (.LAB 7) ∧
        add_init Instr.isUniformLoad 0 1 7 exampleInitCode = .ok code' ∧
        LabelsWellFormed code' :=
  ⟨exampleInitCode_marker, exampleInitCode_labels.1, exampleInitCode_labels.2,
    add_init_labels Instr.isUniformLoad 0 1 7 exampleInitCode 3 exampleInitCode_marker
      exampleInitCode_labels.1 exampleInitCode_labels.2⟩

theorem v3d_offset_arith (e q : Nat) :
    ((((q <<< (4 % 32)) % 2 ^ 32 + e) % 2 ^ 32) <<< (2 % 32)) % 2 ^ 32 =
      (4 * (e + 16 * q)) % 2 ^ 32 := by
  simp only [Nat.shiftLeft_eq]
  norm_num
  omega

/-- C23.  `get_shift` returns 0 for one QPU and 3 for eight and fails its assertion for every
other number; for 1 or 8 QPUs `calc_stride(num_qpus, reg)` emits two instructions, and
executing them leaves `4 * 16 * num_qpus` (64 resp. 512) in every lane of `rf(reg)`. -/
theorem calc_stride_value (env : Env) (s : v3d.instr.Regs) (reg : Nat) :
    v3d.instr.get_shift 1 = .ok 0 ∧ v3d.instr.get_shift 8 = .ok 3 ∧
    (∀ n, n ≠ 1 → n ≠ 8 → v3d.instr.get_shift n = .error .assertion) ∧
    (∀ num_qpus, num_qpus = 1 ∨ num_qpus = 8 →
      ∃ code, v3d.instr.calc_stride num_qpus reg = .ok code ∧ code.length = 2 ∧
        ∀ l, (v3d.instr.run env s code).rf reg l = 4 * 16 * num_qpus) := by
  refine ⟨rfl, rfl, ?_, ?_⟩
  · intro n h1 h8
    simp [v3d.instr.get_shift, h1, h8]
  · intro num_qpus h
    rcases h with rfl | rfl
    · refine ⟨_, rfl, rfl, ?_⟩
      intro l
      simp [v3d.instr.run, v3d.instr.exec, v3d.instr.mov, v3d.instr.shl, v3d.instr.rf,
        v3d.instr.Instr.header, v3d.instr.Regs.write, v3d.instr.Regs.src,
        v3d.instr.Regs.read, broadcast]
    · refine ⟨_, rfl, rfl, ?_⟩
      intro l
      simp [v3d.instr.run, v3d.instr.exec, v3d.instr.mov, v3d.instr.shl, v3d.instr.rf,
        v3d.instr.Instr.header, v3d.instr.Regs.write, v3d.instr.Regs.src,
        v3d.instr.Regs.read, broadcast]

theorem calc_stride_value_witness :
    ∃ code, v3d.instr.calc_stride 8 5 = .ok code ∧ code.length = 2 ∧
      ∀ l, (v3d.instr.run exampleEnv v3d.instr.exampleRegs code).rf 5 l = 4 * 16 * 8 :=
  (calc_stride_value exampleEnv v3d.instr.exampleRegs 5).2.2.2 8 (Or.inr rfl)

/-- C24.  For 1 or 8 QPUs, executing the instructions of `calc_offset(num_qpus, reg)` with
thread index `t` and element index `e` leaves `rf(reg) = 0` for one QPU and
`rf(reg) = (t >> 2) & 0xF` for eight, and `r0 = 4 * (e + 16 * rf(reg))` in 32-bit arithmetic,
in every lane; for every other number of QPUs `set_qpu_num` fails its assertion, and
`calc_offset` with it. -/
theorem calc_offset_value (env : Env) (s : v3d.instr.Regs) (reg : Nat)
    (ht : env.tidx < 2 ^ 32) :
    (∀ num_qpus, num_qpus = 1 ∨ num_qpus = 8 →
      ∃ code, v3d.instr.calc_offset num_qpus reg = .ok code ∧
        (∀ l, (v3d.instr.run env s code).rf reg l =
          if num_qpus = 8 then (env.tidx >>> 2) &&& 15 else 0) ∧
        (∀ l, (v3d.instr.run env s code).acc 0 l =
          (4 * (env.eidx l + 16 * (v3d.instr.run env s code).rf reg l)) % 2 ^ 32)) ∧
    (∀ n, n ≠ 1 → n ≠ 8 → v3d.instr.set_qpu_num n reg = .error .assertion ∧
      v3d.instr.calc_offset n reg = .error .assertion) := by
  constructor
  · intro num_qpus h
    rcases h with rfl | rfl
    · refine ⟨_, rfl, ?_, ?_⟩
      · intro l
        simp [v3d.instr.run, v3d.instr.exec, v3d.instr.mov, v3d.instr.shl, v3d.instr.rf,
          v3d.instr.eidx, v3d.instr.add, v3d.instr.r0, v3d.instr.r1, v3d.instr.Regs.write,
          v3d.instr.Regs.src, v3d.instr.Regs.read, broadcast]
      · intro l
        have := v3d_offset_arith (env.eidx l) 0
        simp [v3d.instr.run, v3d.instr.exec, v3d.instr.mov, v3d.instr.shl, v3d.instr.rf,
          v3d.instr.eidx, v3d.instr.add, v3d.instr.r0, v3d.instr.r1, v3d.instr.Regs.write,
          v3d.instr.Regs.src, v3d.instr.Regs.read, broadcast] at this ⊢
        omega
    · have ht' : env.tidx % 4294967296 = env.tidx := Nat.mod_eq_of_lt (by simpa using ht)
      refine ⟨_, rfl, ?_, ?_⟩
      · intro l
        simp [v3d.instr.run, v3d.instr.exec, v3d.instr.tidx, v3d.instr.shr, v3d.instr.band,
          v3d.instr.shl, v3d.instr.rf, v3d.instr.eidx, v3d.instr.add, v3d.instr.r0,
          v3d.instr.r1, v3d.instr.Instr.header, v3d.instr.Regs.write, v3d.instr.Regs.src,
          v3d.instr.Regs.read, broadcast, ht']
      · intro l
        have := v3d_offset_arith (env.eidx l) ((env.tidx >>> 2) &&& 15)
        simp [v3d.instr.run, v3d.instr.exec, v3d.instr.tidx, v3d.instr.shr, v3d.instr.band,
          v3d.instr.shl, v3d.instr.rf, v3d.instr.eidx, v3d.instr.add, v3d.instr.r0,
          v3d.instr.r1, v3d.instr.Instr.header, v3d.instr.Regs.write, v3d.instr.Regs.src,
          v3d.instr.Regs.read, broadcast, ht'] at this ⊢
        exact this
  · intro n h1 h8
    simp [v3d.instr.calc_offset, v3d.instr.set_qpu_num, h1, h8, bind, Except.bind]

theorem calc_offset_value_witness :
    exampleEnv.tidx < 2 ^ 32 ∧
      ∃ code, v3d.instr.calc_offset 8 5 = .ok code ∧
        (∀ l, (v3d.instr.run exampleEnv v3d.instr.exampleRegs code).rf 5 l =
          if 8 = 8 then (exampleEnv.tidx >>> 2) &&& 15 else 0) ∧
        (∀ l, (v3d.instr.run exampleEnv v3d.instr.exampleRegs code).acc 0 l =
          (4 * (exampleEnv.eidx l +
            16 * (v3d.instr.run exampleEnv v3d.instr.exampleRegs code).rf 5 l)) % 2 ^ 32) :=
  ⟨by decide, (calc_offset_value exampleEnv v3d.instr.exampleRegs 5 (by decide)).1 8
    (Or.inr rfl)⟩

end V3DLib
